import Mathlib

set_option maxHeartbeats 4000000
set_option maxRecDepth 4000

/-!
Verification of the incremental multipart/form-data parser specified in
spec.md (repository Kludex/parser).  The repository ships the package
declaration (`parser/__init__.py`) and its test suite, but the module
`parser/parser.py` holding `MultipartParser` itself is not present; the
state machine below is therefore modelled from the specification text
(sections 3, 4, 6 and 7), with the shipped tests fixing the behaviour at
the points the prose leaves open.  Bytes are `Nat` values (0..255), byte
strings are `List Nat`.
-/

/-- Bytes of an ASCII string literal. -/
def ascii (s : String) : List Nat :=
  s.toList.map Char.toNat

/-- Decides whether `pat` is a prefix of `l`. -/
def startsWith : List Nat → List Nat → Bool
  | [], _ => true
  | _ :: _, [] => false
  | x :: xs, y :: ys => (x == y) && startsWith xs ys

/-- Index of the first occurrence of `pat` as a contiguous substring of `l`. -/
def findSub (pat : List Nat) : List Nat → Option Nat
  | [] => if startsWith pat [] then some 0 else none
  | x :: t => if startsWith pat (x :: t) then some 0 else (findSub pat t).map (· + 1)

/-- Longest suffix of the buffer that is a prefix of one of the patterns
(the straddle tail the state machine must keep, spec section 4.1). -/
def keepT (pats : List (List Nat)) : List Nat → List Nat
  | [] => []
  | b :: t => if pats.any (fun q => startsWith (b :: t) q) then b :: t else keepT pats t

/-- Lowercases an ASCII letter byte, leaving other bytes unchanged. -/
def lowerByte (c : Nat) : Nat :=
  if 65 ≤ c ∧ c ≤ 90 then c + 32 else c

/-- Lowercases a byte string. -/
def lowerB (l : List Nat) : List Nat :=
  l.map lowerByte

/-- SP or HTAB. -/
def isOWS (c : Nat) : Bool :=
  c == 32 || c == 9

/-- Strips leading SP/HTAB bytes. -/
def ltrim : List Nat → List Nat
  | [] => []
  | c :: t => if isOWS c then ltrim t else c :: t

/-- Strips trailing whitespace bytes (header lines are free of other
control bytes once validated, so SP/HTAB is the whole whitespace set). -/
def rtrim (l : List Nat) : List Nat :=
  (ltrim l.reverse).reverse

/-- Bytes allowed inside a header line: HTAB or any non-control byte. -/
def allowedB (c : Nat) : Bool :=
  c == 9 || (32 ≤ c && c != 127)

/-- True when `l` ends with CRLF. -/
def endsCRLF (l : List Nat) : Bool :=
  startsWith [10, 13] l.reverse

/-- Drops a trailing CRLF from `l` when present. -/
def stripCRLF (l : List Nat) : List Nat :=
  if endsCRLF l then l.take (l.length - 2) else l

/-- ASCII bytes of the header name the parser requires before a body. -/
def cdBytes : List Nat :=
  ascii "content-disposition"

/-- ASCII bytes of the content-type header name. -/
def ctBytes : List Nat :=
  ascii "content-type"

/-- Result of scanning the input buffer for one CRLF-terminated line. -/
inductive LineScan where
  | more : LineScan
  | bad : LineScan
  | line (l rest : List Nat) : LineScan
deriving DecidableEq

/-- Modelled from the spec: header lines are terminated by CRLF; a lone CR
followed by a non-LF byte is malformed; a buffer with no complete line is
retained (spec section 4.2, header parsing details). -/
def scanLine : List Nat → LineScan
  | [] => .more
  | c :: t =>
    if c = 13 then
      match t with
      | [] => .more
      | d :: r => if d = 10 then .line [] r else .bad
    else
      match scanLine t with
      | .line l rest => .line (c :: l) rest
      | x => x

/-- Parser states (spec section 3). -/
inductive MultipartState where
  | PREAMBLE
  | HEADER
  | BODY
  | END
deriving DecidableEq

/-- Events emitted by the state machine; the source exposes them as the
nested classes `MultipartPart.Header` and `MultipartPart.Body`. -/
inductive MultipartPart where
  | Header (name value : List Nat) : MultipartPart
  | Body (data : List Nat) : MultipartPart
deriving DecidableEq

/-- Aggregated parts; the source exposes `FormData.Field` and
`FormData.File` (spec section 3). -/
inductive FormData where
  | Field (name : List Nat) (data : List Nat) (content_type : Option (List Nat)) : FormData
  | File (name filename : List Nat) (data : List Nat) (content_type : Option (List Nat)) : FormData
deriving DecidableEq

/-- Errors raised by the parser (spec section 7). -/
inductive ParseError where
  | invalidBoundary
  | missingContentDisposition
  | invalidLineBreakAfterDelimiter
  | malformedHeader
deriving DecidableEq

/-- Message attached to each error kind (spec section 7 table). -/
def ParseError.message : ParseError → String
  | .invalidBoundary => "Boundary length must be between 1 and 70 characters."
  | .missingContentDisposition => "Missing content-disposition header"
  | .invalidLineBreakAfterDelimiter => "Invalid line break after delimiter"
  | .malformedHeader => "Malformed header line"

/-- Modelled from the spec: the parser instance of section 3 (boundary,
state, input buffer, event queue, accumulated headers of the current
part).  The module `parser/parser.py` defining it is absent from the
repository sources. -/
structure MultipartParser where
  boundary : List Nat
  state : MultipartState
  buffer : List Nat
  events : List MultipartPart
  headers : List (List Nat × List Nat)
deriving DecidableEq

/-- Appends a Body event unless the fragment is empty. -/
def pushBody (evs : List MultipartPart) (b : List Nat) : List MultipartPart :=
  if b = [] then evs else evs ++ [.Body b]

/-- Modelled from the spec: the byte-driven state machine of section 4
draining the input buffer, written with explicit fuel (every recursive
step consumes at least one buffered byte, so `buffer.length + 1` fuel
always suffices).  PREAMBLE scans for `--boundary` and discriminates the
following bytes (section 4.1): CRLF enters HEADER, `--` ends parsing, a
CR not followed by LF is `InvalidLineBreakAfterDelimiter`
(test_parser_preamble_invalid_line_break_after_delimiter), anything else
is preamble tolerance; a CR reached at the end of the buffer leaves the
parser waiting in PREAMBLE with only the CR retained, so that a delimiter
completed by a later chunk is found again
(test_parser_preamble_cr_after_delimiter fixes this resynchronising
behaviour).  HEADER consumes CRLF-terminated lines, lowercasing the name
and trimming the value, and on the empty line requires a
content-disposition entry (section 4.2).  BODY scans for `--boundary`,
emits the bytes before it (less the CRLF belonging to the delimiter) and
discriminates the tail strictly; with no full delimiter it emits the safe
prefix and retains the tail that could still open a delimiter
(section 4.2, body emission policy). -/
def run : Nat → MultipartParser → Except ParseError MultipartParser
  | 0, p => .ok p
  | Nat.succ fuel, p =>
    if p.state = .END then .ok { p with buffer := [] }
    else if p.state = .PREAMBLE then
      let delim := 45 :: 45 :: p.boundary
      match findSub delim p.buffer with
      | none => .ok { p with buffer := keepT [delim] p.buffer }
      | some i =>
        let rest := p.buffer.drop (i + delim.length)
        if startsWith [13, 10] rest then
          run fuel { p with state := .HEADER, buffer := rest.drop 2, headers := [] }
        else if startsWith [45, 45] rest then
          run fuel { p with state := .END, buffer := [] }
        else if rest = [] then .ok { p with buffer := delim }
        else if rest = [13] then .ok { p with buffer := [13] }
        else if rest = [45] then .ok { p with buffer := delim ++ [45] }
        else if startsWith [13] rest then .error .invalidLineBreakAfterDelimiter
        else run fuel { p with buffer := rest }
    else if p.state = .HEADER then
      match scanLine p.buffer with
      | .more => .ok p
      | .bad => .error .malformedHeader
      | .line l rest =>
        if l = [] then
          if p.headers.any (fun h => h.1 == cdBytes) then
            run fuel { p with state := .BODY, buffer := rest }
          else .error .missingContentDisposition
        else if l.any (fun b => ! allowedB b) then .error .malformedHeader
        else
          match findSub [58] l with
          | none => .error .malformedHeader
          | some k =>
            let n := lowerB (l.take k)
            let v := rtrim (ltrim (l.drop (k + 1)))
            run fuel { p with buffer := rest, headers := p.headers ++ [(n, v)], events := p.events ++ [.Header n v] }
    else
      let delim := 45 :: 45 :: p.boundary
      match findSub delim p.buffer with
      | none =>
        let tail := keepT [13 :: 10 :: delim, delim] p.buffer
        let pre := p.buffer.take (p.buffer.length - tail.length)
        .ok { p with buffer := tail, events := pushBody p.events pre }
      | some i =>
        let pre := p.buffer.take i
        let rest := p.buffer.drop (i + delim.length)
        if startsWith [13, 10] rest then
          run fuel { p with state := .HEADER, buffer := rest.drop 2, headers := [], events := pushBody p.events (stripCRLF pre) }
        else if startsWith [45, 45] rest then
          run fuel { p with state := .END, buffer := [], events := pushBody p.events (stripCRLF pre) }
        else if rest = [] ∨ rest = [13] ∨ rest = [45] then
          let s := if endsCRLF pre then i - 2 else i
          .ok { p with buffer := p.buffer.drop s, events := pushBody p.events (p.buffer.take s) }
        else .error .invalidLineBreakAfterDelimiter

/-- Modelled from the spec: `MultipartParser(boundary)` validates
1 <= len(boundary) <= 70 and otherwise fails with `InvalidBoundary`
(spec section 6). -/
def MultipartParser.new (boundary : List Nat) : Except ParseError MultipartParser :=
  if boundary.length < 1 ∨ boundary.length > 70 then .error .invalidBoundary
  else .ok { boundary := boundary, state := .PREAMBLE, buffer := [], events := [], headers := [] }

/-- Modelled from the spec: `parse(chunk)` appends the chunk to the input
buffer and drains it (spec section 6); a no-op once END is reached. -/
def MultipartParser.parse (p : MultipartParser) (chunk : List Nat) : Except ParseError MultipartParser :=
  run (p.buffer.length + chunk.length + 1) { p with buffer := p.buffer ++ chunk }

/-- Modelled from the spec: `next_event()` pops the oldest queued event. -/
def MultipartParser.next_event (p : MultipartParser) : Option (MultipartPart × MultipartParser) :=
  match p.events with
  | [] => none
  | e :: t => some (e, { p with events := t })

/-- Last-wins lookup in an ordered header list (later entries overwrite
earlier ones with the same name, spec section 4.2). -/
def lookupLast (k : List Nat) : List (List Nat × List Nat) → Option (List Nat)
  | [] => none
  | (n, v) :: t =>
    match lookupLast k t with
    | some r => some r
    | none => if n = k then some v else none

/-- Splits a byte string at each semicolon. -/
def splitOnSemi : List Nat → List (List Nat)
  | [] => [[]]
  | 59 :: t => [] :: splitOnSemi t
  | c :: t =>
    match splitOnSemi t with
    | h :: r => (c :: h) :: r
    | [] => [[c]]

/-- Reads one `name=value` parameter from a semicolon segment: the name is
trimmed and lowercased (parameter names compare case-insensitively), the
value is trimmed but keeps any surrounding quotes (spec section 4.2,
content-disposition value parsing). -/
def paramOf (seg : List Nat) : Option (List Nat × List Nat) :=
  match findSub [61] seg with
  | none => none
  | some k => some (lowerB (rtrim (ltrim (seg.take k))), rtrim (ltrim (seg.drop (k + 1))))

/-- First parameter with the given (lowercase) name in a
content-disposition value. -/
def findParam (pname v : List Nat) : Option (List Nat) :=
  let rec go : List (List Nat × List Nat) → Option (List Nat)
    | [] => none
    | (n, w) :: t => if n = pname then some w else go t
  go ((splitOnSemi v).filterMap paramOf)

/-- True for Header events. -/
def isHeaderEv : MultipartPart → Bool
  | .Header _ _ => true
  | _ => false

/-- True for Body events. -/
def isBodyEv : MultipartPart → Bool
  | .Body _ => true
  | _ => false

/-- Modelled from the spec: the aggregator classification (section 4.3); a
`filename` parameter in the content-disposition value makes a `File`,
otherwise a `Field`; quoted parameter values keep their quotes. -/
def classifyPart (hdrs : List (List Nat × List Nat)) (data : List Nat) : FormData :=
  let cd := (lookupLast cdBytes hdrs).getD []
  let ct := lookupLast ctBytes hdrs
  let nm := (findParam (ascii "name") cd).getD []
  match findParam (ascii "filename") cd with
  | some fn => .File nm fn data ct
  | none => .Field nm data ct

/-- Modelled from the spec: `next_part()` drains a contiguous run of
Header events followed by the Body events up to the next part boundary
and aggregates them (spec section 4.3). -/
def MultipartParser.next_part (p : MultipartParser) : Option (FormData × MultipartParser) :=
  match p.events with
  | [] => none
  | _ =>
    let hs := p.events.takeWhile isHeaderEv
    let rest := p.events.dropWhile isHeaderEv
    let bs := rest.takeWhile isBodyEv
    let rest2 := rest.dropWhile isBodyEv
    let hdrs := hs.filterMap fun e =>
      match e with
      | .Header n v => some (n, v)
      | _ => none
    let data := (bs.filterMap fun e =>
      match e with
      | .Body d => some d
      | _ => none).flatten
    some (classifyPart hdrs data, { p with events := rest2 })

/-- View of an Except value as a sum, used to decide equality. -/
def exceptToSum {ε α : Type} : Except ε α → ε ⊕ α
  | .error e => .inl e
  | .ok a => .inr a

instance {ε α : Type} [DecidableEq ε] [DecidableEq α] : DecidableEq (Except ε α) :=
  fun a b =>
    decidable_of_iff (exceptToSum a = exceptToSum b)
      (by cases a <;> cases b <;> simp [exceptToSum])

/-- Merges adjacent Body events, the identification under which a chunked
feed can be compared with a one-shot feed (spec section 3 notes Body may
be emitted multiple times per part as data arrives). -/
def coalesce : List MultipartPart → List MultipartPart
  | [] => []
  | .Body a :: t =>
    match coalesce t with
    | .Body b :: r => .Body (a ++ b) :: r
    | r => .Body a :: r
  | e :: t => e :: coalesce t

/-- Observable outcome of a parse: the error, or the state together with
the coalesced event sequence. -/
def obs (r : Except ParseError MultipartParser) : Except ParseError (MultipartState × List MultipartPart) :=
  r.map (fun p => (p.state, coalesce p.events))

/-- CRLF. -/
def crlf : List Nat := [13, 10]

/-- A part of a multipart message as produced by a client: raw header
name/value pairs and the raw body bytes. -/
structure SpecPart where
  headers : List (List Nat × List Nat)
  body : List Nat
deriving DecidableEq

/-- Wire rendering of one header line, `name: value CRLF` (spec section 6
wire format). -/
def renderHeader (h : List Nat × List Nat) : List Nat :=
  h.1 ++ 58 :: 32 :: (h.2 ++ crlf)

/-- Wire rendering of a header block. -/
def renderLines (hs : List (List Nat × List Nat)) : List Nat :=
  (hs.map renderHeader).flatten

/-- Wire rendering of everything after a dash-boundary: for each part a
CRLF, the header block, the empty line, the body, and the delimiter of
the next part; the close-delimiter ends the stream (spec section 6 wire
format). -/
def tailRender (delim : List Nat) : List SpecPart → List Nat
  | [] => [45, 45]
  | pt :: rest => crlf ++ renderLines pt.headers ++ crlf ++ pt.body ++ crlf ++ delim ++ tailRender delim rest

/-- Wire rendering of a whole multipart message (no preamble, no
epilogue): `--boundary CRLF headers CRLF body (CRLF --boundary ...)
CRLF --boundary--`. -/
def serializeMultipart (boundary : List Nat) (parts : List SpecPart) : List Nat :=
  (45 :: 45 :: boundary) ++ tailRender (45 :: 45 :: boundary) parts

/-- A header pair a client may legally send: nonempty name without colon
or control bytes, value without control bytes. -/
def validHeaderPair (h : List Nat × List Nat) : Bool :=
  !h.1.isEmpty && h.1.all (fun c => allowedB c && c != 58) && h.2.all allowedB

/-- The header block names a content-disposition (required before a body,
spec section 4.2). -/
def hasCD (hs : List (List Nat × List Nat)) : Bool :=
  hs.any fun h => lowerB h.1 == cdBytes

/-- The body never contains an occurrence of the dash-boundary, even one
running into the CRLF and delimiter that follow it (RFC 2046 requires the
boundary not to appear in the content). -/
def bodyOk (delim body : List Nat) : Bool :=
  (List.range body.length).all fun j => ! startsWith delim (body.drop j ++ crlf ++ delim)

/-- A part every multipart producer is allowed to send. -/
def validPart (delim : List Nat) (pt : SpecPart) : Bool :=
  pt.headers.all validHeaderPair && hasCD pt.headers && bodyOk delim pt.body

/-- Trimming the parser applies to a header value. -/
def trimV (v : List Nat) : List Nat :=
  rtrim (ltrim v)

/-- Header events the parser emits for a header block. -/
def hdrEvents (hs : List (List Nat × List Nat)) : List MultipartPart :=
  hs.map fun h => .Header (lowerB h.1) (trimV h.2)

/-- Header pairs the parser accumulates for a header block. -/
def hdrsOf (hs : List (List Nat × List Nat)) : List (List Nat × List Nat) :=
  hs.map fun h => (lowerB h.1, trimV h.2)

/-- Events the parser emits for one part. -/
def eventsOfPart (pt : SpecPart) : List MultipartPart :=
  hdrEvents pt.headers ++ pushBody [] pt.body

/-- Events the parser emits for a whole message. -/
def expectedEvents (parts : List SpecPart) : List MultipartPart :=
  (parts.map eventsOfPart).flatten

/-- Accumulated headers of the final part. -/
def lastHdrs : List SpecPart → List (List Nat × List Nat)
  | [] => []
  | [pt] => hdrsOf pt.headers
  | _ :: rest => lastHdrs rest

/-- Number of state-machine steps needed to consume the rendered parts. -/
def partsSteps : List SpecPart → Nat
  | [] => 0
  | pt :: rest => pt.headers.length + 2 + partsSteps rest

/-- True for File parts. -/
def isFile : FormData → Bool
  | .File _ _ _ _ => true
  | .Field _ _ _ => false

/-- The straddle scenario input of spec section 8, scenario 4. -/
def straddleInput : List Nat :=
  ascii "\r\n--boundary\r\ncontent-disposition: form-data; name=\"x\"\r\n\r\nabc\r\n--boundary--"

/-- A concrete first part for exercising the serializer. -/
def specPartA : SpecPart :=
  { headers := [(ascii "Content-Disposition", ascii "form-data; name=\"a\"")], body := ascii "hello" }

/-- A concrete second part for exercising the serializer. -/
def specPartB : SpecPart :=
  { headers := [(ascii "content-disposition", ascii "form-data; name=\"b\""), (ascii "Content-Type", ascii "text/plain")], body := ascii "world" }

/-- Draining the buffer with always-sufficient fuel (every recursive step
of `run` consumes at least one buffered byte). -/
def drain (p : MultipartParser) : Except ParseError MultipartParser :=
  run (p.buffer.length + 1) p

/-- Relation between two parse outcomes: the same error, or suspended
parsers that agree on everything observable going forward — boundary,
state, buffer, headers — with event queues equal up to coalescing of
adjacent Body fragments. -/
def outRel : Except ParseError MultipartParser → Except ParseError MultipartParser → Prop
  | .error e1, .error e2 => e1 = e2
  | .ok a, .ok b => a.boundary = b.boundary ∧ a.state = b.state ∧ a.buffer = b.buffer ∧ a.headers = b.headers ∧ coalesce a.events = coalesce b.events
  | _, _ => False

/-- Feeding a sequence of chunks one `parse` call at a time. -/
def feedAll (r : Except ParseError MultipartParser) : List (List Nat) → Except ParseError MultipartParser
  | [] => r
  | c :: cs => feedAll (r.bind fun p => p.parse c) cs

/-- The partition avoids the one lossy suspension: no intermediate
`parse` call (one with further chunks still to come) leaves the parser
suspended in PREAMBLE with exactly a retained CR — the state reached when
a chunk ends at the CR directly following a matched preamble delimiter,
after which the machine resynchronises instead of checking the next byte
for LF. -/
def goodFeed (p : MultipartParser) : List (List Nat) → Bool
  | [] => true
  | c :: cs =>
    match cs with
    | [] => true
    | _ :: _ =>
      match p.parse c with
      | .error _ => true
      | .ok q => decide ¬(q.state = .PREAMBLE ∧ q.buffer = [13]) && goodFeed q cs

example : ascii "ab" = [97, 98] := by decide

example : (MultipartParser.new (ascii "boundary")).map (fun p => p.boundary.length) = .ok 8 := by decide

example :
    ((MultipartParser.new (ascii "boundary")).bind
      (fun p => p.parse (ascii "\r\n--boundary"))).map (fun p => p.state)
    = .ok .PREAMBLE := by decide

example :
    ((MultipartParser.new (ascii "boundary")).bind
      (fun p => p.parse (ascii "\r\n--boundary\r\n"))).map (fun p => p.state)
    = .ok .HEADER := by decide

theorem startsWith_self_append (a b : List Nat) : startsWith a (a ++ b) = true := by
  induction a with
  | nil => simp [startsWith]
  | cons x xs ih => simp [startsWith, ih]

theorem startsWith_append_of_le (pat X Y : List Nat) (h : pat.length ≤ X.length) :
    startsWith pat (X ++ Y) = startsWith pat X := by
  induction pat generalizing X with
  | nil => simp [startsWith]
  | cons p ps ih =>
    cases X with
    | nil => exact absurd h (by simp)
    | cons x xs =>
      simp only [List.cons_append, startsWith, List.append_eq]
      rw [ih xs (by simpa using h)]

theorem dropLenPlus (a b : List Nat) (n : Nat) : (a ++ b).drop (a.length + n) = b.drop n := by
  induction a with
  | nil => simp
  | cons x xs ih =>
    simp only [List.cons_append, List.length_cons]
    have hst : xs.length + 1 + n = (xs.length + n) + 1 := by omega
    rw [hst, List.drop_succ_cons, ih]

theorem dropAppendLe (a b : List Nat) (n : Nat) (h : n ≤ a.length) :
    (a ++ b).drop n = a.drop n ++ b := by
  induction a generalizing n with
  | nil =>
    have : n = 0 := by simpa using h
    simp [this]
  | cons x xs ih =>
    cases n with
    | zero => simp
    | succ m =>
      simp only [List.cons_append, List.drop_succ_cons]
      exact ih m (by simpa using h)

theorem takeLenPlus (a b : List Nat) (n : Nat) : (a ++ b).take (a.length + n) = a ++ b.take n := by
  induction a with
  | nil => simp
  | cons x xs ih =>
    simp only [List.cons_append, List.length_cons]
    have hst : xs.length + 1 + n = (xs.length + n) + 1 := by omega
    rw [hst, List.take_succ_cons, ih]

theorem allowed_ne_cr {c : Nat} (h : allowedB c = true) : c ≠ 13 := by
  intro hc
  subst hc
  exact absurd h (by decide)

theorem scanLine_append (l r : List Nat) (h : ∀ c ∈ l, c ≠ 13) :
    scanLine (l ++ 13 :: 10 :: r) = .line l r := by
  induction l with
  | nil => simp [scanLine]
  | cons c t ih =>
    have hc : c ≠ 13 := h c (by simp)
    simp only [List.cons_append, scanLine, if_neg hc, List.append_eq]
    rw [ih (fun x hx => h x (by simp [hx]))]

theorem findSub_eq (pat l : List Nat) (n : Nat)
    (h1 : ∀ j < n, startsWith pat (l.drop j) = false)
    (h2 : startsWith pat (l.drop n) = true) :
    findSub pat l = some n := by
  induction n generalizing l with
  | zero =>
    cases l with
    | nil => simp only [findSub]; rw [if_pos (by simpa using h2)]
    | cons x t => simp only [findSub]; rw [if_pos (by simpa using h2)]
  | succ m ih =>
    cases l with
    | nil =>
      have hf : startsWith pat ([] : List Nat) = false := by simpa using h1 0 (Nat.succ_pos m)
      exact absurd (by simpa using h2) (by simp [hf])
    | cons x t =>
      have h0 : startsWith pat (x :: t) = false := by simpa using h1 0 (Nat.succ_pos m)
      simp only [findSub, h0, Bool.false_eq_true, if_false]
      have := ih t (fun j hj => by simpa using h1 (j + 1) (by omega)) (by simpa using h2)
      simp [this]

theorem pushBody_append (evs : List MultipartPart) (b : List Nat) :
    pushBody evs b = evs ++ pushBody [] b := by
  cases hb : decide (b = []) with
  | true => simp [pushBody, of_decide_eq_true hb]
  | false => simp [pushBody, of_decide_eq_false hb]

theorem ltrim_space (v : List Nat) : ltrim (32 :: v) = ltrim v := by
  simp [ltrim, isOWS]

theorem stripCRLF_crlf (l : List Nat) : stripCRLF (l ++ [13, 10]) = l := by
  have he : endsCRLF (l ++ [13, 10]) = true := by
    simp [endsCRLF, List.reverse_append, startsWith]
  simp only [stripCRLF, he, if_pos]
  simp

theorem run_empty_line_missing (fuel : Nat) (p : MultipartParser) (rest : List Nat)
    (hst : p.state = .HEADER) (hbuf : p.buffer = 13 :: 10 :: rest)
    (hcd : p.headers.any (fun h => h.1 == cdBytes) = false) :
    run (fuel + 1) p = .error .missingContentDisposition := by
  show run (Nat.succ fuel) p = _
  simp only [run, hst, hbuf, hcd, scanLine]
  simp

theorem run_empty_line_ok (fuel : Nat) (p : MultipartParser) (rest : List Nat)
    (hst : p.state = .HEADER) (hbuf : p.buffer = 13 :: 10 :: rest)
    (hcd : p.headers.any (fun h => h.1 == cdBytes) = true) :
    run (fuel + 1) p = run fuel { p with state := .BODY, buffer := rest } := by
  show run (Nat.succ fuel) p = _
  simp only [run, hst, hbuf, hcd, scanLine]
  simp

theorem run_preamble_start (fuel : Nat) (p : MultipartParser) (rest : List Nat)
    (hst : p.state = .PREAMBLE) (hbuf : p.buffer = (45 :: 45 :: p.boundary) ++ 13 :: 10 :: rest) :
    run (fuel + 1) p = run fuel { p with state := .HEADER, buffer := rest, headers := [] } := by
  show run (Nat.succ fuel) p = _
  have hfind : findSub (45 :: 45 :: p.boundary) p.buffer = some 0 :=
    findSub_eq _ _ 0 (fun j hj => absurd hj (by omega))
      (by rw [hbuf]; exact startsWith_self_append _ _)
  simp only [run, hst, hfind]
  rw [hbuf]
  have hd : ((45 :: 45 :: p.boundary) ++ 13 :: 10 :: rest).drop (0 + (45 :: 45 :: p.boundary).length)
      = 13 :: 10 :: rest := by
    rw [Nat.zero_add]
    have := dropLenPlus (45 :: 45 :: p.boundary) (13 :: 10 :: rest) 0
    simpa using this
  simp [hd, startsWith]

theorem run_preamble_close (fuel : Nat) (p : MultipartParser) (eps : List Nat)
    (hst : p.state = .PREAMBLE) (hbuf : p.buffer = (45 :: 45 :: p.boundary) ++ 45 :: 45 :: eps) :
    run (fuel + 2) p = .ok { p with state := .END, buffer := [] } := by
  show run (Nat.succ (fuel + 1)) p = _
  have hfind : findSub (45 :: 45 :: p.boundary) p.buffer = some 0 :=
    findSub_eq _ _ 0 (fun j hj => absurd hj (by omega))
      (by rw [hbuf]; exact startsWith_self_append _ _)
  simp only [run, hst, hfind]
  rw [hbuf]
  have hd : ((45 :: 45 :: p.boundary) ++ 45 :: 45 :: eps).drop (0 + (45 :: 45 :: p.boundary).length)
      = 45 :: 45 :: eps := by
    rw [Nat.zero_add]
    have := dropLenPlus (45 :: 45 :: p.boundary) (45 :: 45 :: eps) 0
    simpa using this
  simp only [hd, startsWith]
  show run (Nat.succ fuel) { p with state := .END, buffer := [] } = _
  simp [run]

theorem findSub_colon (n raw : List Nat) (hnA : ∀ c ∈ n, c ≠ 58) :
    findSub [58] (n ++ 58 :: raw) = some n.length := by
  apply findSub_eq
  · intro j hj
    rw [dropAppendLe n (58 :: raw) j (Nat.le_of_lt hj)]
    rw [List.drop_eq_getElem_cons hj]
    have hne : n[j] ≠ 58 := hnA _ (List.getElem_mem hj)
    simp [startsWith]
    omega
  · have := dropLenPlus n (58 :: raw) 0
    simp only [Nat.add_zero] at this
    rw [this]
    simp [startsWith]

theorem run_header_line (fuel : Nat) (p : MultipartParser) (n raw rest : List Nat)
    (hst : p.state = .HEADER)
    (hbuf : p.buffer = n ++ 58 :: (raw ++ 13 :: 10 :: rest))
    (hnA : ∀ c ∈ n, allowedB c = true ∧ c ≠ 58)
    (hrA : ∀ c ∈ raw, allowedB c = true) :
    run (fuel + 1) p = run fuel { p with buffer := rest, headers := p.headers ++ [(lowerB n, rtrim (ltrim raw))], events := p.events ++ [.Header (lowerB n) (rtrim (ltrim raw))] } := by
  have hbuf2 : p.buffer = (n ++ 58 :: raw) ++ 13 :: 10 :: rest := by
    rw [hbuf]; simp
  have hscan : scanLine p.buffer = .line (n ++ 58 :: raw) rest := by
    rw [hbuf2]
    apply scanLine_append
    intro c hc
    rcases List.mem_append.mp hc with h | h
    · exact allowed_ne_cr (hnA c h).1
    · rcases List.mem_cons.mp h with h | h
      · omega
      · exact allowed_ne_cr (hrA c h)
  have hA : ((n ++ 58 :: raw).any fun b => ! allowedB b) = false := by
    rw [List.any_eq_false]
    intro x hx
    rcases List.mem_append.mp hx with h | h
    · simp [(hnA x h).1]
    · rcases List.mem_cons.mp h with h | h
      · subst h; decide
      · simp [hrA x h]
  have hcolon : findSub [58] (n ++ 58 :: raw) = some n.length :=
    findSub_colon n raw (fun c hc => (hnA c hc).2)
  have htake : (n ++ 58 :: raw).take n.length = n := by
    have := takeLenPlus n (58 :: raw) 0
    simpa using this
  have hdrop : (n ++ 58 :: raw).drop (n.length + 1) = raw := by
    have := dropLenPlus n (58 :: raw) 1
    simpa using this
  show run (Nat.succ fuel) p = _
  simp only [run, hst, hscan, hA, hcolon, htake, hdrop]
  simp [List.append_eq_nil]

theorem validHeaderPair_parts {h : List Nat × List Nat} (hv : validHeaderPair h = true) :
    (∀ c ∈ h.1, allowedB c = true ∧ c ≠ 58) ∧ (∀ c ∈ h.2, allowedB c = true) := by
  simp only [validHeaderPair, Bool.and_eq_true, List.all_eq_true, Bool.not_eq_true',
    List.isEmpty_eq_false, bne_iff_ne, ne_eq] at hv
  exact ⟨fun c hc => ⟨(hv.1.2 c hc).1, (hv.1.2 c hc).2⟩, fun c hc => hv.2 c hc⟩

theorem run_header_lines (hs : List (List Nat × List Nat)) (fuel : Nat) (p : MultipartParser) (rest : List Nat)
    (hst : p.state = .HEADER)
    (hbuf : p.buffer = renderLines hs ++ rest)
    (hvalid : ∀ h ∈ hs, validHeaderPair h = true) :
    run (hs.length + fuel) p = run fuel { p with buffer := rest, headers := p.headers ++ hdrsOf hs, events := p.events ++ hdrEvents hs } := by
  induction hs generalizing p with
  | nil =>
    simp only [renderLines, List.map_nil, List.flatten_nil, List.nil_append] at hbuf
    simp only [List.length_nil, Nat.zero_add, hdrsOf, hdrEvents, List.map_nil, List.append_nil]
    congr 1
    cases p
    simp_all
  | cons h t ih =>
    have hv := validHeaderPair_parts (hvalid h (by simp))
    have harith : (h :: t).length + fuel = (t.length + fuel) + 1 := by simp; omega
    rw [harith]
    have hbuf2 : p.buffer = h.1 ++ 58 :: ((32 :: h.2) ++ 13 :: 10 :: (renderLines t ++ rest)) := by
      rw [hbuf]
      simp [renderLines, renderHeader, crlf]
    have hstep := run_header_line (t.length + fuel) p h.1 (32 :: h.2) (renderLines t ++ rest) hst hbuf2
      hv.1
      (by intro c hc
          rcases List.mem_cons.mp hc with h32 | hc2
          · subst h32; decide
          · exact hv.2 c hc2)
    rw [hstep]
    rw [ltrim_space]
    have := ih { p with buffer := renderLines t ++ rest, headers := p.headers ++ [(lowerB h.1, rtrim (ltrim h.2))], events := p.events ++ [.Header (lowerB h.1) (rtrim (ltrim h.2))] }
      (by simp [hst]) (by simp) (fun x hx => hvalid x (by simp [hx]))
    rw [this]
    congr 1
    cases p
    simp [hdrsOf, hdrEvents, trimV]

theorem findSub_bodyDelim (bnd body sep : List Nat)
    (hok : bodyOk (45 :: 45 :: bnd) body = true) :
    findSub (45 :: 45 :: bnd) (body ++ 13 :: 10 :: ((45 :: 45 :: bnd) ++ sep)) = some (body.length + 2) := by
  simp only [bodyOk, List.all_eq_true, List.mem_range] at hok
  apply findSub_eq
  · intro j hj
    by_cases hjb : j < body.length
    · have hdrop : (body ++ 13 :: 10 :: ((45 :: 45 :: bnd) ++ sep)).drop j
          = body.drop j ++ 13 :: 10 :: ((45 :: 45 :: bnd) ++ sep) :=
        dropAppendLe _ _ j (Nat.le_of_lt hjb)
      rw [hdrop]
      have hassoc : body.drop j ++ 13 :: 10 :: ((45 :: 45 :: bnd) ++ sep)
          = (body.drop j ++ 13 :: 10 :: (45 :: 45 :: bnd)) ++ sep := by simp
      rw [hassoc]
      have hlen : (45 :: 45 :: bnd).length ≤ (body.drop j ++ 13 :: 10 :: (45 :: 45 :: bnd)).length := by
        simp
        omega
      rw [startsWith_append_of_le _ _ _ hlen]
      have := hok j hjb
      simp only [Bool.not_eq_true'] at this
      simpa [crlf] using this
    · have hcase : j = body.length ∨ j = body.length + 1 := by omega
      rcases hcase with hc | hc
      · subst hc
        have := dropLenPlus body (13 :: 10 :: ((45 :: 45 :: bnd) ++ sep)) 0
        simp only [Nat.add_zero] at this
        rw [this]
        simp [startsWith]
      · subst hc
        have := dropLenPlus body (13 :: 10 :: ((45 :: 45 :: bnd) ++ sep)) 1
        rw [this]
        simp [startsWith]
  · have h2 : (body ++ 13 :: 10 :: ((45 :: 45 :: bnd) ++ sep)).drop (body.length + 2)
        = (45 :: 45 :: bnd) ++ sep := by
      have := dropLenPlus body (13 :: 10 :: ((45 :: 45 :: bnd) ++ sep)) 2
      simpa using this
    rw [h2]
    exact startsWith_self_append _ _

theorem run_end (fuel : Nat) (p : MultipartParser) (hst : p.state = .END) :
    run (fuel + 1) p = .ok { p with buffer := [] } := by
  show run (Nat.succ fuel) p = _
  simp [run, hst]

theorem run_body_next (fuel : Nat) (p : MultipartParser) (body rest : List Nat)
    (hst : p.state = .BODY)
    (hbuf : p.buffer = body ++ 13 :: 10 :: ((45 :: 45 :: p.boundary) ++ 13 :: 10 :: rest))
    (hok : bodyOk (45 :: 45 :: p.boundary) body = true) :
    run (fuel + 1) p = run fuel { p with state := .HEADER, buffer := rest, headers := [], events := pushBody p.events body } := by
  have hfind : findSub (45 :: 45 :: p.boundary) p.buffer = some (body.length + 2) := by
    rw [hbuf]; exact findSub_bodyDelim _ _ _ hok
  have htake : p.buffer.take (body.length + 2) = body ++ [13, 10] := by
    rw [hbuf]
    have := takeLenPlus body (13 :: 10 :: ((45 :: 45 :: p.boundary) ++ 13 :: 10 :: rest)) 2
    simpa using this
  have hbuf3 : p.buffer = (body ++ 13 :: 10 :: (45 :: 45 :: p.boundary)) ++ 13 :: 10 :: rest := by
    rw [hbuf]; simp
  have hA : body.length + 2 + (45 :: 45 :: p.boundary).length
      = (body ++ 13 :: 10 :: (45 :: 45 :: p.boundary)).length + 0 := by
    simp
    omega
  have hdrop : p.buffer.drop ((body.length + 2) + (45 :: 45 :: p.boundary).length)
      = 13 :: 10 :: rest := by
    rw [hbuf3, hA, dropLenPlus]
    simp
  show run (Nat.succ fuel) p = _
  simp only [run, hst, hfind, htake, hdrop]
  rw [show stripCRLF (body ++ [13, 10]) = body from stripCRLF_crlf body]
  simp [startsWith]

theorem run_body_end (fuel : Nat) (p : MultipartParser) (body eps : List Nat)
    (hst : p.state = .BODY)
    (hbuf : p.buffer = body ++ 13 :: 10 :: ((45 :: 45 :: p.boundary) ++ 45 :: 45 :: eps))
    (hok : bodyOk (45 :: 45 :: p.boundary) body = true) :
    run (fuel + 2) p = .ok { p with state := .END, buffer := [], events := pushBody p.events body } := by
  have hfind : findSub (45 :: 45 :: p.boundary) p.buffer = some (body.length + 2) := by
    rw [hbuf]; exact findSub_bodyDelim _ _ _ hok
  have htake : p.buffer.take (body.length + 2) = body ++ [13, 10] := by
    rw [hbuf]
    have := takeLenPlus body (13 :: 10 :: ((45 :: 45 :: p.boundary) ++ 45 :: 45 :: eps)) 2
    simpa using this
  have hbuf3 : p.buffer = (body ++ 13 :: 10 :: (45 :: 45 :: p.boundary)) ++ 45 :: 45 :: eps := by
    rw [hbuf]; simp
  have hA : body.length + 2 + (45 :: 45 :: p.boundary).length
      = (body ++ 13 :: 10 :: (45 :: 45 :: p.boundary)).length + 0 := by
    simp
    omega
  have hdrop : p.buffer.drop ((body.length + 2) + (45 :: 45 :: p.boundary).length)
      = 45 :: 45 :: eps := by
    rw [hbuf3, hA, dropLenPlus]
    simp
  show run (Nat.succ (fuel + 1)) p = _
  simp only [run, hst, hfind, htake, hdrop]
  rw [show stripCRLF (body ++ [13, 10]) = body from stripCRLF_crlf body]
  simp [startsWith]

theorem hdrsOf_any_cd (hs : List (List Nat × List Nat)) (h : hasCD hs = true) :
    ((hdrsOf hs).any fun x => x.1 == cdBytes) = true := by
  simp only [hasCD, List.any_eq_true] at h
  rcases h with ⟨x, hx, hcd⟩
  simp only [hdrsOf, List.any_map, List.any_eq_true, Function.comp]
  exact ⟨x, hx, hcd⟩

theorem validPart_parts {D : List Nat} {pt : SpecPart} (h : validPart D pt = true) :
    (∀ x ∈ pt.headers, validHeaderPair x = true) ∧ hasCD pt.headers = true ∧ bodyOk D pt.body = true := by
  simp only [validPart, Bool.and_eq_true, List.all_eq_true] at h
  exact ⟨h.1.1, h.1.2, h.2⟩

theorem run_headers_block (hs : List (List Nat × List Nat)) (fuel : Nat) (p : MultipartParser) (rest : List Nat)
    (hst : p.state = .HEADER) (hhd : p.headers = [])
    (hbuf : p.buffer = renderLines hs ++ 13 :: 10 :: rest)
    (hv : ∀ h ∈ hs, validHeaderPair h = true)
    (hcd : hasCD hs = true) :
    run (hs.length + 1 + fuel) p = run fuel { p with state := .BODY, buffer := rest, headers := hdrsOf hs, events := p.events ++ hdrEvents hs } := by
  have harith : hs.length + 1 + fuel = hs.length + (fuel + 1) := by omega
  rw [harith]
  rw [run_header_lines hs (fuel + 1) p (13 :: 10 :: rest) hst hbuf hv]
  have h2 := run_empty_line_ok fuel { p with buffer := 13 :: 10 :: rest, headers := p.headers ++ hdrsOf hs, events := p.events ++ hdrEvents hs } rest (by simp [hst]) (by simp) (by simp only [hhd, List.nil_append]; exact hdrsOf_any_cd _ hcd)
  rw [h2]
  congr 1
  cases p
  simp_all

theorem run_parts (parts : List SpecPart) (pt : SpecPart) (fuel : Nat) (p : MultipartParser)
    (hst : p.state = .HEADER) (hhd : p.headers = [])
    (hbuf : p.buffer = renderLines pt.headers ++ 13 :: 10 :: (pt.body ++ 13 :: 10 :: ((45 :: 45 :: p.boundary) ++ tailRender (45 :: 45 :: p.boundary) parts)))
    (hvp : validPart (45 :: 45 :: p.boundary) pt = true)
    (hvall : ∀ q ∈ parts, validPart (45 :: 45 :: p.boundary) q = true) :
    run (partsSteps (pt :: parts) + fuel + 1) p
      = .ok { p with state := .END, buffer := [], events := p.events ++ expectedEvents (pt :: parts), headers := lastHdrs (pt :: parts) } := by
  induction parts generalizing pt p fuel with
  | nil =>
    obtain ⟨hvh, hcd, hbo⟩ := validPart_parts hvp
    have harith : partsSteps [pt] + fuel + 1 = pt.headers.length + 1 + (fuel + 2) := by
      simp [partsSteps]; omega
    rw [harith]
    rw [run_headers_block pt.headers (fuel + 2) p _ hst hhd hbuf hvh hcd]
    have hbend := run_body_end fuel { p with state := MultipartState.BODY, buffer := pt.body ++ 13 :: 10 :: ((45 :: 45 :: p.boundary) ++ tailRender (45 :: 45 :: p.boundary) []), headers := hdrsOf pt.headers, events := p.events ++ hdrEvents pt.headers } pt.body [] rfl (by simp [tailRender]) (by simpa using hbo)
    rw [hbend, pushBody_append]
    cases p
    simp [MultipartParser.mk.injEq, expectedEvents, eventsOfPart, lastHdrs, List.append_assoc]
  | cons q qs ih =>
    obtain ⟨hvh, hcd, hbo⟩ := validPart_parts hvp
    have harith : partsSteps (pt :: q :: qs) + fuel + 1
        = pt.headers.length + 1 + ((partsSteps (q :: qs) + fuel + 1) + 1) := by
      simp [partsSteps]; omega
    rw [harith]
    rw [run_headers_block pt.headers ((partsSteps (q :: qs) + fuel + 1) + 1) p _ hst hhd hbuf hvh hcd]
    have hbnext := run_body_next (partsSteps (q :: qs) + fuel + 1)
      { p with state := MultipartState.BODY, buffer := pt.body ++ 13 :: 10 :: ((45 :: 45 :: p.boundary) ++ tailRender (45 :: 45 :: p.boundary) (q :: qs)), headers := hdrsOf pt.headers, events := p.events ++ hdrEvents pt.headers }
      pt.body (renderLines q.headers ++ 13 :: 10 :: (q.body ++ 13 :: 10 :: ((45 :: 45 :: p.boundary) ++ tailRender (45 :: 45 :: p.boundary) qs)))
      rfl (by simp [tailRender, crlf]) (by simpa using hbo)
    rw [hbnext]
    have hI := ih q fuel { boundary := p.boundary, state := .HEADER, buffer := renderLines q.headers ++ 13 :: 10 :: (q.body ++ 13 :: 10 :: (45 :: 45 :: p.boundary ++ tailRender (45 :: 45 :: p.boundary) qs)), events := pushBody (p.events ++ hdrEvents pt.headers) pt.body, headers := [] } rfl rfl rfl (by simpa using hvall q (by simp)) (fun x hx => hvall x (by simp [hx]))
    refine hI.trans ?_
    rw [pushBody_append]
    cases p
    simp [MultipartParser.mk.injEq, expectedEvents, eventsOfPart, lastHdrs, List.append_assoc]

theorem renderLines_len (hs : List (List Nat × List Nat)) : hs.length ≤ (renderLines hs).length := by
  induction hs with
  | nil => simp [renderLines]
  | cons h t ih =>
    have hlen : (renderLines (h :: t)).length = (renderHeader h).length + (renderLines t).length := by
      simp only [renderLines, List.map_cons, List.flatten_cons, List.length_append]
    have hh : 1 ≤ (renderHeader h).length := by
      simp only [renderHeader, crlf, List.length_append, List.length_cons]
      omega
    simp only [List.length_cons]
    omega

theorem partsSteps_le (D : List Nat) (parts : List SpecPart) :
    partsSteps parts + 1 ≤ (tailRender D parts).length := by
  induction parts with
  | nil => simp [partsSteps, tailRender]
  | cons pt rest ih =>
    have hr := renderLines_len pt.headers
    simp only [partsSteps, tailRender, crlf, List.length_append, List.length_cons] at ih ⊢
    omega

theorem new_ok (boundary : List Nat) (hb : 1 ≤ boundary.length) (hb70 : boundary.length ≤ 70) :
    MultipartParser.new boundary = .ok { boundary := boundary, state := .PREAMBLE, buffer := [], events := [], headers := [] } := by
  rw [MultipartParser.new, if_neg (by omega)]

/-- Claim C3 (body exactness): for every valid multipart input — a wire
serialization of parts whose headers are well formed and include a
content-disposition, and whose bodies avoid the delimiter — a one-shot
parse succeeds, ends in END, and the emitted events are exactly one
Header event per header line plus one Body event per part carrying
precisely the bytes between the header-terminating CRLF and the
CRLF opening its closing delimiter: no byte missing, none duplicated, no
framing byte included. -/
theorem claim_C3 (boundary : List Nat) (parts : List SpecPart)
    (hb : 1 ≤ boundary.length) (hb70 : boundary.length ≤ 70)
    (hv : ∀ q ∈ parts, validPart (45 :: 45 :: boundary) q = true) :
    ∃ p, (MultipartParser.new boundary).bind (fun q => q.parse (serializeMultipart boundary parts)) = .ok p
       ∧ p.state = .END ∧ p.events = expectedEvents parts := by
  rw [new_ok boundary hb hb70]
  show ∃ p, MultipartParser.parse { boundary := boundary, state := .PREAMBLE, buffer := [], events := [], headers := [] } (serializeMultipart boundary parts) = .ok p ∧ _
  simp only [MultipartParser.parse, List.nil_append, List.length_nil, Nat.zero_add]
  cases parts with
  | nil =>
    have hlen : (serializeMultipart boundary ([] : List SpecPart)).length + 1
        = ((serializeMultipart boundary ([] : List SpecPart)).length - 1) + 2 := by
      simp only [serializeMultipart, tailRender, List.length_append, List.length_cons]
      omega
    rw [hlen]
    have hclose := run_preamble_close ((serializeMultipart boundary ([] : List SpecPart)).length - 1)
      { boundary := boundary, state := .PREAMBLE, buffer := serializeMultipart boundary [], events := [], headers := [] }
      [] rfl (by simp [serializeMultipart, tailRender])
    exact ⟨_, hclose, rfl, by simp [expectedEvents]⟩
  | cons pt rest =>
    have hsize := partsSteps_le (45 :: 45 :: boundary) (pt :: rest)
    have hlenS : (serializeMultipart boundary (pt :: rest)).length
        = (45 :: 45 :: boundary).length + (tailRender (45 :: 45 :: boundary) (pt :: rest)).length := by
      simp [serializeMultipart]
      omega
    obtain ⟨f, hf⟩ : ∃ f, (serializeMultipart boundary (pt :: rest)).length + 1
        = (partsSteps (pt :: rest) + f + 1) + 1 := by
      refine ⟨(serializeMultipart boundary (pt :: rest)).length - partsSteps (pt :: rest) - 1, ?_⟩
      simp only [List.length_cons] at hlenS
      omega
    rw [hf]
    have hstart := run_preamble_start (partsSteps (pt :: rest) + f + 1)
      { boundary := boundary, state := .PREAMBLE, buffer := serializeMultipart boundary (pt :: rest), events := [], headers := [] }
      (renderLines pt.headers ++ 13 :: 10 :: (pt.body ++ 13 :: 10 :: ((45 :: 45 :: boundary) ++ tailRender (45 :: 45 :: boundary) rest)))
      rfl (by simp [serializeMultipart, tailRender, crlf])
    rw [hstart]
    have hmain := run_parts rest pt f
      { boundary := boundary, state := .HEADER, buffer := renderLines pt.headers ++ 13 :: 10 :: (pt.body ++ 13 :: 10 :: ((45 :: 45 :: boundary) ++ tailRender (45 :: 45 :: boundary) rest)), events := [], headers := [] }
      rfl rfl rfl (hv pt (by simp)) (fun x hx => hv x (by simp [hx]))
    exact ⟨_, hmain, rfl, by simp⟩

theorem run_body_cr_error (fuel : Nat) (p : MultipartParser) (i c : Nat) (r : List Nat)
    (hst : p.state = .BODY)
    (hfind : findSub (45 :: 45 :: p.boundary) p.buffer = some i)
    (hdrop : p.buffer.drop (i + (45 :: 45 :: p.boundary).length) = 13 :: c :: r)
    (hc : c ≠ 10) :
    run (fuel + 1) p = .error .invalidLineBreakAfterDelimiter := by
  show run (Nat.succ fuel) p = _
  simp only [run, hst, hfind, hdrop]
  have h10 : (10 == c) = false := by
    simpa using (Ne.symm hc)
  simp [startsWith, h10]

theorem lookupLast_append_last (k v : List Nat) (xs : List (List Nat × List Nat)) :
    lookupLast k (xs ++ [(k, v)]) = some v := by
  induction xs with
  | nil => simp [lookupLast]
  | cons h t ih => simp [lookupLast, ih]

/-- Claim C1 — counterexample: chunking invariance fails.  A one-shot
parse of `--boundary\r--boundary\r\n` raises
InvalidLineBreakAfterDelimiter (the CR after the first delimiter is
followed by a dash), while feeding the same bytes as
`--boundary\r` then `--boundary\r\n` succeeds and reaches HEADER,
because the suspended parser retains only the CR and resynchronises —
the behaviour the repository test
test_parser_preamble_cr_after_delimiter demands. -/
theorem claim_C1_counterexample :
    obs ((MultipartParser.new (ascii "boundary")).bind (fun p => p.parse (ascii "--boundary\r--boundary\r\n")))
      = .error .invalidLineBreakAfterDelimiter
    ∧ obs (((MultipartParser.new (ascii "boundary")).bind (fun p => p.parse (ascii "--boundary\r"))).bind (fun p => p.parse (ascii "--boundary\r\n")))
      = .ok (.HEADER, [])
    ∧ obs (((MultipartParser.new (ascii "boundary")).bind (fun p => p.parse (ascii "--boundary\r"))).bind (fun p => p.parse (ascii "--boundary\r\n")))
      ≠ obs ((MultipartParser.new (ascii "boundary")).bind (fun p => p.parse (ascii "--boundary\r--boundary\r\n"))) := by
  refine ⟨by decide, by decide, by decide⟩

/-- Claim C2: the constructor fails with InvalidBoundary, whose message is
"Boundary length must be between 1 and 70 characters.", exactly when the
boundary length is outside [1, 70]; a 70-byte boundary is accepted and a
71-byte boundary rejected. -/
theorem claim_C2 :
    (∀ b : List Nat, MultipartParser.new b = .error .invalidBoundary ↔ (b.length < 1 ∨ b.length > 70))
    ∧ MultipartParser.new (List.replicate 70 120)
        = .ok { boundary := List.replicate 70 120, state := .PREAMBLE, buffer := [], events := [], headers := [] }
    ∧ MultipartParser.new (List.replicate 71 120) = .error .invalidBoundary
    ∧ ParseError.message .invalidBoundary = "Boundary length must be between 1 and 70 characters." := by
  refine ⟨?_, by decide, by decide, rfl⟩
  intro b
  by_cases hcond : b.length < 1 ∨ b.length > 70
  · rw [MultipartParser.new, if_pos hcond]
    exact iff_of_true rfl hcond
  · rw [MultipartParser.new, if_neg hcond]
    exact iff_of_false (by simp) hcond

/-- Witness for claim C2 at the empty boundary. -/
theorem claim_C2_witness :
    MultipartParser.new [] = .error .invalidBoundary ↔ (([] : List Nat).length < 1 ∨ ([] : List Nat).length > 70) :=
  claim_C2.1 []

/-- Claim C4: at the HEADER to BODY transition (the empty line), a missing
content-disposition entry in the accumulated headers makes the parser
fail with MissingContentDisposition ("Missing content-disposition
header"); with the entry present the transition proceeds into BODY
without that error; the repository test input with only a content-type
header raises it. -/
theorem claim_C4 :
    (∀ (fuel : Nat) (p : MultipartParser) (rest : List Nat), p.state = .HEADER → p.buffer = 13 :: 10 :: rest →
        (p.headers.any fun h => h.1 == cdBytes) = false →
        run (fuel + 1) p = .error .missingContentDisposition)
    ∧ (∀ (fuel : Nat) (p : MultipartParser) (rest : List Nat), p.state = .HEADER → p.buffer = 13 :: 10 :: rest →
        (p.headers.any fun h => h.1 == cdBytes) = true →
        run (fuel + 1) p = run fuel { p with state := .BODY, buffer := rest })
    ∧ (MultipartParser.new (ascii "boundary")).bind
        (fun p => p.parse (ascii "\r\n--boundary\r\ncontent-type: text/plain;charset=UTF-8\r\n\r\nBig Hello World Message!\r\n--boundary--"))
      = .error .missingContentDisposition
    ∧ ParseError.message .missingContentDisposition = "Missing content-disposition header" :=
  ⟨fun fuel p rest => run_empty_line_missing fuel p rest,
   fun fuel p rest => run_empty_line_ok fuel p rest,
   by decide, rfl⟩

/-- Witness for claim C4: a HEADER-state parser holding only a
content-type header fails at the empty line. -/
theorem claim_C4_witness :
    (({ boundary := ascii "boundary", state := .HEADER, buffer := [13, 10], events := [], headers := [(ctBytes, ascii "text/plain")] } : MultipartParser).state = .HEADER
      ∧ (({ boundary := ascii "boundary", state := .HEADER, buffer := [13, 10], events := [], headers := [(ctBytes, ascii "text/plain")] } : MultipartParser).headers.any fun h => h.1 == cdBytes) = false)
    ∧ run 1 { boundary := ascii "boundary", state := .HEADER, buffer := [13, 10], events := [], headers := [(ctBytes, ascii "text/plain")] }
      = .error .missingContentDisposition :=
  ⟨⟨rfl, by decide⟩,
   claim_C4.1 0 { boundary := ascii "boundary", state := .HEADER, buffer := [13, 10], events := [], headers := [(ctBytes, ascii "text/plain")] } [] rfl rfl (by decide)⟩

/-- Claim C5: consuming a header line `name: value CRLF` in HEADER state
emits a Header event immediately, with the name lowercased and the value
stripped of leading SP/HTAB and of trailing whitespace; concretely the
line `Content-Disposition: form-data; name="field1"` produces the event
name `content-disposition` with value `form-data; name="field1"`. -/
theorem claim_C5 :
    (∀ (fuel : Nat) (p : MultipartParser) (n raw rest : List Nat), p.state = .HEADER →
        p.buffer = n ++ 58 :: (raw ++ 13 :: 10 :: rest) →
        (∀ c ∈ n, allowedB c = true ∧ c ≠ 58) → (∀ c ∈ raw, allowedB c = true) →
        run (fuel + 1) p = run fuel { p with buffer := rest, headers := p.headers ++ [(lowerB n, rtrim (ltrim raw))], events := p.events ++ [.Header (lowerB n) (rtrim (ltrim raw))] })
    ∧ ((MultipartParser.new (ascii "boundary")).bind
        (fun p => p.parse (ascii "\r\n--boundary\r\nContent-Disposition: form-data; name=\"field1\"\r\n\r\n"))).map
        (fun p => p.next_event.map Prod.fst)
      = .ok (some (.Header (ascii "content-disposition") (ascii "form-data; name=\"field1\""))) :=
  ⟨fun fuel p n raw rest => run_header_line fuel p n raw rest, by decide⟩

/-- Witness for claim C5 on the line `A: x` followed by an empty buffer
tail: the event carries name `a` and the space-trimmed value `x`. -/
theorem claim_C5_witness :
    (({ boundary := ascii "b", state := .HEADER, buffer := [65] ++ 58 :: ([32, 120] ++ 13 :: 10 :: []), events := [], headers := [] } : MultipartParser).state = .HEADER
      ∧ (∀ c ∈ [65], allowedB c = true ∧ c ≠ 58) ∧ (∀ c ∈ [32, 120], allowedB c = true))
    ∧ run 1 { boundary := ascii "b", state := .HEADER, buffer := [65] ++ 58 :: ([32, 120] ++ 13 :: 10 :: []), events := [], headers := [] }
      = run 0 { boundary := ascii "b", state := .HEADER, buffer := [], events := [] ++ [.Header (lowerB [65]) (rtrim (ltrim [32, 120]))], headers := [] ++ [(lowerB [65], rtrim (ltrim [32, 120]))] } :=
  ⟨⟨rfl, by decide, by decide⟩,
   claim_C5.1 0 { boundary := ascii "b", state := .HEADER, buffer := [65] ++ 58 :: ([32, 120] ++ 13 :: 10 :: []), events := [], headers := [] } [65] [32, 120] [] rfl rfl (by decide) (by decide)⟩

/-- Claim C6: duplicate headers resolve last-wins — a later entry with the
same name overwrites an earlier one in the accumulated header map — so a
part carrying two content-disposition lines aggregates to a part named by
the second one (name `"field2"` in the repository test input). -/
theorem claim_C6 :
    (∀ (k v : List Nat) (xs : List (List Nat × List Nat)), lookupLast k (xs ++ [(k, v)]) = some v)
    ∧ ((MultipartParser.new (ascii "boundary")).bind
        (fun p => p.parse (ascii "\r\n--boundary\r\ncontent-disposition: form-data; name=\"field1\"\r\ncontent-disposition: form-data; name=\"field2\"\r\n\r\nBig Hello World Message!\r\n--boundary--"))).map
        (fun p => p.next_part.map Prod.fst)
      = .ok (some (.Field (ascii "\"field2\"") (ascii "Big Hello World Message!") none)) :=
  ⟨lookupLast_append_last, by decide⟩

/-- Witness for claim C6 with one shadowed entry. -/
theorem claim_C6_witness :
    lookupLast cdBytes ([(cdBytes, [49])] ++ [(cdBytes, [50])]) = some [50] :=
  claim_C6.1 cdBytes [50] [(cdBytes, [49])]

/-- Claim C7: in the BODY delimiter context — a matched `--boundary`
followed by a CR whose next byte is not LF — parse fails with
InvalidLineBreakAfterDelimiter ("Invalid line break after delimiter");
in particular a fresh parser with boundary `boundary` fed
`--boundary\rfoobar` raises it. -/
theorem claim_C7 :
    (∀ (fuel : Nat) (p : MultipartParser) (i c : Nat) (r : List Nat), p.state = .BODY →
        findSub (45 :: 45 :: p.boundary) p.buffer = some i →
        p.buffer.drop (i + (45 :: 45 :: p.boundary).length) = 13 :: c :: r → c ≠ 10 →
        run (fuel + 1) p = .error .invalidLineBreakAfterDelimiter)
    ∧ (MultipartParser.new (ascii "boundary")).bind (fun p => p.parse (ascii "--boundary\rfoobar"))
      = .error .invalidLineBreakAfterDelimiter
    ∧ ParseError.message .invalidLineBreakAfterDelimiter = "Invalid line break after delimiter" :=
  ⟨fun fuel p i c r => run_body_cr_error fuel p i c r, by decide, rfl⟩

/-- Witness for claim C7: a BODY-state parser whose buffer holds
`x\r\n--b\rz` (boundary `b`) fails at the CR followed by `z`. -/
theorem claim_C7_witness :
    (({ boundary := [98], state := .BODY, buffer := [120, 13, 10, 45, 45, 98, 13, 122], events := [], headers := [] } : MultipartParser).state = .BODY
      ∧ findSub [45, 45, 98] [120, 13, 10, 45, 45, 98, 13, 122] = some 3
      ∧ (122 : Nat) ≠ 10)
    ∧ run 1 { boundary := [98], state := .BODY, buffer := [120, 13, 10, 45, 45, 98, 13, 122], events := [], headers := [] }
      = .error .invalidLineBreakAfterDelimiter :=
  ⟨⟨rfl, by decide, by decide⟩,
   claim_C7.1 0 { boundary := [98], state := .BODY, buffer := [120, 13, 10, 45, 45, 98, 13, 122], events := [], headers := [] } 3 122 [] rfl (by decide) (by decide) (by decide)⟩

/-- Claim C8: the aggregator returns a File exactly when the
content-disposition value of the part carries a filename parameter, a Field
otherwise, and quoted parameter values keep their surrounding quotes: the
repository file-upload input aggregates to a File with name `"file"`
and filename `"example.txt"` (quotes included), its first form-data input
to a Field with name `"field1"`. -/
theorem claim_C8 :
    (∀ (hdrs : List (List Nat × List Nat)) (data : List Nat),
        isFile (classifyPart hdrs data) = (findParam (ascii "filename") ((lookupLast cdBytes hdrs).getD [])).isSome)
    ∧ ((MultipartParser.new (ascii "boundary")).bind
        (fun p => p.parse (ascii "\r\n--boundary\r\ncontent-disposition: form-data; name=\"file\"; filename=\"example.txt\"\r\ncontent-type: text/plain;charset=UTF-8\r\n\r\nHello World!\r\n--boundary--"))).map
        (fun p => p.next_part.map Prod.fst)
      = .ok (some (.File (ascii "\"file\"") (ascii "\"example.txt\"") (ascii "Hello World!") (some (ascii "text/plain;charset=UTF-8"))))
    ∧ ((MultipartParser.new (ascii "boundary")).bind
        (fun p => p.parse (ascii "\r\n--boundary\r\ncontent-disposition: form-data; name=\"field1\"\r\ncontent-type: text/plain;charset=UTF-8\r\n\r\nJoe owes =E2=82=AC100.\r\n--boundary--"))).map
        (fun p => p.next_part.map Prod.fst)
      = .ok (some (.Field (ascii "\"field1\"") (ascii "Joe owes =E2=82=AC100.") (some (ascii "text/plain;charset=UTF-8")))) := by
  refine ⟨?_, by decide, by decide⟩
  intro hdrs data
  simp only [classifyPart]
  cases h : findParam (ascii "filename") ((lookupLast cdBytes hdrs).getD []) <;> simp [isFile, h]

/-- Witness for claim C8 on a header map whose content-disposition has a
filename parameter. -/
theorem claim_C8_witness :
    isFile (classifyPart [(cdBytes, ascii "form-data; filename=\"a\"")] [])
      = (findParam (ascii "filename") ((lookupLast cdBytes [(cdBytes, ascii "form-data; filename=\"a\"")]).getD [])).isSome :=
  claim_C8.1 [(cdBytes, ascii "form-data; filename=\"a\"")] []

/-- Claim C9 — counterexample: the input named by the claim (whose header block has
only Content-Type) does not reach END; the parser raises
MissingContentDisposition at the HEADER to BODY transition. -/
theorem claim_C9_counterexample :
    (MultipartParser.new (ascii "boundary")).bind
      (fun p => p.parse (ascii "\r\n--boundary\r\nContent-Type: text/plain\r\n\r\nHello World!--boundary--"))
      = .error .missingContentDisposition := by
  decide

/-- Claim C9 (amended): with a content-disposition header present, a
close-delimiter `--boundary--` that directly follows the body bytes with
no CRLF in between is still accepted: the parser reaches END and the
Body event carries exactly the bytes before `--boundary--`
(`Hello World!`), with no delimiter byte included. -/
theorem claim_C9 :
    ((MultipartParser.new (ascii "boundary")).bind
      (fun p => p.parse (ascii "\r\n--boundary\r\ncontent-disposition: form-data; name=\"x\"\r\n\r\nHello World!--boundary--"))).map
      (fun p => (p.state, p.events))
      = .ok (.END, [.Header (ascii "content-disposition") (ascii "form-data; name=\"x\""), .Body (ascii "Hello World!")]) := by
  decide

/-- Claim C10: feeding `--boundary\r` leaves a fresh parser in PREAMBLE,
and a following `--boundary\r\n` brings it to HEADER with no error, even
though the retained CR is then followed by the non-LF byte `-`. -/
theorem claim_C10 :
    ((MultipartParser.new (ascii "boundary")).bind (fun p => p.parse (ascii "--boundary\r"))).map (fun p => p.state)
      = .ok .PREAMBLE
    ∧ (((MultipartParser.new (ascii "boundary")).bind (fun p => p.parse (ascii "--boundary\r"))).bind
        (fun p => p.parse (ascii "--boundary\r\n"))).map (fun p => p.state)
      = .ok .HEADER :=
  ⟨by decide, by decide⟩

/-- Witness for claim C3 on a concrete two-part message. -/
theorem claim_C3_witness :
    (1 ≤ (ascii "boundary").length ∧ (ascii "boundary").length ≤ 70
      ∧ ∀ q ∈ [specPartA, specPartB], validPart (45 :: 45 :: ascii "boundary") q = true)
    ∧ ∃ p, (MultipartParser.new (ascii "boundary")).bind
        (fun q => q.parse (serializeMultipart (ascii "boundary") [specPartA, specPartB])) = .ok p
        ∧ p.state = .END ∧ p.events = expectedEvents [specPartA, specPartB] :=
  ⟨⟨by decide, by decide, by decide⟩,
   claim_C3 (ascii "boundary") [specPartA, specPartB] (by decide) (by decide) (by decide)⟩

theorem startsWith_le_length {pat l : List Nat} (h : startsWith pat l = true) :
    pat.length ≤ l.length := by
  induction pat generalizing l with
  | nil => simp
  | cons x xs ih =>
    cases l with
    | nil => exact absurd h (by simp [startsWith])
    | cons y ys =>
      simp only [startsWith, Bool.and_eq_true] at h
      simpa using ih h.2

theorem startsWith_of_append_left {a b P : List Nat} (h : startsWith (a ++ b) P = true) :
    startsWith a P = true := by
  induction a generalizing P with
  | nil => simp [startsWith]
  | cons x xs ih =>
    cases P with
    | nil => exact absurd h (by simp [startsWith])
    | cons y ys =>
      simp only [List.cons_append, startsWith, Bool.and_eq_true] at h ⊢
      exact ⟨h.1, ih h.2⟩

theorem startsWith_exchange {P a b : List Nat} (h : startsWith P (a ++ b) = true)
    (hlen : a.length ≤ P.length) : startsWith a P = true := by
  induction a generalizing P with
  | nil => simp [startsWith]
  | cons x xs ih =>
    cases P with
    | nil => exact absurd hlen (by simp)
    | cons y ys =>
      simp only [List.cons_append, startsWith, Bool.and_eq_true] at h ⊢
      have hyx : y = x := by simpa using h.1
      subst hyx
      exact ⟨by simp, ih h.2 (by simpa using hlen)⟩

theorem findSub_found {pat l : List Nat} {i : Nat} (h : findSub pat l = some i) :
    startsWith pat (l.drop i) = true := by
  induction l generalizing i with
  | nil =>
    simp only [findSub] at h
    by_cases hs : startsWith pat [] = true
    · rw [if_pos hs] at h; cases h; simpa using hs
    · rw [if_neg hs] at h; cases h
  | cons x t ih =>
    simp only [findSub] at h
    by_cases hs : startsWith pat (x :: t) = true
    · rw [if_pos hs] at h; cases h; simpa using hs
    · rw [if_neg hs] at h
      cases hfs : findSub pat t with
      | none => rw [hfs] at h; cases h
      | some j =>
        rw [hfs] at h
        simp only [Option.map_some'] at h
        cases h
        simpa using ih hfs

theorem findSub_before {pat l : List Nat} {i : Nat} (h : findSub pat l = some i) :
    ∀ j < i, startsWith pat (l.drop j) = false := by
  induction l generalizing i with
  | nil =>
    simp only [findSub] at h
    by_cases hs : startsWith pat [] = true
    · rw [if_pos hs] at h; cases h; omega
    · rw [if_neg hs] at h; cases h
  | cons x t ih =>
    simp only [findSub] at h
    by_cases hs : startsWith pat (x :: t) = true
    · rw [if_pos hs] at h; cases h; omega
    · rw [if_neg hs] at h
      cases hfs : findSub pat t with
      | none => rw [hfs] at h; cases h
      | some j2 =>
        rw [hfs] at h
        simp only [Option.map_some'] at h
        cases h
        intro j hj
        cases j with
        | zero => exact Bool.eq_false_iff.mpr hs
        | succ j3 =>
          simp only [List.drop_succ_cons]
          exact ih hfs j3 (by omega)

theorem findSub_le {pat l : List Nat} {i : Nat} (h : findSub pat l = some i) :
    i + pat.length ≤ l.length := by
  induction l generalizing i with
  | nil =>
    simp only [findSub] at h
    by_cases hs : startsWith pat [] = true
    · rw [if_pos hs] at h
      cases h
      simpa using startsWith_le_length hs
    · rw [if_neg hs] at h; cases h
  | cons x t ih =>
    simp only [findSub] at h
    by_cases hs : startsWith pat (x :: t) = true
    · rw [if_pos hs] at h
      cases h
      simpa using startsWith_le_length hs
    · rw [if_neg hs] at h
      cases hfs : findSub pat t with
      | none => rw [hfs] at h; cases h
      | some j =>
        rw [hfs] at h
        simp only [Option.map_some'] at h
        cases h
        have := ih hfs
        simp only [List.length_cons]
        omega

theorem findSub_none_all {pat l : List Nat} (h : findSub pat l = none) (hpat : pat ≠ []) :
    ∀ j, startsWith pat (l.drop j) = false := by
  induction l generalizing pat with
  | nil =>
    intro j
    simp only [List.drop_nil]
    cases pat with
    | nil => exact absurd rfl hpat
    | cons a b => simp [startsWith]
  | cons x t ih =>
    intro j
    simp only [findSub] at h
    by_cases hs : startsWith pat (x :: t) = true
    · rw [if_pos hs] at h; cases h
    · rw [if_neg hs] at h
      cases j with
      | zero => exact Bool.eq_false_iff.mpr hs
      | succ j2 =>
        simp only [List.drop_succ_cons]
        cases hfs : findSub pat t with
        | none => exact ih hfs hpat j2
        | some k => rw [hfs] at h; simp at h

theorem findSub_append_some {pat l ext : List Nat} {i : Nat} (h : findSub pat l = some i) :
    findSub pat (l ++ ext) = some i := by
  have hle := findSub_le h
  apply findSub_eq
  · intro j hj
    have hjl : j ≤ l.length := by omega
    rw [dropAppendLe l ext j hjl]
    have hlen : pat.length ≤ (l.drop j).length := by simp; omega
    rw [startsWith_append_of_le pat (l.drop j) ext hlen]
    exact findSub_before h j hj
  · have hil : i ≤ l.length := by omega
    rw [dropAppendLe l ext i hil]
    have hlen : pat.length ≤ (l.drop i).length := by simp; omega
    rw [startsWith_append_of_le pat (l.drop i) ext hlen]
    exact findSub_found h

theorem takeAppendLe (a b : List Nat) (n : Nat) (h : n ≤ a.length) :
    (a ++ b).take n = a.take n := by
  induction a generalizing n with
  | nil =>
    have : n = 0 := by simpa using h
    simp [this]
  | cons x xs ih =>
    cases n with
    | zero => simp
    | succ m =>
      simp only [List.cons_append, List.take_succ_cons]
      rw [ih m (by simpa using h)]

theorem keepT_fits (pats : List (List Nat)) (l : List Nat) :
    keepT pats l = [] ∨ (pats.any fun q => startsWith (keepT pats l) q) = true := by
  induction l with
  | nil => left; rfl
  | cons b t ih =>
    by_cases hq : (pats.any fun q => startsWith (b :: t) q) = true
    · right
      simp only [keepT, if_pos hq]
      exact hq
    · simp only [keepT, if_neg hq]
      exact ih

theorem keepT_max (pats : List (List Nat)) (l : List Nat) :
    ∀ j, (pats.any fun q => startsWith (l.drop j) q) = true → l.length - j ≤ (keepT pats l).length := by
  induction l with
  | nil => intro j h; simp
  | cons b t ih =>
    intro j h
    by_cases hq : (pats.any fun q => startsWith (b :: t) q) = true
    · simp only [keepT, if_pos hq, List.length_cons]
      omega
    · simp only [keepT, if_neg hq]
      cases j with
      | zero => exact absurd (by simpa using h) hq
      | succ j2 =>
        have := ih j2 (by simpa using h)
        simp only [List.length_cons]
        omega

theorem keepT_len_le (pats : List (List Nat)) (l : List Nat) :
    (keepT pats l).length ≤ l.length := by
  induction l with
  | nil => simp [keepT]
  | cons b t ih =>
    by_cases hq : (pats.any fun q => startsWith (b :: t) q) = true
    · simp only [keepT, if_pos hq]
      exact Nat.le_refl _
    · simp only [keepT, if_neg hq, List.length_cons]
      omega

theorem keepT_drop (pats : List (List Nat)) (l : List Nat) :
    keepT pats l = l.drop (l.length - (keepT pats l).length) := by
  induction l with
  | nil => simp [keepT]
  | cons b t ih =>
    by_cases hq : (pats.any fun q => startsWith (b :: t) q) = true
    · simp only [keepT, if_pos hq]
      simp
    · simp only [keepT, if_neg hq]
      have hle := keepT_len_le pats t
      have harith : (b :: t).length - (keepT pats t).length = (t.length - (keepT pats t).length) + 1 := by
        simp only [List.length_cons]
        omega
      rw [harith, List.drop_succ_cons]
      exact ih

theorem scanLine_line_len {l a b : List Nat} (h : scanLine l = .line a b) :
    l.length = a.length + 2 + b.length := by
  induction l generalizing a b with
  | nil => simp [scanLine] at h
  | cons c t ih =>
    simp only [scanLine] at h
    by_cases hc : c = 13
    · rw [if_pos hc] at h
      cases t with
      | nil => cases h
      | cons d r =>
        have h2 : (if d = 10 then LineScan.line [] r else LineScan.bad) = LineScan.line a b := h
        by_cases hd : d = 10
        · rw [if_pos hd] at h2
          injection h2 with h3 h4
          subst h3
          subst h4
          simp only [List.length_cons, List.length_nil]
          omega
        · rw [if_neg hd] at h2
          cases h2
    · rw [if_neg hc] at h
      cases hscan : scanLine t with
      | more => rw [hscan] at h; cases h
      | bad => rw [hscan] at h; cases h
      | line a2 b2 =>
        rw [hscan] at h
        injection h with h3 h4
        subst h3
        subst h4
        have := ih hscan
        simp only [List.length_cons]
        omega

theorem scanLine_line_ext {l a b : List Nat} (ext : List Nat) (h : scanLine l = .line a b) :
    scanLine (l ++ ext) = .line a (b ++ ext) := by
  induction l generalizing a b with
  | nil => simp [scanLine] at h
  | cons c t ih =>
    simp only [scanLine, List.cons_append] at h ⊢
    by_cases hc : c = 13
    · rw [if_pos hc] at h ⊢
      cases t with
      | nil => cases h
      | cons d r =>
        have h2 : (if d = 10 then LineScan.line [] r else LineScan.bad) = LineScan.line a b := h
        by_cases hd : d = 10
        · rw [if_pos hd] at h2
          injection h2 with h3 h4
          subst h3
          subst h4
          show (if d = 10 then LineScan.line [] (r ++ ext) else LineScan.bad) = LineScan.line [] (r ++ ext)
          rw [if_pos hd]
        · rw [if_neg hd] at h2
          cases h2
    · rw [if_neg hc] at h ⊢
      cases hscan : scanLine t with
      | more => rw [hscan] at h; cases h
      | bad => rw [hscan] at h; cases h
      | line a2 b2 =>
        rw [hscan] at h
        injection h with h3 h4
        subst h3
        subst h4
        rw [show scanLine (t.append ext) = LineScan.line a2 (b2 ++ ext) from ih hscan]

theorem scanLine_bad_ext {l : List Nat} (ext : List Nat) (h : scanLine l = .bad) :
    scanLine (l ++ ext) = .bad := by
  induction l with
  | nil => simp [scanLine] at h
  | cons c t ih =>
    simp only [scanLine, List.cons_append] at h ⊢
    by_cases hc : c = 13
    · rw [if_pos hc] at h ⊢
      cases t with
      | nil => cases h
      | cons d r =>
        have h2 : (if d = 10 then LineScan.line [] r else LineScan.bad) = LineScan.bad := h
        by_cases hd : d = 10
        · rw [if_pos hd] at h2
          cases h2
        · show (if d = 10 then LineScan.line [] (r ++ ext) else LineScan.bad) = LineScan.bad
          rw [if_neg hd]
    · rw [if_neg hc] at h ⊢
      cases hscan : scanLine t with
      | more => rw [hscan] at h; cases h
      | bad => rw [show scanLine (t.append ext) = LineScan.bad from ih hscan]
      | line a2 b2 => rw [hscan] at h; cases h

theorem pushBody_append_gen (A B : List MultipartPart) (b : List Nat) :
    pushBody (A ++ B) b = A ++ pushBody B b := by
  by_cases hb : b = []
  · simp [pushBody, hb]
  · simp [pushBody, hb]

theorem parse_eq_drain (p : MultipartParser) (c : List Nat) :
    p.parse c = drain { p with buffer := p.buffer ++ c } := by
  simp [MultipartParser.parse, drain]

theorem dropDrop (a b : Nat) (l : List Nat) : (l.drop a).drop b = l.drop (a + b) := by
  induction a generalizing l with
  | zero => simp
  | succ a2 ih =>
    cases l with
    | nil => simp
    | cons x t =>
      simp only [List.drop_succ_cons]
      rw [ih t]
      have : a2 + b + 1 = a2 + 1 + b := by omega
      rw [← this, List.drop_succ_cons]

theorem keepT_ext (pats : List (List Nat)) (l ext : List Nat) :
    keepT pats (l ++ ext) = keepT pats (keepT pats l ++ ext) := by
  have hKle := keepT_len_le pats l
  have hKdrop := keepT_drop pats l
  have hKmax := keepT_max pats l
  have hKLle := keepT_len_le pats (l ++ ext)
  have hKLdrop := keepT_drop pats (l ++ ext)
  have hKLfit := keepT_fits pats (l ++ ext)
  have hKLmax := keepT_max pats (l ++ ext)
  have hKRle := keepT_len_le pats (keepT pats l ++ ext)
  have hKRdrop := keepT_drop pats (keepT pats l ++ ext)
  have hKRfit := keepT_fits pats (keepT pats l ++ ext)
  have hKRmax := keepT_max pats (keepT pats l ++ ext)
  generalize hgK : keepT pats l = K at hKle hKdrop hKmax hKRle hKRdrop hKRfit hKRmax ⊢
  generalize hgKL : keepT pats (l ++ ext) = KL at hKLle hKLdrop hKLfit hKLmax ⊢
  generalize hgKR : keepT pats (K ++ ext) = KR at hKRle hKRdrop hKRfit hKRmax ⊢
  have hL : (l ++ ext).length = l.length + ext.length := by simp
  have hKEL : (K ++ ext).length = K.length + ext.length := by simp
  have hKext : K ++ ext = (l ++ ext).drop (l.length - K.length) := by
    rw [dropAppendLe l ext _ (by omega), ← hKdrop]
  have hstep1 : KL.length ≤ K.length + ext.length := by
    rcases hKLfit with hnil | hfit
    · rw [hnil]; simp
    · by_cases hlen : KL.length ≤ ext.length
      · omega
      · have hKL2 : KL = l.drop ((l ++ ext).length - KL.length) ++ ext := by
          conv_lhs => rw [hKLdrop]
          exact dropAppendLe l ext _ (by omega)
        rw [List.any_eq_true] at hfit
        rcases hfit with ⟨P, hP, hsw⟩
        rw [hKL2] at hsw
        have hpre := startsWith_of_append_left hsw
        have := hKmax ((l ++ ext).length - KL.length)
          (by rw [List.any_eq_true]; exact ⟨P, hP, hpre⟩)
        omega
  have hstep3 : KL = (K ++ ext).drop (K.length + ext.length - KL.length) := by
    conv_lhs => rw [hKLdrop]
    rw [hKext, dropDrop]
    congr 1
    omega
  have hstep4 : KL.length ≤ KR.length := by
    rcases hKLfit with hnil | hfit
    · rw [hnil]; simp
    · have hany : (pats.any fun q => startsWith ((K ++ ext).drop (K.length + ext.length - KL.length)) q) = true := by
        rw [← hstep3]; exact hfit
      have := hKRmax (K.length + ext.length - KL.length) hany
      omega
  have hstep5 : KR.length ≤ KL.length := by
    rcases hKRfit with hnil | hfit
    · rw [hnil]; simp
    · have hKR2 : KR = (l ++ ext).drop ((l.length - K.length) + (K.length + ext.length - KR.length)) := by
        conv_lhs => rw [hKRdrop]
        rw [hKEL, hKext, dropDrop]
      have hany : (pats.any fun q => startsWith ((l ++ ext).drop ((l.length - K.length) + (K.length + ext.length - KR.length))) q) = true := by
        rw [← hKR2]; exact hfit
      have := hKLmax ((l.length - K.length) + (K.length + ext.length - KR.length)) hany
      omega
  have hlen46 : KL.length = KR.length := by omega
  conv_lhs => rw [hstep3]
  conv_rhs => rw [hKRdrop]
  rw [hKEL, hlen46]

theorem run_end_any (f : Nat) (p : MultipartParser) (hst : p.state = .END) (hbuf : p.buffer = []) :
    run f p = .ok p := by
  cases f with
  | zero => rfl
  | succ f2 =>
    show run (f2 + 1) p = .ok p
    rw [run_end f2 p hst]
    cases p
    simp_all

theorem step_pre_none (fuel : Nat) (p : MultipartParser) (hst : p.state = .PREAMBLE)
    (hfind : findSub (45 :: 45 :: p.boundary) p.buffer = none) :
    run (fuel + 1) p = .ok { p with buffer := keepT [45 :: 45 :: p.boundary] p.buffer } := by
  show run (Nat.succ fuel) p = _
  simp only [run, hst, hfind]
  simp

theorem step_pre_crlf (fuel : Nat) (p : MultipartParser) (i : Nat) (t : List Nat)
    (hst : p.state = .PREAMBLE)
    (hfind : findSub (45 :: 45 :: p.boundary) p.buffer = some i)
    (hrest : p.buffer.drop (i + (45 :: 45 :: p.boundary).length) = 13 :: 10 :: t) :
    run (fuel + 1) p = run fuel { p with state := .HEADER, buffer := t, headers := [] } := by
  show run (Nat.succ fuel) p = _
  simp only [run, hst, hfind, hrest]
  simp [startsWith]

theorem step_pre_close (fuel : Nat) (p : MultipartParser) (i : Nat) (t : List Nat)
    (hst : p.state = .PREAMBLE)
    (hfind : findSub (45 :: 45 :: p.boundary) p.buffer = some i)
    (hrest : p.buffer.drop (i + (45 :: 45 :: p.boundary).length) = 45 :: 45 :: t) :
    run (fuel + 1) p = run fuel { p with state := .END, buffer := [] } := by
  show run (Nat.succ fuel) p = _
  simp only [run, hst, hfind, hrest]
  simp [startsWith]

theorem step_pre_nil (fuel : Nat) (p : MultipartParser) (i : Nat)
    (hst : p.state = .PREAMBLE)
    (hfind : findSub (45 :: 45 :: p.boundary) p.buffer = some i)
    (hrest : p.buffer.drop (i + (45 :: 45 :: p.boundary).length) = []) :
    run (fuel + 1) p = .ok { p with buffer := 45 :: 45 :: p.boundary } := by
  show run (Nat.succ fuel) p = _
  simp only [run, hst, hfind, hrest]
  simp [startsWith]

theorem step_pre_cr (fuel : Nat) (p : MultipartParser) (i : Nat)
    (hst : p.state = .PREAMBLE)
    (hfind : findSub (45 :: 45 :: p.boundary) p.buffer = some i)
    (hrest : p.buffer.drop (i + (45 :: 45 :: p.boundary).length) = [13]) :
    run (fuel + 1) p = .ok { p with buffer := [13] } := by
  show run (Nat.succ fuel) p = _
  simp only [run, hst, hfind, hrest]
  simp [startsWith]

theorem step_pre_dash (fuel : Nat) (p : MultipartParser) (i : Nat)
    (hst : p.state = .PREAMBLE)
    (hfind : findSub (45 :: 45 :: p.boundary) p.buffer = some i)
    (hrest : p.buffer.drop (i + (45 :: 45 :: p.boundary).length) = [45]) :
    run (fuel + 1) p = .ok { p with buffer := (45 :: 45 :: p.boundary) ++ [45] } := by
  show run (Nat.succ fuel) p = _
  simp only [run, hst, hfind, hrest]
  simp [startsWith]

theorem step_pre_crerr (fuel : Nat) (p : MultipartParser) (i c : Nat) (t : List Nat)
    (hst : p.state = .PREAMBLE)
    (hfind : findSub (45 :: 45 :: p.boundary) p.buffer = some i)
    (hrest : p.buffer.drop (i + (45 :: 45 :: p.boundary).length) = 13 :: c :: t)
    (hc : c ≠ 10) :
    run (fuel + 1) p = .error .invalidLineBreakAfterDelimiter := by
  show run (Nat.succ fuel) p = _
  simp only [run, hst, hfind, hrest]
  simp [startsWith, Ne.symm hc]

theorem step_pre_skip (fuel : Nat) (p : MultipartParser) (i b : Nat) (t : List Nat)
    (hst : p.state = .PREAMBLE)
    (hfind : findSub (45 :: 45 :: p.boundary) p.buffer = some i)
    (hrest : p.buffer.drop (i + (45 :: 45 :: p.boundary).length) = b :: t)
    (hb13 : b ≠ 13) (hb45 : b ≠ 45) :
    run (fuel + 1) p = run fuel { p with buffer := b :: t } := by
  show run (Nat.succ fuel) p = _
  simp only [run, hst, hfind, hrest]
  simp [startsWith, hb13, hb45, Ne.symm hb13, Ne.symm hb45]

theorem step_pre_dashskip (fuel : Nat) (p : MultipartParser) (i c : Nat) (t : List Nat)
    (hst : p.state = .PREAMBLE)
    (hfind : findSub (45 :: 45 :: p.boundary) p.buffer = some i)
    (hrest : p.buffer.drop (i + (45 :: 45 :: p.boundary).length) = 45 :: c :: t)
    (hc : c ≠ 45) :
    run (fuel + 1) p = run fuel { p with buffer := 45 :: c :: t } := by
  show run (Nat.succ fuel) p = _
  simp only [run, hst, hfind, hrest]
  simp [startsWith, Ne.symm hc]

theorem step_hdr_more (fuel : Nat) (p : MultipartParser) (hst : p.state = .HEADER)
    (hscan : scanLine p.buffer = .more) :
    run (fuel + 1) p = .ok p := by
  show run (Nat.succ fuel) p = _
  simp only [run, hst, hscan]
  simp

theorem step_hdr_bad (fuel : Nat) (p : MultipartParser) (hst : p.state = .HEADER)
    (hscan : scanLine p.buffer = .bad) :
    run (fuel + 1) p = .error .malformedHeader := by
  show run (Nat.succ fuel) p = _
  simp only [run, hst, hscan]
  simp

theorem step_hdr_empty_cd (fuel : Nat) (p : MultipartParser) (rest : List Nat)
    (hst : p.state = .HEADER)
    (hscan : scanLine p.buffer = .line [] rest)
    (hcd : (p.headers.any fun h => h.1 == cdBytes) = true) :
    run (fuel + 1) p = run fuel { p with state := .BODY, buffer := rest } := by
  show run (Nat.succ fuel) p = _
  simp only [run, hst, hscan, hcd]
  simp

theorem step_hdr_empty_nocd (fuel : Nat) (p : MultipartParser) (rest : List Nat)
    (hst : p.state = .HEADER)
    (hscan : scanLine p.buffer = .line [] rest)
    (hcd : (p.headers.any fun h => h.1 == cdBytes) = false) :
    run (fuel + 1) p = .error .missingContentDisposition := by
  show run (Nat.succ fuel) p = _
  simp only [run, hst, hscan, hcd]
  simp

theorem step_hdr_ctrl (fuel : Nat) (p : MultipartParser) (l rest : List Nat)
    (hst : p.state = .HEADER)
    (hscan : scanLine p.buffer = .line l rest)
    (hl : l ≠ [])
    (hctrl : (l.any fun b => ! allowedB b) = true) :
    run (fuel + 1) p = .error .malformedHeader := by
  show run (Nat.succ fuel) p = _
  simp only [run, hst, hscan, hctrl]
  simp [hl]

theorem step_hdr_nocolon (fuel : Nat) (p : MultipartParser) (l rest : List Nat)
    (hst : p.state = .HEADER)
    (hscan : scanLine p.buffer = .line l rest)
    (hl : l ≠ [])
    (hctrl : (l.any fun b => ! allowedB b) = false)
    (hcolon : findSub [58] l = none) :
    run (fuel + 1) p = .error .malformedHeader := by
  show run (Nat.succ fuel) p = _
  simp only [run, hst, hscan, hctrl, hcolon]
  simp [hl]

theorem step_hdr_line (fuel : Nat) (p : MultipartParser) (l rest : List Nat) (k : Nat)
    (hst : p.state = .HEADER)
    (hscan : scanLine p.buffer = .line l rest)
    (hl : l ≠ [])
    (hctrl : (l.any fun b => ! allowedB b) = false)
    (hcolon : findSub [58] l = some k) :
    run (fuel + 1) p = run fuel { p with buffer := rest, headers := p.headers ++ [(lowerB (l.take k), rtrim (ltrim (l.drop (k + 1))))], events := p.events ++ [.Header (lowerB (l.take k)) (rtrim (ltrim (l.drop (k + 1))))] } := by
  show run (Nat.succ fuel) p = _
  simp only [run, hst, hscan, hctrl, hcolon]
  simp [hl]

theorem step_body_none (fuel : Nat) (p : MultipartParser) (hst : p.state = .BODY)
    (hfind : findSub (45 :: 45 :: p.boundary) p.buffer = none) :
    run (fuel + 1) p = .ok { p with buffer := keepT [13 :: 10 :: (45 :: 45 :: p.boundary), 45 :: 45 :: p.boundary] p.buffer, events := pushBody p.events (p.buffer.take (p.buffer.length - (keepT [13 :: 10 :: (45 :: 45 :: p.boundary), 45 :: 45 :: p.boundary] p.buffer).length)) } := by
  show run (Nat.succ fuel) p = _
  simp only [run, hst, hfind]
  simp

theorem step_body_crlf (fuel : Nat) (p : MultipartParser) (i : Nat) (t : List Nat)
    (hst : p.state = .BODY)
    (hfind : findSub (45 :: 45 :: p.boundary) p.buffer = some i)
    (hrest : p.buffer.drop (i + (45 :: 45 :: p.boundary).length) = 13 :: 10 :: t) :
    run (fuel + 1) p = run fuel { p with state := .HEADER, buffer := t, headers := [], events := pushBody p.events (stripCRLF (p.buffer.take i)) } := by
  show run (Nat.succ fuel) p = _
  simp only [run, hst, hfind, hrest]
  simp [startsWith]

theorem step_body_close (fuel : Nat) (p : MultipartParser) (i : Nat) (t : List Nat)
    (hst : p.state = .BODY)
    (hfind : findSub (45 :: 45 :: p.boundary) p.buffer = some i)
    (hrest : p.buffer.drop (i + (45 :: 45 :: p.boundary).length) = 45 :: 45 :: t) :
    run (fuel + 1) p = run fuel { p with state := .END, buffer := [], events := pushBody p.events (stripCRLF (p.buffer.take i)) } := by
  show run (Nat.succ fuel) p = _
  simp only [run, hst, hfind, hrest]
  simp [startsWith]

theorem step_body_susp (fuel : Nat) (p : MultipartParser) (i : Nat)
    (hst : p.state = .BODY)
    (hfind : findSub (45 :: 45 :: p.boundary) p.buffer = some i)
    (hS : p.buffer.drop (i + (45 :: 45 :: p.boundary).length) = [] ∨ p.buffer.drop (i + (45 :: 45 :: p.boundary).length) = [13] ∨ p.buffer.drop (i + (45 :: 45 :: p.boundary).length) = [45]) :
    run (fuel + 1) p = .ok { p with buffer := p.buffer.drop (if endsCRLF (p.buffer.take i) then i - 2 else i), events := pushBody p.events (p.buffer.take (if endsCRLF (p.buffer.take i) then i - 2 else i)) } := by
  show run (Nat.succ fuel) p = _
  rcases hS with h | h | h <;>
  · simp only [run, hst, hfind, h]
    simp [startsWith]

theorem step_body_err (fuel : Nat) (p : MultipartParser) (i : Nat)
    (hst : p.state = .BODY)
    (hfind : findSub (45 :: 45 :: p.boundary) p.buffer = some i)
    (h1 : ¬ startsWith [13, 10] (p.buffer.drop (i + (45 :: 45 :: p.boundary).length)) = true)
    (h2 : ¬ startsWith [45, 45] (p.buffer.drop (i + (45 :: 45 :: p.boundary).length)) = true)
    (h3 : ¬ (p.buffer.drop (i + (45 :: 45 :: p.boundary).length) = [] ∨ p.buffer.drop (i + (45 :: 45 :: p.boundary).length) = [13] ∨ p.buffer.drop (i + (45 :: 45 :: p.boundary).length) = [45])) :
    run (fuel + 1) p = .error .invalidLineBreakAfterDelimiter := by
  show run (Nat.succ fuel) p = _
  simp only [run, hst, hfind]
  rw [if_neg (by decide : ¬ (MultipartState.BODY = MultipartState.END)),
    if_neg (by decide : ¬ (MultipartState.BODY = MultipartState.PREAMBLE)),
    if_neg (by decide : ¬ (MultipartState.BODY = MultipartState.HEADER)),
    if_neg h1, if_neg h2, if_neg h3]

theorem run_fuel_irrel : ∀ (f1 : Nat) (p : MultipartParser) (f2 : Nat),
    p.buffer.length < f1 → p.buffer.length < f2 → run f1 p = run f2 p := by
  intro f1
  induction f1 with
  | zero => intro p f2 h1 h2; exact absurd h1 (Nat.not_lt_zero _)
  | succ fuel ih =>
    intro p f2 h1 h2
    cases f2 with
    | zero => exact absurd h2 (Nat.not_lt_zero _)
    | succ fuel2 =>
      show run (fuel + 1) p = run (fuel2 + 1) p
      have h1b : p.buffer.length ≤ fuel := by omega
      have h2b : p.buffer.length ≤ fuel2 := by omega
      have hbl : (45 :: 45 :: p.boundary).length = p.boundary.length + 2 := by simp
      cases hst : p.state with
      | END => rw [run_end fuel p hst, run_end fuel2 p hst]
      | PREAMBLE =>
        cases hfind : findSub (45 :: 45 :: p.boundary) p.buffer with
        | none => rw [step_pre_none fuel p hst hfind, step_pre_none fuel2 p hst hfind]
        | some i =>
          have hle := findSub_le hfind
          have hrl : (p.buffer.drop (i + (45 :: 45 :: p.boundary).length)).length
              = p.buffer.length - (i + (45 :: 45 :: p.boundary).length) := by simp
          cases hrest : p.buffer.drop (i + (45 :: 45 :: p.boundary).length) with
          | nil => rw [step_pre_nil fuel p i hst hfind hrest, step_pre_nil fuel2 p i hst hfind hrest]
          | cons b t =>
            rw [hrest] at hrl
            by_cases hb13 : b = 13
            · subst hb13
              cases t with
              | nil => rw [step_pre_cr fuel p i hst hfind hrest, step_pre_cr fuel2 p i hst hfind hrest]
              | cons c t2 =>
                by_cases hc : c = 10
                · subst hc
                  rw [step_pre_crlf fuel p i t2 hst hfind hrest, step_pre_crlf fuel2 p i t2 hst hfind hrest]
                  apply ih
                  · show t2.length < fuel
                    simp at hrl
                    omega
                  · show t2.length < fuel2
                    simp at hrl
                    omega
                · rw [step_pre_crerr fuel p i c t2 hst hfind hrest hc,
                    step_pre_crerr fuel2 p i c t2 hst hfind hrest hc]
            · by_cases hb45 : b = 45
              · subst hb45
                cases t with
                | nil => rw [step_pre_dash fuel p i hst hfind hrest, step_pre_dash fuel2 p i hst hfind hrest]
                | cons c t2 =>
                  by_cases hc : c = 45
                  · subst hc
                    rw [step_pre_close fuel p i t2 hst hfind hrest, step_pre_close fuel2 p i t2 hst hfind hrest]
                    rw [run_end_any fuel { p with state := .END, buffer := [] } rfl rfl,
                      run_end_any fuel2 { p with state := .END, buffer := [] } rfl rfl]
                  · rw [step_pre_dashskip fuel p i c t2 hst hfind hrest hc,
                      step_pre_dashskip fuel2 p i c t2 hst hfind hrest hc]
                    apply ih
                    · show (45 :: c :: t2).length < fuel
                      simp at hrl ⊢
                      omega
                    · show (45 :: c :: t2).length < fuel2
                      simp at hrl ⊢
                      omega
              · rw [step_pre_skip fuel p i b t hst hfind hrest hb13 hb45,
                  step_pre_skip fuel2 p i b t hst hfind hrest hb13 hb45]
                apply ih
                · show (b :: t).length < fuel
                  simp at hrl ⊢
                  omega
                · show (b :: t).length < fuel2
                  simp at hrl ⊢
                  omega
      | HEADER =>
        cases hscan : scanLine p.buffer with
        | more => rw [step_hdr_more fuel p hst hscan, step_hdr_more fuel2 p hst hscan]
        | bad => rw [step_hdr_bad fuel p hst hscan, step_hdr_bad fuel2 p hst hscan]
        | line l rest =>
          have hlen := scanLine_line_len hscan
          by_cases hl : l = []
          · subst hl
            cases hcd : (p.headers.any fun h => h.1 == cdBytes) with
            | false =>
              rw [step_hdr_empty_nocd fuel p rest hst hscan hcd,
                step_hdr_empty_nocd fuel2 p rest hst hscan hcd]
            | true =>
              rw [step_hdr_empty_cd fuel p rest hst hscan hcd,
                step_hdr_empty_cd fuel2 p rest hst hscan hcd]
              apply ih
              · show rest.length < fuel
                omega
              · show rest.length < fuel2
                omega
          · cases hctrl : (l.any fun b => ! allowedB b) with
            | true =>
              rw [step_hdr_ctrl fuel p l rest hst hscan hl hctrl,
                step_hdr_ctrl fuel2 p l rest hst hscan hl hctrl]
            | false =>
              cases hcolon : findSub [58] l with
              | none =>
                rw [step_hdr_nocolon fuel p l rest hst hscan hl hctrl hcolon,
                  step_hdr_nocolon fuel2 p l rest hst hscan hl hctrl hcolon]
              | some k =>
                rw [step_hdr_line fuel p l rest k hst hscan hl hctrl hcolon,
                  step_hdr_line fuel2 p l rest k hst hscan hl hctrl hcolon]
                apply ih
                · show rest.length < fuel
                  omega
                · show rest.length < fuel2
                  omega
      | BODY =>
        cases hfind : findSub (45 :: 45 :: p.boundary) p.buffer with
        | none => rw [step_body_none fuel p hst hfind, step_body_none fuel2 p hst hfind]
        | some i =>
          have hle := findSub_le hfind
          have hrl : (p.buffer.drop (i + (45 :: 45 :: p.boundary).length)).length
              = p.buffer.length - (i + (45 :: 45 :: p.boundary).length) := by simp
          cases hrest : p.buffer.drop (i + (45 :: 45 :: p.boundary).length) with
          | nil =>
            rw [step_body_susp fuel p i hst hfind (Or.inl hrest),
              step_body_susp fuel2 p i hst hfind (Or.inl hrest)]
          | cons b t =>
            rw [hrest] at hrl
            by_cases hb13 : b = 13
            · subst hb13
              cases t with
              | nil =>
                rw [step_body_susp fuel p i hst hfind (Or.inr (Or.inl hrest)),
                  step_body_susp fuel2 p i hst hfind (Or.inr (Or.inl hrest))]
              | cons c t2 =>
                by_cases hc : c = 10
                · subst hc
                  rw [step_body_crlf fuel p i t2 hst hfind hrest, step_body_crlf fuel2 p i t2 hst hfind hrest]
                  apply ih
                  · show t2.length < fuel
                    simp at hrl
                    omega
                  · show t2.length < fuel2
                    simp at hrl
                    omega
                · have hx1 : ¬ startsWith [13, 10] (p.buffer.drop (i + (45 :: 45 :: p.boundary).length)) = true := by
                    rw [hrest]; simp [startsWith, Ne.symm hc]
                  have hx2 : ¬ startsWith [45, 45] (p.buffer.drop (i + (45 :: 45 :: p.boundary).length)) = true := by
                    rw [hrest]; simp [startsWith]
                  have hx3 : ¬ (p.buffer.drop (i + (45 :: 45 :: p.boundary).length) = [] ∨ p.buffer.drop (i + (45 :: 45 :: p.boundary).length) = [13] ∨ p.buffer.drop (i + (45 :: 45 :: p.boundary).length) = [45]) := by
                    rw [hrest]; simp
                  rw [step_body_err fuel p i hst hfind hx1 hx2 hx3,
                    step_body_err fuel2 p i hst hfind hx1 hx2 hx3]
            · by_cases hb45 : b = 45
              · subst hb45
                cases t with
                | nil =>
                  rw [step_body_susp fuel p i hst hfind (Or.inr (Or.inr hrest)),
                    step_body_susp fuel2 p i hst hfind (Or.inr (Or.inr hrest))]
                | cons c t2 =>
                  by_cases hc : c = 45
                  · subst hc
                    rw [step_body_close fuel p i t2 hst hfind hrest, step_body_close fuel2 p i t2 hst hfind hrest]
                    rw [run_end_any fuel { p with state := .END, buffer := [], events := pushBody p.events (stripCRLF (p.buffer.take i)) } rfl rfl,
                      run_end_any fuel2 { p with state := .END, buffer := [], events := pushBody p.events (stripCRLF (p.buffer.take i)) } rfl rfl]
                  · have hx1 : ¬ startsWith [13, 10] (p.buffer.drop (i + (45 :: 45 :: p.boundary).length)) = true := by
                      rw [hrest]; simp [startsWith]
                    have hx2 : ¬ startsWith [45, 45] (p.buffer.drop (i + (45 :: 45 :: p.boundary).length)) = true := by
                      rw [hrest]; simp [startsWith, Ne.symm hc]
                    have hx3 : ¬ (p.buffer.drop (i + (45 :: 45 :: p.boundary).length) = [] ∨ p.buffer.drop (i + (45 :: 45 :: p.boundary).length) = [13] ∨ p.buffer.drop (i + (45 :: 45 :: p.boundary).length) = [45]) := by
                      rw [hrest]; simp
                    rw [step_body_err fuel p i hst hfind hx1 hx2 hx3,
                      step_body_err fuel2 p i hst hfind hx1 hx2 hx3]
              · have hx1 : ¬ startsWith [13, 10] (p.buffer.drop (i + (45 :: 45 :: p.boundary).length)) = true := by
                  rw [hrest]; simp [startsWith, Ne.symm hb13]
                have hx2 : ¬ startsWith [45, 45] (p.buffer.drop (i + (45 :: 45 :: p.boundary).length)) = true := by
                  rw [hrest]; simp [startsWith, Ne.symm hb45]
                have hx3 : ¬ (p.buffer.drop (i + (45 :: 45 :: p.boundary).length) = [] ∨ p.buffer.drop (i + (45 :: 45 :: p.boundary).length) = [13] ∨ p.buffer.drop (i + (45 :: 45 :: p.boundary).length) = [45]) := by
                  rw [hrest]; simp [hb13, hb45]
                rw [step_body_err fuel p i hst hfind hx1 hx2 hx3,
                  step_body_err fuel2 p i hst hfind hx1 hx2 hx3]

theorem pushBody_shift (E : List MultipartPart) (b : List Nat) :
    pushBody E b = E ++ pushBody [] b := by
  simpa using pushBody_append_gen E [] b

theorem run_events_shift (bnd : List Nat) : ∀ (fuel : Nat) (st : MultipartState) (buf : List Nat) (E : List MultipartPart) (hd : List (List Nat × List Nat)),
    run fuel ⟨bnd, st, buf, E, hd⟩
      = (run fuel ⟨bnd, st, buf, [], hd⟩).map (fun q => { q with events := E ++ q.events }) := by
  intro fuel
  induction fuel with
  | zero =>
    intro st buf E hd
    simp [run, Except.map]
  | succ fuel ih =>
    intro st buf E hd
    show run (fuel + 1) ⟨bnd, st, buf, E, hd⟩
      = (run (fuel + 1) ⟨bnd, st, buf, [], hd⟩).map (fun q => { q with events := E ++ q.events })
    cases st with
    | END =>
      rw [run_end fuel ⟨bnd, .END, buf, E, hd⟩ rfl, run_end fuel ⟨bnd, .END, buf, [], hd⟩ rfl]
      simp [Except.map]
    | PREAMBLE =>
      cases hfind : findSub (45 :: 45 :: bnd) buf with
      | none =>
        rw [step_pre_none fuel ⟨bnd, .PREAMBLE, buf, E, hd⟩ rfl hfind,
          step_pre_none fuel ⟨bnd, .PREAMBLE, buf, [], hd⟩ rfl hfind]
        simp [Except.map]
      | some i =>
        cases hrest : buf.drop (i + (45 :: 45 :: bnd).length) with
        | nil =>
          rw [step_pre_nil fuel ⟨bnd, .PREAMBLE, buf, E, hd⟩ i rfl hfind hrest,
            step_pre_nil fuel ⟨bnd, .PREAMBLE, buf, [], hd⟩ i rfl hfind hrest]
          simp [Except.map]
        | cons b t =>
          by_cases hb13 : b = 13
          · subst hb13
            cases t with
            | nil =>
              rw [step_pre_cr fuel ⟨bnd, .PREAMBLE, buf, E, hd⟩ i rfl hfind hrest,
                step_pre_cr fuel ⟨bnd, .PREAMBLE, buf, [], hd⟩ i rfl hfind hrest]
              simp [Except.map]
            | cons c t2 =>
              by_cases hc : c = 10
              · subst hc
                rw [step_pre_crlf fuel ⟨bnd, .PREAMBLE, buf, E, hd⟩ i t2 rfl hfind hrest,
                  step_pre_crlf fuel ⟨bnd, .PREAMBLE, buf, [], hd⟩ i t2 rfl hfind hrest]
                exact ih .HEADER t2 E []
              · rw [step_pre_crerr fuel ⟨bnd, .PREAMBLE, buf, E, hd⟩ i c t2 rfl hfind hrest hc,
                  step_pre_crerr fuel ⟨bnd, .PREAMBLE, buf, [], hd⟩ i c t2 rfl hfind hrest hc]
                rfl
          · by_cases hb45 : b = 45
            · subst hb45
              cases t with
              | nil =>
                rw [step_pre_dash fuel ⟨bnd, .PREAMBLE, buf, E, hd⟩ i rfl hfind hrest,
                  step_pre_dash fuel ⟨bnd, .PREAMBLE, buf, [], hd⟩ i rfl hfind hrest]
                simp [Except.map]
              | cons c t2 =>
                by_cases hc : c = 45
                · subst hc
                  rw [step_pre_close fuel ⟨bnd, .PREAMBLE, buf, E, hd⟩ i t2 rfl hfind hrest,
                    step_pre_close fuel ⟨bnd, .PREAMBLE, buf, [], hd⟩ i t2 rfl hfind hrest]
                  show run fuel ⟨bnd, .END, [], E, hd⟩
                    = (run fuel ⟨bnd, .END, [], [], hd⟩).map (fun q => { q with events := E ++ q.events })
                  rw [run_end_any fuel ⟨bnd, .END, [], E, hd⟩ rfl rfl,
                    run_end_any fuel ⟨bnd, .END, [], [], hd⟩ rfl rfl]
                  simp [Except.map]
                · rw [step_pre_dashskip fuel ⟨bnd, .PREAMBLE, buf, E, hd⟩ i c t2 rfl hfind hrest hc,
                    step_pre_dashskip fuel ⟨bnd, .PREAMBLE, buf, [], hd⟩ i c t2 rfl hfind hrest hc]
                  exact ih .PREAMBLE (45 :: c :: t2) E hd
            · rw [step_pre_skip fuel ⟨bnd, .PREAMBLE, buf, E, hd⟩ i b t rfl hfind hrest hb13 hb45,
                step_pre_skip fuel ⟨bnd, .PREAMBLE, buf, [], hd⟩ i b t rfl hfind hrest hb13 hb45]
              exact ih .PREAMBLE (b :: t) E hd
    | HEADER =>
      cases hscan : scanLine buf with
      | more =>
        rw [step_hdr_more fuel ⟨bnd, .HEADER, buf, E, hd⟩ rfl hscan,
          step_hdr_more fuel ⟨bnd, .HEADER, buf, [], hd⟩ rfl hscan]
        simp [Except.map]
      | bad =>
        rw [step_hdr_bad fuel ⟨bnd, .HEADER, buf, E, hd⟩ rfl hscan,
          step_hdr_bad fuel ⟨bnd, .HEADER, buf, [], hd⟩ rfl hscan]
        rfl
      | line l rest =>
        by_cases hl : l = []
        · subst hl
          cases hcd : (hd.any fun h => h.1 == cdBytes) with
          | false =>
            rw [step_hdr_empty_nocd fuel ⟨bnd, .HEADER, buf, E, hd⟩ rest rfl hscan hcd,
              step_hdr_empty_nocd fuel ⟨bnd, .HEADER, buf, [], hd⟩ rest rfl hscan hcd]
            rfl
          | true =>
            rw [step_hdr_empty_cd fuel ⟨bnd, .HEADER, buf, E, hd⟩ rest rfl hscan hcd,
              step_hdr_empty_cd fuel ⟨bnd, .HEADER, buf, [], hd⟩ rest rfl hscan hcd]
            exact ih .BODY rest E hd
        · cases hctrl : (l.any fun b => ! allowedB b) with
          | true =>
            rw [step_hdr_ctrl fuel ⟨bnd, .HEADER, buf, E, hd⟩ l rest rfl hscan hl hctrl,
              step_hdr_ctrl fuel ⟨bnd, .HEADER, buf, [], hd⟩ l rest rfl hscan hl hctrl]
            rfl
          | false =>
            cases hcolon : findSub [58] l with
            | none =>
              rw [step_hdr_nocolon fuel ⟨bnd, .HEADER, buf, E, hd⟩ l rest rfl hscan hl hctrl hcolon,
                step_hdr_nocolon fuel ⟨bnd, .HEADER, buf, [], hd⟩ l rest rfl hscan hl hctrl hcolon]
              rfl
            | some k =>
              rw [step_hdr_line fuel ⟨bnd, .HEADER, buf, E, hd⟩ l rest k rfl hscan hl hctrl hcolon,
                step_hdr_line fuel ⟨bnd, .HEADER, buf, [], hd⟩ l rest k rfl hscan hl hctrl hcolon]
              show run fuel ⟨bnd, .HEADER, rest, E ++ [.Header (lowerB (l.take k)) (rtrim (ltrim (l.drop (k + 1))))], hd ++ [(lowerB (l.take k), rtrim (ltrim (l.drop (k + 1))))]⟩
                = (run fuel ⟨bnd, .HEADER, rest, [] ++ [.Header (lowerB (l.take k)) (rtrim (ltrim (l.drop (k + 1))))], hd ++ [(lowerB (l.take k), rtrim (ltrim (l.drop (k + 1))))]⟩).map (fun q => { q with events := E ++ q.events })
              have hA := ih .HEADER rest (E ++ [MultipartPart.Header (lowerB (l.take k)) (rtrim (ltrim (l.drop (k + 1))))]) (hd ++ [(lowerB (l.take k), rtrim (ltrim (l.drop (k + 1))))])
              have hB := ih .HEADER rest ([] ++ [MultipartPart.Header (lowerB (l.take k)) (rtrim (ltrim (l.drop (k + 1))))]) (hd ++ [(lowerB (l.take k), rtrim (ltrim (l.drop (k + 1))))])
              rw [hA, hB]
              cases run fuel ⟨bnd, .HEADER, rest, [], hd ++ [(lowerB (l.take k), rtrim (ltrim (l.drop (k + 1))))]⟩ with
              | error e => rfl
              | ok a => cases a; simp [Except.map]
    | BODY =>
      cases hfind : findSub (45 :: 45 :: bnd) buf with
      | none =>
        rw [step_body_none fuel ⟨bnd, .BODY, buf, E, hd⟩ rfl hfind,
          step_body_none fuel ⟨bnd, .BODY, buf, [], hd⟩ rfl hfind]
        have hps := pushBody_shift E (buf.take (buf.length - (keepT [13 :: 10 :: (45 :: 45 :: bnd), 45 :: 45 :: bnd] buf).length))
        simp [Except.map, hps]
      | some i =>
        cases hrest : buf.drop (i + (45 :: 45 :: bnd).length) with
        | nil =>
          rw [step_body_susp fuel ⟨bnd, .BODY, buf, E, hd⟩ i rfl hfind (Or.inl hrest),
            step_body_susp fuel ⟨bnd, .BODY, buf, [], hd⟩ i rfl hfind (Or.inl hrest)]
          have hps := pushBody_shift E (buf.take (if endsCRLF (buf.take i) then i - 2 else i))
          simp [Except.map, hps]
        | cons b t =>
          by_cases hb13 : b = 13
          · subst hb13
            cases t with
            | nil =>
              rw [step_body_susp fuel ⟨bnd, .BODY, buf, E, hd⟩ i rfl hfind (Or.inr (Or.inl hrest)),
                step_body_susp fuel ⟨bnd, .BODY, buf, [], hd⟩ i rfl hfind (Or.inr (Or.inl hrest))]
              have hps := pushBody_shift E (buf.take (if endsCRLF (buf.take i) then i - 2 else i))
              simp [Except.map, hps]
            | cons c t2 =>
              by_cases hc : c = 10
              · subst hc
                rw [step_body_crlf fuel ⟨bnd, .BODY, buf, E, hd⟩ i t2 rfl hfind hrest,
                  step_body_crlf fuel ⟨bnd, .BODY, buf, [], hd⟩ i t2 rfl hfind hrest]
                have hps := pushBody_shift E (stripCRLF (buf.take i))
                show run fuel ⟨bnd, .HEADER, t2, pushBody E (stripCRLF (buf.take i)), []⟩
                  = (run fuel ⟨bnd, .HEADER, t2, pushBody [] (stripCRLF (buf.take i)), []⟩).map (fun q => { q with events := E ++ q.events })
                rw [hps, ih .HEADER t2 (E ++ pushBody [] (stripCRLF (buf.take i))) [],
                  ih .HEADER t2 (pushBody [] (stripCRLF (buf.take i))) []]
                cases run fuel ⟨bnd, .HEADER, t2, [], []⟩ with
                | error e => rfl
                | ok a => cases a; simp [Except.map]
              · have hx1 : ¬ startsWith [13, 10] (buf.drop (i + (45 :: 45 :: bnd).length)) = true := by
                  rw [hrest]; simp [startsWith, Ne.symm hc]
                have hx2 : ¬ startsWith [45, 45] (buf.drop (i + (45 :: 45 :: bnd).length)) = true := by
                  rw [hrest]; simp [startsWith]
                have hx3 : ¬ (buf.drop (i + (45 :: 45 :: bnd).length) = [] ∨ buf.drop (i + (45 :: 45 :: bnd).length) = [13] ∨ buf.drop (i + (45 :: 45 :: bnd).length) = [45]) := by
                  rw [hrest]; simp
                rw [step_body_err fuel ⟨bnd, .BODY, buf, E, hd⟩ i rfl hfind hx1 hx2 hx3,
                  step_body_err fuel ⟨bnd, .BODY, buf, [], hd⟩ i rfl hfind hx1 hx2 hx3]
                rfl
          · by_cases hb45 : b = 45
            · subst hb45
              cases t with
              | nil =>
                rw [step_body_susp fuel ⟨bnd, .BODY, buf, E, hd⟩ i rfl hfind (Or.inr (Or.inr hrest)),
                  step_body_susp fuel ⟨bnd, .BODY, buf, [], hd⟩ i rfl hfind (Or.inr (Or.inr hrest))]
                have hps := pushBody_shift E (buf.take (if endsCRLF (buf.take i) then i - 2 else i))
                simp [Except.map, hps]
              | cons c t2 =>
                by_cases hc : c = 45
                · subst hc
                  rw [step_body_close fuel ⟨bnd, .BODY, buf, E, hd⟩ i t2 rfl hfind hrest,
                    step_body_close fuel ⟨bnd, .BODY, buf, [], hd⟩ i t2 rfl hfind hrest]
                  show run fuel ⟨bnd, .END, [], pushBody E (stripCRLF (buf.take i)), hd⟩
                    = (run fuel ⟨bnd, .END, [], pushBody [] (stripCRLF (buf.take i)), hd⟩).map (fun q => { q with events := E ++ q.events })
                  rw [run_end_any fuel ⟨bnd, .END, [], pushBody E (stripCRLF (buf.take i)), hd⟩ rfl rfl,
                    run_end_any fuel ⟨bnd, .END, [], pushBody [] (stripCRLF (buf.take i)), hd⟩ rfl rfl]
                  have hps := pushBody_shift E (stripCRLF (buf.take i))
                  simp [Except.map, hps]
                · have hx1 : ¬ startsWith [13, 10] (buf.drop (i + (45 :: 45 :: bnd).length)) = true := by
                    rw [hrest]; simp [startsWith]
                  have hx2 : ¬ startsWith [45, 45] (buf.drop (i + (45 :: 45 :: bnd).length)) = true := by
                    rw [hrest]; simp [startsWith, Ne.symm hc]
                  have hx3 : ¬ (buf.drop (i + (45 :: 45 :: bnd).length) = [] ∨ buf.drop (i + (45 :: 45 :: bnd).length) = [13] ∨ buf.drop (i + (45 :: 45 :: bnd).length) = [45]) := by
                    rw [hrest]; simp
                  rw [step_body_err fuel ⟨bnd, .BODY, buf, E, hd⟩ i rfl hfind hx1 hx2 hx3,
                    step_body_err fuel ⟨bnd, .BODY, buf, [], hd⟩ i rfl hfind hx1 hx2 hx3]
                  rfl
            · have hx1 : ¬ startsWith [13, 10] (buf.drop (i + (45 :: 45 :: bnd).length)) = true := by
                rw [hrest]; simp [startsWith, Ne.symm hb13]
              have hx2 : ¬ startsWith [45, 45] (buf.drop (i + (45 :: 45 :: bnd).length)) = true := by
                rw [hrest]; simp [startsWith, Ne.symm hb45]
              have hx3 : ¬ (buf.drop (i + (45 :: 45 :: bnd).length) = [] ∨ buf.drop (i + (45 :: 45 :: bnd).length) = [13] ∨ buf.drop (i + (45 :: 45 :: bnd).length) = [45]) := by
                rw [hrest]; simp [hb13, hb45]
              rw [step_body_err fuel ⟨bnd, .BODY, buf, E, hd⟩ i rfl hfind hx1 hx2 hx3,
                step_body_err fuel ⟨bnd, .BODY, buf, [], hd⟩ i rfl hfind hx1 hx2 hx3]
              rfl

theorem coalesce_append : ∀ (X Y : List MultipartPart), coalesce (X ++ Y) = coalesce (coalesce X ++ Y) := by
  intro X
  induction X with
  | nil => intro Y; simp [coalesce]
  | cons e t ih =>
    intro Y
    cases e with
    | Header n v =>
      show coalesce (.Header n v :: t ++ Y) = coalesce (coalesce (.Header n v :: t) ++ Y)
      simp only [List.cons_append, coalesce, List.append_eq]
      rw [ih]
    | Body a =>
      have hiY := ih Y
      cases ht : coalesce t with
      | nil =>
        rw [ht] at hiY
        simp [coalesce, ht, hiY]
      | cons e2 tl2 =>
        cases e2 with
        | Header n v =>
          rw [ht] at hiY
          simp [coalesce, ht, hiY]
        | Body b =>
          rw [ht] at hiY
          cases htl : coalesce (tl2 ++ Y) with
          | nil => simp [coalesce, ht, hiY, htl]
          | cons e3 tl3 =>
            cases e3 with
            | Header n v => simp [coalesce, ht, hiY, htl]
            | Body c => simp [coalesce, ht, hiY, htl]

theorem findSub_none {pat : List Nat} : ∀ {l : List Nat}, (∀ j, startsWith pat (l.drop j) = false) → findSub pat l = none := by
  intro l
  induction l with
  | nil =>
    intro h
    have h0 := h 0
    rw [List.drop_zero] at h0
    simp [findSub, h0]
  | cons x t ih =>
    intro h
    have h0 := h 0
    rw [List.drop_zero] at h0
    have ht : findSub pat t = none := ih (fun j => by simpa using h (j + 1))
    simp [findSub, h0, ht]

theorem endsCRLF_append_right (a b : List Nat) (hb : 2 ≤ b.length) :
    endsCRLF (a ++ b) = endsCRLF b := by
  simp only [endsCRLF, List.reverse_append]
  exact startsWith_append_of_le [10, 13] b.reverse a.reverse (by simpa using hb)

theorem endsCRLF_short (b : List Nat) (hb : b.length ≤ 1) : endsCRLF b = false := by
  cases b with
  | nil => rfl
  | cons x t =>
    cases t with
    | nil => simp [endsCRLF, startsWith]
    | cons y t2 => exact absurd hb (by simp)

theorem stripCRLF_id (l : List Nat) (h : endsCRLF l = false) : stripCRLF l = l := by
  simp [stripCRLF, h]

theorem stripCRLF_append (a b : List Nat) (hb : 2 ≤ b.length) :
    stripCRLF (a ++ b) = a ++ stripCRLF b := by
  simp only [stripCRLF, endsCRLF_append_right a b hb]
  cases hcr : endsCRLF b with
  | false => simp
  | true =>
    simp only [if_true]
    have harith : (a ++ b).length - 2 = a.length + (b.length - 2) := by simp; omega
    rw [harith, takeLenPlus]

theorem endsCRLF_exists {u : List Nat} (h : endsCRLF u = true) : ∃ v, u = v ++ [13, 10] := by
  simp only [endsCRLF] at h
  cases hu : u.reverse with
  | nil => rw [hu] at h; simp [startsWith] at h
  | cons x w =>
    cases w with
    | nil => rw [hu] at h; simp [startsWith] at h
    | cons y w2 =>
      rw [hu] at h
      simp only [startsWith, Bool.and_eq_true, beq_iff_eq] at h
      obtain ⟨h1, h2, _⟩ := h
      refine ⟨w2.reverse, ?_⟩
      have hu2 : u = (x :: y :: w2).reverse := by rw [← hu, List.reverse_reverse]
      rw [hu2]
      simp [← h1, ← h2]

theorem take_ends_crlf {l : List Nat} {j : Nat} (hj : j ≤ l.length) (h : endsCRLF (l.take j) = true) :
    2 ≤ j ∧ l.drop (j - 2) = 13 :: 10 :: l.drop j := by
  obtain ⟨v, hv⟩ := endsCRLF_exists h
  have hlen : j = v.length + 2 := by
    have hlv := congrArg List.length hv
    simp only [List.length_take, List.length_append] at hlv
    rw [Nat.min_eq_left hj] at hlv
    simpa using hlv
  refine ⟨by omega, ?_⟩
  have hsplit : l = v ++ ([13, 10] ++ l.drop j) := by
    conv_lhs => rw [← List.take_append_drop j l]
    rw [hv, List.append_assoc]
  have hd : l.drop (j - 2) = ([13, 10] ++ l.drop j).drop 0 := by
    conv_lhs => rw [hsplit]
    have harith : j - 2 = v.length + 0 := by omega
    rw [harith, dropLenPlus]
  simpa using hd

theorem startsWith_append_drop {A P l : List Nat} (h : startsWith (A ++ P) l = true) :
    startsWith P (l.drop A.length) = true := by
  induction A generalizing l with
  | nil => simpa using h
  | cons x xs ih =>
    cases l with
    | nil => simp [startsWith] at h
    | cons y t =>
      simp only [List.cons_append, startsWith, Bool.and_eq_true] at h
      simpa using ih h.2

theorem straddle_bound_pat (pats : List (List Nat)) (Q B ext : List Nat) (j : Nat)
    (hmem : Q ∈ pats)
    (hno : ∀ j2, startsWith Q (B.drop j2) = false)
    (hsw : startsWith Q ((B ++ ext).drop j) = true) :
    B.length - (keepT pats B).length ≤ j := by
  by_cases hjB : B.length ≤ j
  · omega
  · push_neg at hjB
    have hdropext : (B ++ ext).drop j = B.drop j ++ ext := dropAppendLe B ext j (by omega)
    rw [hdropext] at hsw
    by_cases hQfit : Q.length ≤ (B.drop j).length
    · rw [startsWith_append_of_le Q (B.drop j) ext hQfit] at hsw
      exact absurd hsw (by simp [hno j])
    · push_neg at hQfit
      have hpre : startsWith (B.drop j) Q = true := startsWith_exchange hsw (by omega)
      have hany : (pats.any fun q => startsWith (B.drop j) q) = true := by
        rw [List.any_eq_true]
        exact ⟨Q, hmem, hpre⟩
      have := keepT_max pats B j hany
      omega

theorem keepT_drop_of_le (pats : List (List Nat)) (l : List Nat) (s : Nat)
    (hs : s ≤ l.length) (hk : (keepT pats l).length ≤ l.length - s) :
    keepT pats (l.drop s) = keepT pats l := by
  have hKdrop := keepT_drop pats l
  have hKfit := keepT_fits pats l
  have hKmax := keepT_max pats l
  have hKle := keepT_len_le pats l
  have hK2drop := keepT_drop pats (l.drop s)
  have hK2fit := keepT_fits pats (l.drop s)
  have hK2max := keepT_max pats (l.drop s)
  have hK2le := keepT_len_le pats (l.drop s)
  generalize hgK : keepT pats l = K at hKdrop hKfit hKmax hKle hk ⊢
  generalize hgK2 : keepT pats (l.drop s) = K2 at hK2drop hK2fit hK2max hK2le ⊢
  have hdl : (l.drop s).length = l.length - s := by simp
  have hKsfx : K = (l.drop s).drop ((l.drop s).length - K.length) := by
    conv_lhs => rw [hKdrop]
    rw [dropDrop]
    congr 1
    omega
  have hB : K.length ≤ K2.length := by
    rcases hKfit with hnil | hfit
    · rw [hnil]; simp
    · have hany : (pats.any fun q => startsWith ((l.drop s).drop ((l.drop s).length - K.length)) q) = true := by
        rw [← hKsfx]; exact hfit
      have := hK2max ((l.drop s).length - K.length) hany
      omega
  have hC : K2.length ≤ K.length := by
    rcases hK2fit with hnil | hfit
    · rw [hnil]; simp
    · have hK2l : K2 = l.drop (s + ((l.drop s).length - K2.length)) := by
        conv_lhs => rw [hK2drop]
        rw [dropDrop]
      have hany : (pats.any fun q => startsWith (l.drop (s + ((l.drop s).length - K2.length))) q) = true := by
        rw [← hK2l]; exact hfit
      have := hKmax (s + ((l.drop s).length - K2.length)) hany
      omega
  have hKK : K2.length = K.length := by omega
  conv_rhs => rw [hKsfx]
  conv_lhs => rw [hK2drop]
  rw [hKK]

theorem findSub_drop_some {D W : List Nat} {s i : Nat} (hfind : findSub D W = some i) (hsi : s ≤ i) :
    findSub D (W.drop s) = some (i - s) := by
  apply findSub_eq
  · intro j hj
    rw [dropDrop]
    exact findSub_before hfind (s + j) (by omega)
  · rw [dropDrop]
    have harith : s + (i - s) = i := by omega
    rw [harith]
    exact findSub_found hfind

theorem findSub_drop_none {D W : List Nat} {s : Nat} (hfind : findSub D W = none) (hD : D ≠ []) :
    findSub D (W.drop s) = none := by
  apply findSub_none
  intro j
  rw [dropDrop]
  exact findSub_none_all hfind hD (s + j)

theorem coalesce_two_bodies : ∀ (Ev : List MultipartPart) (a b : List Nat),
    coalesce (Ev ++ [.Body a, .Body b]) = coalesce (Ev ++ [.Body (a ++ b)]) := by
  intro Ev
  induction Ev with
  | nil => intro a b; simp [coalesce]
  | cons e t ih =>
    intro a b
    cases e with
    | Header n v =>
      simp only [List.cons_append, coalesce, List.append_eq]
      rw [ih]
    | Body c =>
      simp only [List.cons_append, coalesce, List.append_eq]
      rw [ih]

theorem coalesce_pushBody_split (Ev : List MultipartPart) (a b : List Nat) :
    coalesce (pushBody Ev (a ++ b)) = coalesce (pushBody (pushBody Ev a) b) := by
  by_cases ha : a = []
  · subst ha; simp [pushBody]
  · by_cases hb : b = []
    · subst hb; simp [pushBody, List.append_nil, ha]
    · have hab : a ++ b ≠ [] := by simp [ha]
      simp only [pushBody, if_neg ha, if_neg hb, if_neg hab]
      rw [List.append_assoc]
      exact (coalesce_two_bodies Ev a b).symm

theorem outRel_refl (r : Except ParseError MultipartParser) : outRel r r := by
  cases r with
  | error e => exact rfl
  | ok a => exact ⟨rfl, rfl, rfl, rfl, rfl⟩

theorem outRel_obs {r1 r2 : Except ParseError MultipartParser} (h : outRel r1 r2) : obs r1 = obs r2 := by
  cases r1 with
  | error e1 =>
    cases r2 with
    | error e2 =>
      have h2 : e1 = e2 := h
      rw [h2]
    | ok b => exact (h : False).elim
  | ok a =>
    cases r2 with
    | error e2 => exact (h : False).elim
    | ok b =>
      obtain ⟨h1, h2, h3, h4, h5⟩ := h
      simp [obs, Except.map, h2, h5]

theorem drain_events_congr (bnd : List Nat) (st : MultipartState) (buf : List Nat)
    (E1 E2 : List MultipartPart) (hd : List (List Nat × List Nat))
    (h : coalesce E1 = coalesce E2) :
    outRel (drain ⟨bnd, st, buf, E1, hd⟩) (drain ⟨bnd, st, buf, E2, hd⟩) := by
  show outRel (run (buf.length + 1) ⟨bnd, st, buf, E1, hd⟩) (run (buf.length + 1) ⟨bnd, st, buf, E2, hd⟩)
  rw [run_events_shift bnd (buf.length + 1) st buf E1 hd, run_events_shift bnd (buf.length + 1) st buf E2 hd]
  cases run (buf.length + 1) ⟨bnd, st, buf, [], hd⟩ with
  | error e => exact rfl
  | ok a =>
    refine ⟨rfl, rfl, rfl, rfl, ?_⟩
    show coalesce (E1 ++ a.events) = coalesce (E2 ++ a.events)
    rw [coalesce_append E1, coalesce_append E2, h]

theorem pre_align (bnd : List Nat) (hd : List (List Nat × List Nat)) (E : List MultipartPart)
    (W1 W2 : List Nat)
    (halign : (findSub (45 :: 45 :: bnd) W1 = none ∧ findSub (45 :: 45 :: bnd) W2 = none ∧
        keepT [45 :: 45 :: bnd] W1 = keepT [45 :: 45 :: bnd] W2) ∨
      (∃ i1 i2, findSub (45 :: 45 :: bnd) W1 = some i1 ∧ findSub (45 :: 45 :: bnd) W2 = some i2 ∧
        W1.drop (i1 + (45 :: 45 :: bnd).length) = W2.drop (i2 + (45 :: 45 :: bnd).length))) :
    drain ⟨bnd, .PREAMBLE, W1, E, hd⟩ = drain ⟨bnd, .PREAMBLE, W2, E, hd⟩ := by
  have hbl : (45 :: 45 :: bnd).length = bnd.length + 2 := by simp
  show run (W1.length + 1) ⟨bnd, .PREAMBLE, W1, E, hd⟩ = run (W2.length + 1) ⟨bnd, .PREAMBLE, W2, E, hd⟩
  rcases halign with ⟨h1, h2, hkeq⟩ | ⟨i1, i2, h1, h2, hr⟩
  · rw [step_pre_none W1.length ⟨bnd, .PREAMBLE, W1, E, hd⟩ rfl h1,
      step_pre_none W2.length ⟨bnd, .PREAMBLE, W2, E, hd⟩ rfl h2, hkeq]
  · have hle1 := findSub_le h1
    have hle2 := findSub_le h2
    have hrl1 : (W1.drop (i1 + (45 :: 45 :: bnd).length)).length = W1.length - (i1 + (45 :: 45 :: bnd).length) := by simp
    have hrl2 : (W2.drop (i2 + (45 :: 45 :: bnd).length)).length = W2.length - (i2 + (45 :: 45 :: bnd).length) := by simp
    cases hrest : W1.drop (i1 + (45 :: 45 :: bnd).length) with
    | nil =>
      have hrest2 : W2.drop (i2 + (45 :: 45 :: bnd).length) = [] := by rw [← hr, hrest]
      rw [step_pre_nil W1.length ⟨bnd, .PREAMBLE, W1, E, hd⟩ i1 rfl h1 hrest,
        step_pre_nil W2.length ⟨bnd, .PREAMBLE, W2, E, hd⟩ i2 rfl h2 hrest2]
    | cons b t =>
      have hrest2 : W2.drop (i2 + (45 :: 45 :: bnd).length) = b :: t := by rw [← hr, hrest]
      rw [hrest] at hrl1
      rw [hrest2] at hrl2
      by_cases hb13 : b = 13
      · subst hb13
        cases t with
        | nil =>
          rw [step_pre_cr W1.length ⟨bnd, .PREAMBLE, W1, E, hd⟩ i1 rfl h1 hrest,
            step_pre_cr W2.length ⟨bnd, .PREAMBLE, W2, E, hd⟩ i2 rfl h2 hrest2]
        | cons c t2 =>
          by_cases hc : c = 10
          · subst hc
            rw [step_pre_crlf W1.length ⟨bnd, .PREAMBLE, W1, E, hd⟩ i1 t2 rfl h1 hrest,
              step_pre_crlf W2.length ⟨bnd, .PREAMBLE, W2, E, hd⟩ i2 t2 rfl h2 hrest2]
            show run W1.length (⟨bnd, .HEADER, t2, E, []⟩ : MultipartParser) = run W2.length ⟨bnd, .HEADER, t2, E, []⟩
            have hc1 : t2.length < W1.length := by simp at hrl1; omega
            have hc2 : t2.length < W2.length := by simp at hrl2; omega
            exact (run_fuel_irrel W1.length ⟨bnd, .HEADER, t2, E, []⟩ (t2.length + 1) hc1 (by show t2.length < t2.length + 1; omega)).trans
              (run_fuel_irrel W2.length ⟨bnd, .HEADER, t2, E, []⟩ (t2.length + 1) hc2 (by show t2.length < t2.length + 1; omega)).symm
          · rw [step_pre_crerr W1.length ⟨bnd, .PREAMBLE, W1, E, hd⟩ i1 c t2 rfl h1 hrest hc,
              step_pre_crerr W2.length ⟨bnd, .PREAMBLE, W2, E, hd⟩ i2 c t2 rfl h2 hrest2 hc]
      · by_cases hb45 : b = 45
        · subst hb45
          cases t with
          | nil =>
            rw [step_pre_dash W1.length ⟨bnd, .PREAMBLE, W1, E, hd⟩ i1 rfl h1 hrest,
              step_pre_dash W2.length ⟨bnd, .PREAMBLE, W2, E, hd⟩ i2 rfl h2 hrest2]
          | cons c t2 =>
            by_cases hc : c = 45
            · subst hc
              rw [step_pre_close W1.length ⟨bnd, .PREAMBLE, W1, E, hd⟩ i1 t2 rfl h1 hrest,
                step_pre_close W2.length ⟨bnd, .PREAMBLE, W2, E, hd⟩ i2 t2 rfl h2 hrest2]
              show run W1.length (⟨bnd, .END, [], E, hd⟩ : MultipartParser) = run W2.length ⟨bnd, .END, [], E, hd⟩
              rw [run_end_any W1.length ⟨bnd, .END, [], E, hd⟩ rfl rfl,
                run_end_any W2.length ⟨bnd, .END, [], E, hd⟩ rfl rfl]
            · rw [step_pre_dashskip W1.length ⟨bnd, .PREAMBLE, W1, E, hd⟩ i1 c t2 rfl h1 hrest hc,
                step_pre_dashskip W2.length ⟨bnd, .PREAMBLE, W2, E, hd⟩ i2 c t2 rfl h2 hrest2 hc]
              show run W1.length (⟨bnd, .PREAMBLE, 45 :: c :: t2, E, hd⟩ : MultipartParser) = run W2.length ⟨bnd, .PREAMBLE, 45 :: c :: t2, E, hd⟩
              have hc1 : (45 :: c :: t2).length < W1.length := by simp at hrl1 ⊢; omega
              have hc2 : (45 :: c :: t2).length < W2.length := by simp at hrl2 ⊢; omega
              exact (run_fuel_irrel W1.length ⟨bnd, .PREAMBLE, 45 :: c :: t2, E, hd⟩ ((45 :: c :: t2).length + 1) hc1 (by show (45 :: c :: t2).length < (45 :: c :: t2).length + 1; omega)).trans
                (run_fuel_irrel W2.length ⟨bnd, .PREAMBLE, 45 :: c :: t2, E, hd⟩ ((45 :: c :: t2).length + 1) hc2 (by show (45 :: c :: t2).length < (45 :: c :: t2).length + 1; omega)).symm
        · rw [step_pre_skip W1.length ⟨bnd, .PREAMBLE, W1, E, hd⟩ i1 b t rfl h1 hrest hb13 hb45,
            step_pre_skip W2.length ⟨bnd, .PREAMBLE, W2, E, hd⟩ i2 b t rfl h2 hrest2 hb13 hb45]
          show run W1.length (⟨bnd, .PREAMBLE, b :: t, E, hd⟩ : MultipartParser) = run W2.length ⟨bnd, .PREAMBLE, b :: t, E, hd⟩
          have hc1 : (b :: t).length < W1.length := by simp at hrl1 ⊢; omega
          have hc2 : (b :: t).length < W2.length := by simp at hrl2 ⊢; omega
          exact (run_fuel_irrel W1.length ⟨bnd, .PREAMBLE, b :: t, E, hd⟩ ((b :: t).length + 1) hc1 (by show (b :: t).length < (b :: t).length + 1; omega)).trans
            (run_fuel_irrel W2.length ⟨bnd, .PREAMBLE, b :: t, E, hd⟩ ((b :: t).length + 1) hc2 (by show (b :: t).length < (b :: t).length + 1; omega)).symm

theorem bod_align_none (bnd : List Nat) (hd : List (List Nat × List Nat)) (E : List MultipartPart)
    (W : List Nat) (s : Nat)
    (hfind : findSub (45 :: 45 :: bnd) W = none)
    (hs : s ≤ W.length)
    (hkp : (keepT [13 :: 10 :: 45 :: 45 :: bnd, 45 :: 45 :: bnd] W).length ≤ W.length - s) :
    outRel (drain ⟨bnd, .BODY, W, E, hd⟩)
      (drain ⟨bnd, .BODY, W.drop s, pushBody E (W.take s), hd⟩) := by
  have hfind2 : findSub (45 :: 45 :: bnd) (W.drop s) = none := findSub_drop_none hfind (by simp)
  have hkeq : keepT [13 :: 10 :: 45 :: 45 :: bnd, 45 :: 45 :: bnd] (W.drop s) = keepT [13 :: 10 :: 45 :: 45 :: bnd, 45 :: 45 :: bnd] W :=
    keepT_drop_of_le _ _ _ hs hkp
  have hkle := keepT_len_le [13 :: 10 :: 45 :: 45 :: bnd, 45 :: 45 :: bnd] W
  have hdl : (W.drop s).length = W.length - s := by simp
  show outRel (run (W.length + 1) ⟨bnd, .BODY, W, E, hd⟩)
    (run ((W.drop s).length + 1) ⟨bnd, .BODY, W.drop s, pushBody E (W.take s), hd⟩)
  rw [step_body_none W.length ⟨bnd, .BODY, W, E, hd⟩ rfl hfind,
    step_body_none (W.drop s).length ⟨bnd, .BODY, W.drop s, pushBody E (W.take s), hd⟩ rfl hfind2]
  refine ⟨rfl, rfl, hkeq.symm, rfl, ?_⟩
  show coalesce (pushBody E (W.take (W.length - (keepT [13 :: 10 :: 45 :: 45 :: bnd, 45 :: 45 :: bnd] W).length)))
    = coalesce (pushBody (pushBody E (W.take s)) ((W.drop s).take ((W.drop s).length - (keepT [13 :: 10 :: 45 :: 45 :: bnd, 45 :: 45 :: bnd] (W.drop s)).length)))
  rw [hkeq]
  have hsplit : W.take (W.length - (keepT [13 :: 10 :: 45 :: 45 :: bnd, 45 :: 45 :: bnd] W).length)
      = W.take s ++ (W.drop s).take ((W.drop s).length - (keepT [13 :: 10 :: 45 :: 45 :: bnd, 45 :: 45 :: bnd] W).length) := by
    rw [hdl]
    have harith : W.length - (keepT [13 :: 10 :: 45 :: 45 :: bnd, 45 :: 45 :: bnd] W).length
        = s + ((W.length - s) - (keepT [13 :: 10 :: 45 :: 45 :: bnd, 45 :: 45 :: bnd] W).length) := by
      omega
    rw [harith, List.take_add]
  rw [hsplit, coalesce_pushBody_split]

theorem bod_align_some (bnd : List Nat) (hd : List (List Nat × List Nat)) (E : List MultipartPart)
    (W : List Nat) (s i : Nat)
    (hfind : findSub (45 :: 45 :: bnd) W = some i)
    (hsi : s ≤ i)
    (hjun : endsCRLF (W.take i) = true → s + 2 ≤ i) :
    outRel (drain ⟨bnd, .BODY, W, E, hd⟩)
      (drain ⟨bnd, .BODY, W.drop s, pushBody E (W.take s), hd⟩) := by
  have hbl : (45 :: 45 :: bnd).length = bnd.length + 2 := by simp
  have hle := findSub_le hfind
  have hfind2 : findSub (45 :: 45 :: bnd) (W.drop s) = some (i - s) := findSub_drop_some hfind hsi
  have hdl : (W.drop s).length = W.length - s := by simp
  have hreq : (W.drop s).drop ((i - s) + (45 :: 45 :: bnd).length) = W.drop (i + (45 :: 45 :: bnd).length) := by
    rw [dropDrop]
    congr 1
    omega
  have htk : W.take i = W.take s ++ (W.drop s).take (i - s) := by
    conv_lhs => rw [show i = s + (i - s) from by omega]
    rw [List.take_add]
  have hvlen : ((W.drop s).take (i - s)).length = i - s := by
    simp only [List.length_take]
    omega
  have hcr_eq : endsCRLF (W.take i) = endsCRLF ((W.drop s).take (i - s)) := by
    by_cases hv2 : 2 ≤ i - s
    · rw [htk]
      exact endsCRLF_append_right _ _ (by omega)
    · have hshort : endsCRLF ((W.drop s).take (i - s)) = false := endsCRLF_short _ (by omega)
      rw [hshort]
      cases hcrw : endsCRLF (W.take i) with
      | false => rfl
      | true => exact absurd (hjun hcrw) (by omega)
  have hstrip : stripCRLF (W.take i) = W.take s ++ stripCRLF ((W.drop s).take (i - s)) := by
    by_cases hv2 : 2 ≤ i - s
    · rw [htk]
      exact stripCRLF_append _ _ (by omega)
    · have hshort : endsCRLF ((W.drop s).take (i - s)) = false := endsCRLF_short _ (by omega)
      have hcrF : endsCRLF (W.take i) = false := by rw [hcr_eq, hshort]
      rw [stripCRLF_id _ hcrF, stripCRLF_id _ hshort, htk]
  have hsL : (if endsCRLF (W.take i) then i - 2 else i)
      = s + (if endsCRLF ((W.drop s).take (i - s)) then (i - s) - 2 else (i - s)) := by
    rw [hcr_eq]
    cases hcrv : endsCRLF ((W.drop s).take (i - s)) with
    | false => simp; omega
    | true =>
      have hji : s + 2 ≤ i := hjun (by rw [hcr_eq, hcrv])
      simp
      omega
  have hcoal : coalesce (pushBody E (stripCRLF (W.take i)))
      = coalesce (pushBody (pushBody E (W.take s)) (stripCRLF ((W.drop s).take (i - s)))) := by
    rw [hstrip, coalesce_pushBody_split]
  show outRel (run (W.length + 1) ⟨bnd, .BODY, W, E, hd⟩)
    (run ((W.drop s).length + 1) ⟨bnd, .BODY, W.drop s, pushBody E (W.take s), hd⟩)
  have hrl : (W.drop (i + (45 :: 45 :: bnd).length)).length = W.length - (i + (45 :: 45 :: bnd).length) := by simp
  cases hrest : W.drop (i + (45 :: 45 :: bnd).length) with
  | nil =>
    have hrest2 : (W.drop s).drop ((i - s) + (45 :: 45 :: bnd).length) = [] := by rw [hreq, hrest]
    rw [step_body_susp W.length ⟨bnd, .BODY, W, E, hd⟩ i rfl hfind (Or.inl hrest),
      step_body_susp (W.drop s).length ⟨bnd, .BODY, W.drop s, pushBody E (W.take s), hd⟩ (i - s) rfl hfind2 (Or.inl hrest2)]
    refine ⟨rfl, rfl, ?_, rfl, ?_⟩
    · show W.drop (if endsCRLF (W.take i) then i - 2 else i)
        = (W.drop s).drop (if endsCRLF ((W.drop s).take (i - s)) then (i - s) - 2 else (i - s))
      rw [dropDrop, hsL]
    · show coalesce (pushBody E (W.take (if endsCRLF (W.take i) then i - 2 else i)))
        = coalesce (pushBody (pushBody E (W.take s)) ((W.drop s).take (if endsCRLF ((W.drop s).take (i - s)) then (i - s) - 2 else (i - s))))
      rw [hsL, List.take_add, coalesce_pushBody_split]
  | cons b t =>
    have hrest2 : (W.drop s).drop ((i - s) + (45 :: 45 :: bnd).length) = b :: t := by rw [hreq, hrest]
    rw [hrest] at hrl
    by_cases hb13 : b = 13
    · subst hb13
      cases t with
      | nil =>
        rw [step_body_susp W.length ⟨bnd, .BODY, W, E, hd⟩ i rfl hfind (Or.inr (Or.inl hrest)),
          step_body_susp (W.drop s).length ⟨bnd, .BODY, W.drop s, pushBody E (W.take s), hd⟩ (i - s) rfl hfind2 (Or.inr (Or.inl hrest2))]
        refine ⟨rfl, rfl, ?_, rfl, ?_⟩
        · show W.drop (if endsCRLF (W.take i) then i - 2 else i)
            = (W.drop s).drop (if endsCRLF ((W.drop s).take (i - s)) then (i - s) - 2 else (i - s))
          rw [dropDrop, hsL]
        · show coalesce (pushBody E (W.take (if endsCRLF (W.take i) then i - 2 else i)))
            = coalesce (pushBody (pushBody E (W.take s)) ((W.drop s).take (if endsCRLF ((W.drop s).take (i - s)) then (i - s) - 2 else (i - s))))
          rw [hsL, List.take_add, coalesce_pushBody_split]
      | cons c t2 =>
        by_cases hc : c = 10
        · subst hc
          rw [step_body_crlf W.length ⟨bnd, .BODY, W, E, hd⟩ i t2 rfl hfind hrest,
            step_body_crlf (W.drop s).length ⟨bnd, .BODY, W.drop s, pushBody E (W.take s), hd⟩ (i - s) t2 rfl hfind2 hrest2]
          show outRel (run W.length (⟨bnd, .HEADER, t2, pushBody E (stripCRLF (W.take i)), []⟩ : MultipartParser))
            (run (W.drop s).length ⟨bnd, .HEADER, t2, pushBody (pushBody E (W.take s)) (stripCRLF ((W.drop s).take (i - s))), []⟩)
          have hc1 : t2.length < W.length := by simp at hrl; omega
          have hc2 : t2.length < (W.drop s).length := by simp at hrl; rw [hdl]; omega
          rw [run_fuel_irrel W.length ⟨bnd, .HEADER, t2, pushBody E (stripCRLF (W.take i)), []⟩ (t2.length + 1) hc1 (by show t2.length < t2.length + 1; omega),
            run_fuel_irrel (W.drop s).length ⟨bnd, .HEADER, t2, pushBody (pushBody E (W.take s)) (stripCRLF ((W.drop s).take (i - s))), []⟩ (t2.length + 1) hc2 (by show t2.length < t2.length + 1; omega)]
          exact drain_events_congr bnd .HEADER t2 _ _ [] hcoal
        · have hx1 : ¬ startsWith [13, 10] (W.drop (i + (45 :: 45 :: bnd).length)) = true := by
            rw [hrest]; simp [startsWith, Ne.symm hc]
          have hx2 : ¬ startsWith [45, 45] (W.drop (i + (45 :: 45 :: bnd).length)) = true := by
            rw [hrest]; simp [startsWith]
          have hx3 : ¬ (W.drop (i + (45 :: 45 :: bnd).length) = [] ∨ W.drop (i + (45 :: 45 :: bnd).length) = [13] ∨ W.drop (i + (45 :: 45 :: bnd).length) = [45]) := by
            rw [hrest]; simp
          have hy1 : ¬ startsWith [13, 10] ((W.drop s).drop ((i - s) + (45 :: 45 :: bnd).length)) = true := by
            rw [hrest2]; simp [startsWith, Ne.symm hc]
          have hy2 : ¬ startsWith [45, 45] ((W.drop s).drop ((i - s) + (45 :: 45 :: bnd).length)) = true := by
            rw [hrest2]; simp [startsWith]
          have hy3 : ¬ ((W.drop s).drop ((i - s) + (45 :: 45 :: bnd).length) = [] ∨ (W.drop s).drop ((i - s) + (45 :: 45 :: bnd).length) = [13] ∨ (W.drop s).drop ((i - s) + (45 :: 45 :: bnd).length) = [45]) := by
            rw [hrest2]; simp
          rw [step_body_err W.length ⟨bnd, .BODY, W, E, hd⟩ i rfl hfind hx1 hx2 hx3,
            step_body_err (W.drop s).length ⟨bnd, .BODY, W.drop s, pushBody E (W.take s), hd⟩ (i - s) rfl hfind2 hy1 hy2 hy3]
          exact rfl
    · by_cases hb45 : b = 45
      · subst hb45
        cases t with
        | nil =>
          rw [step_body_susp W.length ⟨bnd, .BODY, W, E, hd⟩ i rfl hfind (Or.inr (Or.inr hrest)),
            step_body_susp (W.drop s).length ⟨bnd, .BODY, W.drop s, pushBody E (W.take s), hd⟩ (i - s) rfl hfind2 (Or.inr (Or.inr hrest2))]
          refine ⟨rfl, rfl, ?_, rfl, ?_⟩
          · show W.drop (if endsCRLF (W.take i) then i - 2 else i)
              = (W.drop s).drop (if endsCRLF ((W.drop s).take (i - s)) then (i - s) - 2 else (i - s))
            rw [dropDrop, hsL]
          · show coalesce (pushBody E (W.take (if endsCRLF (W.take i) then i - 2 else i)))
              = coalesce (pushBody (pushBody E (W.take s)) ((W.drop s).take (if endsCRLF ((W.drop s).take (i - s)) then (i - s) - 2 else (i - s))))
            rw [hsL, List.take_add, coalesce_pushBody_split]
        | cons c t2 =>
          by_cases hc : c = 45
          · subst hc
            rw [step_body_close W.length ⟨bnd, .BODY, W, E, hd⟩ i t2 rfl hfind hrest,
              step_body_close (W.drop s).length ⟨bnd, .BODY, W.drop s, pushBody E (W.take s), hd⟩ (i - s) t2 rfl hfind2 hrest2]
            show outRel (run W.length (⟨bnd, .END, [], pushBody E (stripCRLF (W.take i)), hd⟩ : MultipartParser))
              (run (W.drop s).length ⟨bnd, .END, [], pushBody (pushBody E (W.take s)) (stripCRLF ((W.drop s).take (i - s))), hd⟩)
            rw [run_end_any W.length ⟨bnd, .END, [], pushBody E (stripCRLF (W.take i)), hd⟩ rfl rfl,
              run_end_any (W.drop s).length ⟨bnd, .END, [], pushBody (pushBody E (W.take s)) (stripCRLF ((W.drop s).take (i - s))), hd⟩ rfl rfl]
            exact ⟨rfl, rfl, rfl, rfl, hcoal⟩
          · have hx1 : ¬ startsWith [13, 10] (W.drop (i + (45 :: 45 :: bnd).length)) = true := by
              rw [hrest]; simp [startsWith]
            have hx2 : ¬ startsWith [45, 45] (W.drop (i + (45 :: 45 :: bnd).length)) = true := by
              rw [hrest]; simp [startsWith, Ne.symm hc]
            have hx3 : ¬ (W.drop (i + (45 :: 45 :: bnd).length) = [] ∨ W.drop (i + (45 :: 45 :: bnd).length) = [13] ∨ W.drop (i + (45 :: 45 :: bnd).length) = [45]) := by
              rw [hrest]; simp
            have hy1 : ¬ startsWith [13, 10] ((W.drop s).drop ((i - s) + (45 :: 45 :: bnd).length)) = true := by
              rw [hrest2]; simp [startsWith]
            have hy2 : ¬ startsWith [45, 45] ((W.drop s).drop ((i - s) + (45 :: 45 :: bnd).length)) = true := by
              rw [hrest2]; simp [startsWith, Ne.symm hc]
            have hy3 : ¬ ((W.drop s).drop ((i - s) + (45 :: 45 :: bnd).length) = [] ∨ (W.drop s).drop ((i - s) + (45 :: 45 :: bnd).length) = [13] ∨ (W.drop s).drop ((i - s) + (45 :: 45 :: bnd).length) = [45]) := by
              rw [hrest2]; simp
            rw [step_body_err W.length ⟨bnd, .BODY, W, E, hd⟩ i rfl hfind hx1 hx2 hx3,
              step_body_err (W.drop s).length ⟨bnd, .BODY, W.drop s, pushBody E (W.take s), hd⟩ (i - s) rfl hfind2 hy1 hy2 hy3]
            exact rfl
      · have hx1 : ¬ startsWith [13, 10] (W.drop (i + (45 :: 45 :: bnd).length)) = true := by
          rw [hrest]; simp [startsWith, Ne.symm hb13]
        have hx2 : ¬ startsWith [45, 45] (W.drop (i + (45 :: 45 :: bnd).length)) = true := by
          rw [hrest]; simp [startsWith, Ne.symm hb45]
        have hx3 : ¬ (W.drop (i + (45 :: 45 :: bnd).length) = [] ∨ W.drop (i + (45 :: 45 :: bnd).length) = [13] ∨ W.drop (i + (45 :: 45 :: bnd).length) = [45]) := by
          rw [hrest]; simp [hb13, hb45]
        have hy1 : ¬ startsWith [13, 10] ((W.drop s).drop ((i - s) + (45 :: 45 :: bnd).length)) = true := by
          rw [hrest2]; simp [startsWith, Ne.symm hb13]
        have hy2 : ¬ startsWith [45, 45] ((W.drop s).drop ((i - s) + (45 :: 45 :: bnd).length)) = true := by
          rw [hrest2]; simp [startsWith, Ne.symm hb45]
        have hy3 : ¬ ((W.drop s).drop ((i - s) + (45 :: 45 :: bnd).length) = [] ∨ (W.drop s).drop ((i - s) + (45 :: 45 :: bnd).length) = [13] ∨ (W.drop s).drop ((i - s) + (45 :: 45 :: bnd).length) = [45]) := by
          rw [hrest2]; simp [hb13, hb45]
        rw [step_body_err W.length ⟨bnd, .BODY, W, E, hd⟩ i rfl hfind hx1 hx2 hx3,
          step_body_err (W.drop s).length ⟨bnd, .BODY, W.drop s, pushBody E (W.take s), hd⟩ (i - s) rfl hfind2 hy1 hy2 hy3]
        exact rfl

theorem drain_extend : ∀ (n : Nat) (bd : List Nat) (st : MultipartState) (B : List Nat)
    (E0 : List MultipartPart) (hd : List (List Nat × List Nat)) (ext : List Nat), B.length ≤ n →
    (∀ e, drain ⟨bd, st, B, E0, hd⟩ = .error e → drain ⟨bd, st, B ++ ext, E0, hd⟩ = .error e) ∧
    (∀ q, drain ⟨bd, st, B, E0, hd⟩ = .ok q → ¬(q.state = .PREAMBLE ∧ q.buffer = [13]) →
      outRel (drain ⟨bd, st, B ++ ext, E0, hd⟩) (drain ⟨q.boundary, q.state, q.buffer ++ ext, q.events, q.headers⟩)) := by
  intro n
  induction n using Nat.strong_induction_on with
  | h n IH =>
  intro bd st B E0 hd ext hn
  have hbl : (45 :: 45 :: bd).length = bd.length + 2 := by simp
  cases st with
  | END =>
    have hstep : drain ⟨bd, .END, B, E0, hd⟩ = .ok ⟨bd, .END, [], E0, hd⟩ := run_end B.length _ rfl
    have hstepE : drain ⟨bd, .END, B ++ ext, E0, hd⟩ = .ok ⟨bd, .END, [], E0, hd⟩ := run_end (B ++ ext).length _ rfl
    constructor
    · intro e he
      rw [hstep] at he
      exact Except.noConfusion he
    · intro q hq hnot
      rw [hstep] at hq
      injection hq with hq2
      subst hq2
      show outRel (drain ⟨bd, .END, B ++ ext, E0, hd⟩) (drain ⟨bd, .END, [] ++ ext, E0, hd⟩)
      have hstepQ : drain ⟨bd, .END, [] ++ ext, E0, hd⟩ = .ok ⟨bd, .END, [], E0, hd⟩ :=
        run_end ([] ++ ext : List Nat).length _ rfl
      rw [hstepE, hstepQ]
      exact outRel_refl _
  | PREAMBLE =>
    cases hfind : findSub (45 :: 45 :: bd) B with
    | none =>
      have hstep : drain ⟨bd, .PREAMBLE, B, E0, hd⟩ = .ok ⟨bd, .PREAMBLE, keepT [45 :: 45 :: bd] B, E0, hd⟩ :=
        step_pre_none B.length ⟨bd, .PREAMBLE, B, E0, hd⟩ rfl hfind
      have hkle := keepT_len_le [45 :: 45 :: bd] B
      have hKX : keepT [45 :: 45 :: bd] B ++ ext = (B ++ ext).drop (B.length - (keepT [45 :: 45 :: bd] B).length) := by
        rw [dropAppendLe B ext _ (by omega)]
        rw [← keepT_drop]
      constructor
      · intro e he
        rw [hstep] at he
        exact Except.noConfusion he
      · intro q hq hnot
        rw [hstep] at hq
        injection hq with hq2
        subst hq2
        show outRel (drain ⟨bd, .PREAMBLE, B ++ ext, E0, hd⟩) (drain ⟨bd, .PREAMBLE, keepT [45 :: 45 :: bd] B ++ ext, E0, hd⟩)
        have halign : (findSub (45 :: 45 :: bd) (B ++ ext) = none ∧ findSub (45 :: 45 :: bd) (keepT [45 :: 45 :: bd] B ++ ext) = none ∧
            keepT [45 :: 45 :: bd] (B ++ ext) = keepT [45 :: 45 :: bd] (keepT [45 :: 45 :: bd] B ++ ext)) ∨
            (∃ i1 i2, findSub (45 :: 45 :: bd) (B ++ ext) = some i1 ∧ findSub (45 :: 45 :: bd) (keepT [45 :: 45 :: bd] B ++ ext) = some i2 ∧
              (B ++ ext).drop (i1 + (45 :: 45 :: bd).length) = (keepT [45 :: 45 :: bd] B ++ ext).drop (i2 + (45 :: 45 :: bd).length)) := by
          cases hfindE : findSub (45 :: 45 :: bd) (B ++ ext) with
          | none =>
            left
            refine ⟨rfl, ?_, keepT_ext [45 :: 45 :: bd] B ext⟩
            rw [hKX]
            exact findSub_drop_none hfindE (by simp)
          | some j =>
            right
            have hjge : B.length - (keepT [45 :: 45 :: bd] B).length ≤ j :=
              straddle_bound_pat [45 :: 45 :: bd] (45 :: 45 :: bd) B ext j (by simp)
                (findSub_none_all hfind (by simp)) (findSub_found hfindE)
            refine ⟨j, j - (B.length - (keepT [45 :: 45 :: bd] B).length), rfl, ?_, ?_⟩
            · rw [hKX]
              exact findSub_drop_some hfindE hjge
            · rw [hKX, dropDrop]
              congr 1
              omega
        rw [pre_align bd hd E0 (B ++ ext) (keepT [45 :: 45 :: bd] B ++ ext) halign]
        exact outRel_refl _
    | some i =>
      have hle := findSub_le hfind
      have hfindE : findSub (45 :: 45 :: bd) (B ++ ext) = some i := findSub_append_some hfind
      have hrl : (B.drop (i + (45 :: 45 :: bd).length)).length = B.length - (i + (45 :: 45 :: bd).length) := by simp
      have hdropE : (B ++ ext).drop (i + (45 :: 45 :: bd).length) = B.drop (i + (45 :: 45 :: bd).length) ++ ext :=
        dropAppendLe B ext _ (by omega)
      cases hrest : B.drop (i + (45 :: 45 :: bd).length) with
      | nil =>
        have hstep : drain ⟨bd, .PREAMBLE, B, E0, hd⟩ = .ok ⟨bd, .PREAMBLE, 45 :: 45 :: bd, E0, hd⟩ :=
          step_pre_nil B.length ⟨bd, .PREAMBLE, B, E0, hd⟩ i rfl hfind hrest
        have hfind0 : findSub (45 :: 45 :: bd) ((45 :: 45 :: bd) ++ ext) = some 0 := by
          apply findSub_eq
          · intro j hj
            exact absurd hj (by omega)
          · rw [List.drop_zero]
            exact startsWith_self_append _ _
        have hrest0 : ((45 :: 45 :: bd) ++ ext).drop (0 + (45 :: 45 :: bd).length) = ext := by
          rw [Nat.zero_add]
          have h0 := dropLenPlus (45 :: 45 :: bd) ext 0
          simpa using h0
        constructor
        · intro e he
          rw [hstep] at he
          exact Except.noConfusion he
        · intro q hq hnot
          rw [hstep] at hq
          injection hq with hq2
          subst hq2
          show outRel (drain ⟨bd, .PREAMBLE, B ++ ext, E0, hd⟩) (drain ⟨bd, .PREAMBLE, (45 :: 45 :: bd) ++ ext, E0, hd⟩)
          rw [pre_align bd hd E0 (B ++ ext) ((45 :: 45 :: bd) ++ ext)
            (Or.inr ⟨i, 0, hfindE, hfind0, by rw [hdropE, hrest, hrest0]; simp⟩)]
          exact outRel_refl _
      | cons b t =>
        rw [hrest] at hrl
        by_cases hb13 : b = 13
        · subst hb13
          cases t with
          | nil =>
            have hstep : drain ⟨bd, .PREAMBLE, B, E0, hd⟩ = .ok ⟨bd, .PREAMBLE, [13], E0, hd⟩ :=
              step_pre_cr B.length ⟨bd, .PREAMBLE, B, E0, hd⟩ i rfl hfind hrest
            constructor
            · intro e he
              rw [hstep] at he
              exact Except.noConfusion he
            · intro q hq hnot
              rw [hstep] at hq
              injection hq with hq2
              subst hq2
              exact absurd ⟨rfl, rfl⟩ hnot
          | cons c t2 =>
            by_cases hc : c = 10
            · subst hc
              have hrlen : t2.length < B.length := by simp at hrl; omega
              have hstep : drain ⟨bd, .PREAMBLE, B, E0, hd⟩ = drain ⟨bd, .HEADER, t2, E0, []⟩ := by
                show run (B.length + 1) ⟨bd, .PREAMBLE, B, E0, hd⟩ = _
                rw [step_pre_crlf B.length ⟨bd, .PREAMBLE, B, E0, hd⟩ i t2 rfl hfind hrest]
                exact run_fuel_irrel B.length ⟨bd, .HEADER, t2, E0, []⟩ (t2.length + 1) hrlen (by show t2.length < t2.length + 1; omega)
              have hrestE2 : (B ++ ext).drop (i + (45 :: 45 :: bd).length) = 13 :: 10 :: (t2 ++ ext) := by
                rw [hdropE, hrest]
                rfl
              have hrlenE : (t2 ++ ext).length < (B ++ ext).length := by simp; omega
              have hstepE : drain ⟨bd, .PREAMBLE, B ++ ext, E0, hd⟩ = drain ⟨bd, .HEADER, t2 ++ ext, E0, []⟩ := by
                show run ((B ++ ext).length + 1) ⟨bd, .PREAMBLE, B ++ ext, E0, hd⟩ = _
                rw [step_pre_crlf (B ++ ext).length ⟨bd, .PREAMBLE, B ++ ext, E0, hd⟩ i (t2 ++ ext) rfl hfindE hrestE2]
                exact run_fuel_irrel (B ++ ext).length ⟨bd, .HEADER, t2 ++ ext, E0, []⟩ ((t2 ++ ext).length + 1) hrlenE (by show (t2 ++ ext).length < (t2 ++ ext).length + 1; omega)
              have hIH := IH t2.length (by omega) bd .HEADER t2 E0 [] ext (Nat.le_refl _)
              constructor
              · intro e he
                rw [hstep] at he
                rw [hstepE]
                exact hIH.1 e he
              · intro q hq hnot
                rw [hstep] at hq
                rw [hstepE]
                exact hIH.2 q hq hnot
            · have hstep : drain ⟨bd, .PREAMBLE, B, E0, hd⟩ = .error .invalidLineBreakAfterDelimiter :=
                step_pre_crerr B.length ⟨bd, .PREAMBLE, B, E0, hd⟩ i c t2 rfl hfind hrest hc
              have hrestE2 : (B ++ ext).drop (i + (45 :: 45 :: bd).length) = 13 :: c :: (t2 ++ ext) := by
                rw [hdropE, hrest]
                rfl
              have hstepE : drain ⟨bd, .PREAMBLE, B ++ ext, E0, hd⟩ = .error .invalidLineBreakAfterDelimiter :=
                step_pre_crerr (B ++ ext).length ⟨bd, .PREAMBLE, B ++ ext, E0, hd⟩ i c (t2 ++ ext) rfl hfindE hrestE2 hc
              constructor
              · intro e he
                rw [hstep] at he
                injection he with he2
                rw [hstepE, he2]
              · intro q hq hnot
                rw [hstep] at hq
                exact Except.noConfusion hq
        · by_cases hb45 : b = 45
          · subst hb45
            cases t with
            | nil =>
              have hstep : drain ⟨bd, .PREAMBLE, B, E0, hd⟩ = .ok ⟨bd, .PREAMBLE, (45 :: 45 :: bd) ++ [45], E0, hd⟩ :=
                step_pre_dash B.length ⟨bd, .PREAMBLE, B, E0, hd⟩ i rfl hfind hrest
              have hfind0 : findSub (45 :: 45 :: bd) (((45 :: 45 :: bd) ++ [45]) ++ ext) = some 0 := by
                apply findSub_eq
                · intro j hj
                  exact absurd hj (by omega)
                · rw [List.drop_zero, List.append_assoc]
                  exact startsWith_self_append _ _
              have hrest0 : (((45 :: 45 :: bd) ++ [45]) ++ ext).drop (0 + (45 :: 45 :: bd).length) = 45 :: ext := by
                rw [Nat.zero_add, List.append_assoc]
                have h0 := dropLenPlus (45 :: 45 :: bd) ([45] ++ ext) 0
                simpa using h0
              constructor
              · intro e he
                rw [hstep] at he
                exact Except.noConfusion he
              · intro q hq hnot
                rw [hstep] at hq
                injection hq with hq2
                subst hq2
                show outRel (drain ⟨bd, .PREAMBLE, B ++ ext, E0, hd⟩) (drain ⟨bd, .PREAMBLE, ((45 :: 45 :: bd) ++ [45]) ++ ext, E0, hd⟩)
                rw [pre_align bd hd E0 (B ++ ext) (((45 :: 45 :: bd) ++ [45]) ++ ext)
                  (Or.inr ⟨i, 0, hfindE, hfind0, by rw [hdropE, hrest, hrest0]; rfl⟩)]
                exact outRel_refl _
            | cons c t2 =>
              by_cases hc : c = 45
              · subst hc
                have hstep : drain ⟨bd, .PREAMBLE, B, E0, hd⟩ = .ok ⟨bd, .END, [], E0, hd⟩ := by
                  show run (B.length + 1) ⟨bd, .PREAMBLE, B, E0, hd⟩ = _
                  rw [step_pre_close B.length ⟨bd, .PREAMBLE, B, E0, hd⟩ i t2 rfl hfind hrest]
                  exact run_end_any B.length ⟨bd, .END, [], E0, hd⟩ rfl rfl
                have hrestE2 : (B ++ ext).drop (i + (45 :: 45 :: bd).length) = 45 :: 45 :: (t2 ++ ext) := by
                  rw [hdropE, hrest]
                  rfl
                have hstepE : drain ⟨bd, .PREAMBLE, B ++ ext, E0, hd⟩ = .ok ⟨bd, .END, [], E0, hd⟩ := by
                  show run ((B ++ ext).length + 1) ⟨bd, .PREAMBLE, B ++ ext, E0, hd⟩ = _
                  rw [step_pre_close (B ++ ext).length ⟨bd, .PREAMBLE, B ++ ext, E0, hd⟩ i (t2 ++ ext) rfl hfindE hrestE2]
                  exact run_end_any (B ++ ext).length ⟨bd, .END, [], E0, hd⟩ rfl rfl
                constructor
                · intro e he
                  rw [hstep] at he
                  exact Except.noConfusion he
                · intro q hq hnot
                  rw [hstep] at hq
                  injection hq with hq2
                  subst hq2
                  show outRel (drain ⟨bd, .PREAMBLE, B ++ ext, E0, hd⟩) (drain ⟨bd, .END, [] ++ ext, E0, hd⟩)
                  have hstepQ : drain ⟨bd, .END, [] ++ ext, E0, hd⟩ = .ok ⟨bd, .END, [], E0, hd⟩ :=
                    run_end ([] ++ ext : List Nat).length _ rfl
                  rw [hstepE, hstepQ]
                  exact outRel_refl _
              · have hrlen : (45 :: c :: t2).length < B.length := by simp at hrl ⊢; omega
                have hstep : drain ⟨bd, .PREAMBLE, B, E0, hd⟩ = drain ⟨bd, .PREAMBLE, 45 :: c :: t2, E0, hd⟩ := by
                  show run (B.length + 1) ⟨bd, .PREAMBLE, B, E0, hd⟩ = _
                  rw [step_pre_dashskip B.length ⟨bd, .PREAMBLE, B, E0, hd⟩ i c t2 rfl hfind hrest hc]
                  exact run_fuel_irrel B.length ⟨bd, .PREAMBLE, 45 :: c :: t2, E0, hd⟩ ((45 :: c :: t2).length + 1) hrlen (by show (45 :: c :: t2).length < (45 :: c :: t2).length + 1; omega)
                have hrestE2 : (B ++ ext).drop (i + (45 :: 45 :: bd).length) = 45 :: c :: (t2 ++ ext) := by
                  rw [hdropE, hrest]
                  rfl
                have hrlenE : (45 :: c :: (t2 ++ ext)).length < (B ++ ext).length := by simp at hrl ⊢; omega
                have hstepE : drain ⟨bd, .PREAMBLE, B ++ ext, E0, hd⟩ = drain ⟨bd, .PREAMBLE, 45 :: c :: (t2 ++ ext), E0, hd⟩ := by
                  show run ((B ++ ext).length + 1) ⟨bd, .PREAMBLE, B ++ ext, E0, hd⟩ = _
                  rw [step_pre_dashskip (B ++ ext).length ⟨bd, .PREAMBLE, B ++ ext, E0, hd⟩ i c (t2 ++ ext) rfl hfindE hrestE2 hc]
                  exact run_fuel_irrel (B ++ ext).length ⟨bd, .PREAMBLE, 45 :: c :: (t2 ++ ext), E0, hd⟩ ((45 :: c :: (t2 ++ ext)).length + 1) hrlenE (by show (45 :: c :: (t2 ++ ext)).length < (45 :: c :: (t2 ++ ext)).length + 1; omega)
                have hIH := IH (45 :: c :: t2).length (by simp at hrl ⊢; omega) bd .PREAMBLE (45 :: c :: t2) E0 hd ext (Nat.le_refl _)
                constructor
                · intro e he
                  rw [hstep] at he
                  rw [hstepE]
                  exact hIH.1 e he
                · intro q hq hnot
                  rw [hstep] at hq
                  rw [hstepE]
                  exact hIH.2 q hq hnot
          · have hrlen : (b :: t).length < B.length := by simp at hrl ⊢; omega
            have hstep : drain ⟨bd, .PREAMBLE, B, E0, hd⟩ = drain ⟨bd, .PREAMBLE, b :: t, E0, hd⟩ := by
              show run (B.length + 1) ⟨bd, .PREAMBLE, B, E0, hd⟩ = _
              rw [step_pre_skip B.length ⟨bd, .PREAMBLE, B, E0, hd⟩ i b t rfl hfind hrest hb13 hb45]
              exact run_fuel_irrel B.length ⟨bd, .PREAMBLE, b :: t, E0, hd⟩ ((b :: t).length + 1) hrlen (by show (b :: t).length < (b :: t).length + 1; omega)
            have hrestE2 : (B ++ ext).drop (i + (45 :: 45 :: bd).length) = b :: (t ++ ext) := by
              rw [hdropE, hrest]
              rfl
            have hrlenE : (b :: (t ++ ext)).length < (B ++ ext).length := by simp at hrl ⊢; omega
            have hstepE : drain ⟨bd, .PREAMBLE, B ++ ext, E0, hd⟩ = drain ⟨bd, .PREAMBLE, b :: (t ++ ext), E0, hd⟩ := by
              show run ((B ++ ext).length + 1) ⟨bd, .PREAMBLE, B ++ ext, E0, hd⟩ = _
              rw [step_pre_skip (B ++ ext).length ⟨bd, .PREAMBLE, B ++ ext, E0, hd⟩ i b (t ++ ext) rfl hfindE hrestE2 hb13 hb45]
              exact run_fuel_irrel (B ++ ext).length ⟨bd, .PREAMBLE, b :: (t ++ ext), E0, hd⟩ ((b :: (t ++ ext)).length + 1) hrlenE (by show (b :: (t ++ ext)).length < (b :: (t ++ ext)).length + 1; omega)
            have hIH := IH (b :: t).length (by simp at hrl ⊢; omega) bd .PREAMBLE (b :: t) E0 hd ext (Nat.le_refl _)
            constructor
            · intro e he
              rw [hstep] at he
              rw [hstepE]
              exact hIH.1 e he
            · intro q hq hnot
              rw [hstep] at hq
              rw [hstepE]
              exact hIH.2 q hq hnot
  | HEADER =>
    cases hscan : scanLine B with
    | more =>
      have hstep : drain ⟨bd, .HEADER, B, E0, hd⟩ = .ok ⟨bd, .HEADER, B, E0, hd⟩ :=
        step_hdr_more B.length ⟨bd, .HEADER, B, E0, hd⟩ rfl hscan
      constructor
      · intro e he
        rw [hstep] at he
        exact Except.noConfusion he
      · intro q hq hnot
        rw [hstep] at hq
        injection hq with hq2
        subst hq2
        exact outRel_refl _
    | bad =>
      have hstep : drain ⟨bd, .HEADER, B, E0, hd⟩ = .error .malformedHeader :=
        step_hdr_bad B.length ⟨bd, .HEADER, B, E0, hd⟩ rfl hscan
      have hstepE : drain ⟨bd, .HEADER, B ++ ext, E0, hd⟩ = .error .malformedHeader :=
        step_hdr_bad (B ++ ext).length ⟨bd, .HEADER, B ++ ext, E0, hd⟩ rfl (scanLine_bad_ext ext hscan)
      constructor
      · intro e he
        rw [hstep] at he
        injection he with he2
        rw [hstepE, he2]
      · intro q hq hnot
        rw [hstep] at hq
        exact Except.noConfusion hq
    | line l rest =>
      have hlen := scanLine_line_len hscan
      have hscanE : scanLine (B ++ ext) = .line l (rest ++ ext) := scanLine_line_ext ext hscan
      by_cases hl : l = []
      · subst hl
        have hlen2 : B.length = rest.length + 2 := by
          have hlen3 := hlen
          simp at hlen3
          omega
        cases hcd : (hd.any fun h => h.1 == cdBytes) with
        | false =>
          have hstep : drain ⟨bd, .HEADER, B, E0, hd⟩ = .error .missingContentDisposition :=
            step_hdr_empty_nocd B.length ⟨bd, .HEADER, B, E0, hd⟩ rest rfl hscan hcd
          have hstepE : drain ⟨bd, .HEADER, B ++ ext, E0, hd⟩ = .error .missingContentDisposition :=
            step_hdr_empty_nocd (B ++ ext).length ⟨bd, .HEADER, B ++ ext, E0, hd⟩ (rest ++ ext) rfl hscanE hcd
          constructor
          · intro e he
            rw [hstep] at he
            injection he with he2
            rw [hstepE, he2]
          · intro q hq hnot
            rw [hstep] at hq
            exact Except.noConfusion hq
        | true =>
          have hstep : drain ⟨bd, .HEADER, B, E0, hd⟩ = drain ⟨bd, .BODY, rest, E0, hd⟩ := by
            show run (B.length + 1) ⟨bd, .HEADER, B, E0, hd⟩ = _
            rw [step_hdr_empty_cd B.length ⟨bd, .HEADER, B, E0, hd⟩ rest rfl hscan hcd]
            exact run_fuel_irrel B.length ⟨bd, .BODY, rest, E0, hd⟩ (rest.length + 1) (by show rest.length < B.length; omega) (by show rest.length < rest.length + 1; omega)
          have hstepE : drain ⟨bd, .HEADER, B ++ ext, E0, hd⟩ = drain ⟨bd, .BODY, rest ++ ext, E0, hd⟩ := by
            show run ((B ++ ext).length + 1) ⟨bd, .HEADER, B ++ ext, E0, hd⟩ = _
            rw [step_hdr_empty_cd (B ++ ext).length ⟨bd, .HEADER, B ++ ext, E0, hd⟩ (rest ++ ext) rfl hscanE hcd]
            exact run_fuel_irrel (B ++ ext).length ⟨bd, .BODY, rest ++ ext, E0, hd⟩ ((rest ++ ext).length + 1) (by show (rest ++ ext).length < (B ++ ext).length; simp; omega) (by show (rest ++ ext).length < (rest ++ ext).length + 1; omega)
          have hIH := IH rest.length (by omega) bd .BODY rest E0 hd ext (Nat.le_refl _)
          constructor
          · intro e he
            rw [hstep] at he
            rw [hstepE]
            exact hIH.1 e he
          · intro q hq hnot
            rw [hstep] at hq
            rw [hstepE]
            exact hIH.2 q hq hnot
      · cases hctrl : (l.any fun b => ! allowedB b) with
        | true =>
          have hstep : drain ⟨bd, .HEADER, B, E0, hd⟩ = .error .malformedHeader :=
            step_hdr_ctrl B.length ⟨bd, .HEADER, B, E0, hd⟩ l rest rfl hscan hl hctrl
          have hstepE : drain ⟨bd, .HEADER, B ++ ext, E0, hd⟩ = .error .malformedHeader :=
            step_hdr_ctrl (B ++ ext).length ⟨bd, .HEADER, B ++ ext, E0, hd⟩ l (rest ++ ext) rfl hscanE hl hctrl
          constructor
          · intro e he
            rw [hstep] at he
            injection he with he2
            rw [hstepE, he2]
          · intro q hq hnot
            rw [hstep] at hq
            exact Except.noConfusion hq
        | false =>
          cases hcolon : findSub [58] l with
          | none =>
            have hstep : drain ⟨bd, .HEADER, B, E0, hd⟩ = .error .malformedHeader :=
              step_hdr_nocolon B.length ⟨bd, .HEADER, B, E0, hd⟩ l rest rfl hscan hl hctrl hcolon
            have hstepE : drain ⟨bd, .HEADER, B ++ ext, E0, hd⟩ = .error .malformedHeader :=
              step_hdr_nocolon (B ++ ext).length ⟨bd, .HEADER, B ++ ext, E0, hd⟩ l (rest ++ ext) rfl hscanE hl hctrl hcolon
            constructor
            · intro e he
              rw [hstep] at he
              injection he with he2
              rw [hstepE, he2]
            · intro q hq hnot
              rw [hstep] at hq
              exact Except.noConfusion hq
          | some k =>
            have hrlen : rest.length < B.length := by omega
            have hstep : drain ⟨bd, .HEADER, B, E0, hd⟩ = drain ⟨bd, .HEADER, rest, E0 ++ [.Header (lowerB (l.take k)) (rtrim (ltrim (l.drop (k + 1))))], hd ++ [(lowerB (l.take k), rtrim (ltrim (l.drop (k + 1))))]⟩ := by
              show run (B.length + 1) ⟨bd, .HEADER, B, E0, hd⟩ = _
              rw [step_hdr_line B.length ⟨bd, .HEADER, B, E0, hd⟩ l rest k rfl hscan hl hctrl hcolon]
              exact run_fuel_irrel B.length ⟨bd, .HEADER, rest, E0 ++ [.Header (lowerB (l.take k)) (rtrim (ltrim (l.drop (k + 1))))], hd ++ [(lowerB (l.take k), rtrim (ltrim (l.drop (k + 1))))]⟩ (rest.length + 1) hrlen (by show rest.length < rest.length + 1; omega)
            have hrlenE : (rest ++ ext).length < (B ++ ext).length := by simp; omega
            have hstepE : drain ⟨bd, .HEADER, B ++ ext, E0, hd⟩ = drain ⟨bd, .HEADER, rest ++ ext, E0 ++ [.Header (lowerB (l.take k)) (rtrim (ltrim (l.drop (k + 1))))], hd ++ [(lowerB (l.take k), rtrim (ltrim (l.drop (k + 1))))]⟩ := by
              show run ((B ++ ext).length + 1) ⟨bd, .HEADER, B ++ ext, E0, hd⟩ = _
              rw [step_hdr_line (B ++ ext).length ⟨bd, .HEADER, B ++ ext, E0, hd⟩ l (rest ++ ext) k rfl hscanE hl hctrl hcolon]
              exact run_fuel_irrel (B ++ ext).length ⟨bd, .HEADER, rest ++ ext, E0 ++ [.Header (lowerB (l.take k)) (rtrim (ltrim (l.drop (k + 1))))], hd ++ [(lowerB (l.take k), rtrim (ltrim (l.drop (k + 1))))]⟩ ((rest ++ ext).length + 1) hrlenE (by show (rest ++ ext).length < (rest ++ ext).length + 1; omega)
            have hIH := IH rest.length (by omega) bd .HEADER rest (E0 ++ [.Header (lowerB (l.take k)) (rtrim (ltrim (l.drop (k + 1))))]) (hd ++ [(lowerB (l.take k), rtrim (ltrim (l.drop (k + 1))))]) ext (Nat.le_refl _)
            constructor
            · intro e he
              rw [hstep] at he
              rw [hstepE]
              exact hIH.1 e he
            · intro q hq hnot
              rw [hstep] at hq
              rw [hstepE]
              exact hIH.2 q hq hnot
  | BODY =>
    cases hfind : findSub (45 :: 45 :: bd) B with
    | none =>
      have hkle := keepT_len_le [13 :: 10 :: 45 :: 45 :: bd, 45 :: 45 :: bd] B
      have hstep : drain ⟨bd, .BODY, B, E0, hd⟩ = .ok ⟨bd, .BODY, keepT [13 :: 10 :: 45 :: 45 :: bd, 45 :: 45 :: bd] B, pushBody E0 (B.take (B.length - (keepT [13 :: 10 :: 45 :: 45 :: bd, 45 :: 45 :: bd] B).length)), hd⟩ :=
        step_body_none B.length ⟨bd, .BODY, B, E0, hd⟩ rfl hfind
      constructor
      · intro e he
        rw [hstep] at he
        exact Except.noConfusion he
      · intro q hq hnot
        rw [hstep] at hq
        injection hq with hq2
        subst hq2
        show outRel (drain ⟨bd, .BODY, B ++ ext, E0, hd⟩)
          (drain ⟨bd, .BODY, keepT [13 :: 10 :: 45 :: 45 :: bd, 45 :: 45 :: bd] B ++ ext, pushBody E0 (B.take (B.length - (keepT [13 :: 10 :: 45 :: 45 :: bd, 45 :: 45 :: bd] B).length)), hd⟩)
        have hTX : keepT [13 :: 10 :: 45 :: 45 :: bd, 45 :: 45 :: bd] B ++ ext = (B ++ ext).drop (B.length - (keepT [13 :: 10 :: 45 :: 45 :: bd, 45 :: 45 :: bd] B).length) := by
          rw [dropAppendLe B ext _ (by omega)]
          rw [← keepT_drop]
        have hPX : B.take (B.length - (keepT [13 :: 10 :: 45 :: 45 :: bd, 45 :: 45 :: bd] B).length) = (B ++ ext).take (B.length - (keepT [13 :: 10 :: 45 :: 45 :: bd, 45 :: 45 :: bd] B).length) :=
          (takeAppendLe B ext _ (by omega)).symm
        rw [hTX, hPX]
        cases hfindE : findSub (45 :: 45 :: bd) (B ++ ext) with
        | none =>
          apply bod_align_none bd hd E0 (B ++ ext) (B.length - (keepT [13 :: 10 :: 45 :: 45 :: bd, 45 :: 45 :: bd] B).length) hfindE
          · simp
            omega
          · have hket := keepT_ext [13 :: 10 :: 45 :: 45 :: bd, 45 :: 45 :: bd] B ext
            have hk2 := keepT_len_le [13 :: 10 :: 45 :: 45 :: bd, 45 :: 45 :: bd] (keepT [13 :: 10 :: 45 :: 45 :: bd, 45 :: 45 :: bd] B ++ ext)
            rw [hket]
            simp only [List.length_append] at hk2 ⊢
            omega
        | some j =>
          apply bod_align_some bd hd E0 (B ++ ext) (B.length - (keepT [13 :: 10 :: 45 :: 45 :: bd, 45 :: 45 :: bd] B).length) j hfindE
          · exact straddle_bound_pat [13 :: 10 :: 45 :: 45 :: bd, 45 :: 45 :: bd] (45 :: 45 :: bd) B ext j
              (by simp) (findSub_none_all hfind (by simp)) (findSub_found hfindE)
          · intro hcr
            have hjle := findSub_le hfindE
            obtain ⟨hj2, hdropj⟩ := take_ends_crlf (by omega) hcr
            have hsw2 : startsWith (13 :: 10 :: 45 :: 45 :: bd) ((B ++ ext).drop (j - 2)) = true := by
              rw [hdropj]
              have hfw := findSub_found hfindE
              simp [startsWith, hfw]
            have hno2 : ∀ j2, startsWith (13 :: 10 :: 45 :: 45 :: bd) (B.drop j2) = false := by
              intro j2
              cases hsw3 : startsWith (13 :: 10 :: 45 :: 45 :: bd) (B.drop j2) with
              | false => rfl
              | true =>
                have hsw4 : startsWith ([13, 10] ++ (45 :: 45 :: bd)) (B.drop j2) = true := hsw3
                have hsw5 := startsWith_append_drop hsw4
                rw [dropDrop] at hsw5
                simp only [List.length_cons, List.length_nil] at hsw5
                have hnof := findSub_none_all hfind (by simp) (j2 + 2)
                rw [show j2 + (0 + 1 + 1) = j2 + 2 from by omega] at hsw5
                exact absurd hsw5 (by simp [hnof])
            have hsb := straddle_bound_pat [13 :: 10 :: 45 :: 45 :: bd, 45 :: 45 :: bd] (13 :: 10 :: 45 :: 45 :: bd) B ext (j - 2)
              (by simp) hno2 hsw2
            omega
    | some i =>
      have hle := findSub_le hfind
      have hfindE : findSub (45 :: 45 :: bd) (B ++ ext) = some i := findSub_append_some hfind
      have hrl : (B.drop (i + (45 :: 45 :: bd).length)).length = B.length - (i + (45 :: 45 :: bd).length) := by simp
      have hdropE : (B ++ ext).drop (i + (45 :: 45 :: bd).length) = B.drop (i + (45 :: 45 :: bd).length) ++ ext :=
        dropAppendLe B ext _ (by omega)
      have htkE : (B ++ ext).take i = B.take i := takeAppendLe B ext i (by omega)
      cases hrest : B.drop (i + (45 :: 45 :: bd).length) with
      | nil =>
        have hstep : drain ⟨bd, .BODY, B, E0, hd⟩ = .ok ⟨bd, .BODY, B.drop (if endsCRLF (B.take i) then i - 2 else i), pushBody E0 (B.take (if endsCRLF (B.take i) then i - 2 else i)), hd⟩ :=
          step_body_susp B.length ⟨bd, .BODY, B, E0, hd⟩ i rfl hfind (Or.inl hrest)
        have hsB : (if endsCRLF (B.take i) then i - 2 else i) ≤ i := by split <;> omega
        constructor
        · intro e he
          rw [hstep] at he
          exact Except.noConfusion he
        · intro q hq hnot
          rw [hstep] at hq
          injection hq with hq2
          subst hq2
          show outRel (drain ⟨bd, .BODY, B ++ ext, E0, hd⟩)
            (drain ⟨bd, .BODY, B.drop (if endsCRLF (B.take i) then i - 2 else i) ++ ext, pushBody E0 (B.take (if endsCRLF (B.take i) then i - 2 else i)), hd⟩)
          have hDX : B.drop (if endsCRLF (B.take i) then i - 2 else i) ++ ext = (B ++ ext).drop (if endsCRLF (B.take i) then i - 2 else i) :=
            (dropAppendLe B ext _ (by omega)).symm
          have hPX : B.take (if endsCRLF (B.take i) then i - 2 else i) = (B ++ ext).take (if endsCRLF (B.take i) then i - 2 else i) :=
            (takeAppendLe B ext _ (by omega)).symm
          rw [hDX, hPX]
          apply bod_align_some bd hd E0 (B ++ ext) (if endsCRLF (B.take i) then i - 2 else i) i hfindE
          · exact hsB
          · intro hcr
            rw [htkE] at hcr
            rw [if_pos hcr]
            have hi2 : 2 ≤ i := (take_ends_crlf (by omega) hcr).1
            omega
      | cons b t =>
        rw [hrest] at hrl
        by_cases hb13 : b = 13
        · subst hb13
          cases t with
          | nil =>
            have hstep : drain ⟨bd, .BODY, B, E0, hd⟩ = .ok ⟨bd, .BODY, B.drop (if endsCRLF (B.take i) then i - 2 else i), pushBody E0 (B.take (if endsCRLF (B.take i) then i - 2 else i)), hd⟩ :=
              step_body_susp B.length ⟨bd, .BODY, B, E0, hd⟩ i rfl hfind (Or.inr (Or.inl hrest))
            have hsB : (if endsCRLF (B.take i) then i - 2 else i) ≤ i := by split <;> omega
            constructor
            · intro e he
              rw [hstep] at he
              exact Except.noConfusion he
            · intro q hq hnot
              rw [hstep] at hq
              injection hq with hq2
              subst hq2
              show outRel (drain ⟨bd, .BODY, B ++ ext, E0, hd⟩)
                (drain ⟨bd, .BODY, B.drop (if endsCRLF (B.take i) then i - 2 else i) ++ ext, pushBody E0 (B.take (if endsCRLF (B.take i) then i - 2 else i)), hd⟩)
              have hDX : B.drop (if endsCRLF (B.take i) then i - 2 else i) ++ ext = (B ++ ext).drop (if endsCRLF (B.take i) then i - 2 else i) :=
                (dropAppendLe B ext _ (by omega)).symm
              have hPX : B.take (if endsCRLF (B.take i) then i - 2 else i) = (B ++ ext).take (if endsCRLF (B.take i) then i - 2 else i) :=
                (takeAppendLe B ext _ (by omega)).symm
              rw [hDX, hPX]
              apply bod_align_some bd hd E0 (B ++ ext) (if endsCRLF (B.take i) then i - 2 else i) i hfindE
              · exact hsB
              · intro hcr
                rw [htkE] at hcr
                rw [if_pos hcr]
                have hi2 : 2 ≤ i := (take_ends_crlf (by omega) hcr).1
                omega
          | cons c t2 =>
            by_cases hc : c = 10
            · subst hc
              have hrlen : t2.length < B.length := by simp at hrl; omega
              have hstep : drain ⟨bd, .BODY, B, E0, hd⟩ = drain ⟨bd, .HEADER, t2, pushBody E0 (stripCRLF (B.take i)), []⟩ := by
                show run (B.length + 1) ⟨bd, .BODY, B, E0, hd⟩ = _
                rw [step_body_crlf B.length ⟨bd, .BODY, B, E0, hd⟩ i t2 rfl hfind hrest]
                exact run_fuel_irrel B.length ⟨bd, .HEADER, t2, pushBody E0 (stripCRLF (B.take i)), []⟩ (t2.length + 1) hrlen (by show t2.length < t2.length + 1; omega)
              have hrestE2 : (B ++ ext).drop (i + (45 :: 45 :: bd).length) = 13 :: 10 :: (t2 ++ ext) := by
                rw [hdropE, hrest]
                rfl
              have hrlenE : (t2 ++ ext).length < (B ++ ext).length := by simp; omega
              have hstepE : drain ⟨bd, .BODY, B ++ ext, E0, hd⟩ = drain ⟨bd, .HEADER, t2 ++ ext, pushBody E0 (stripCRLF (B.take i)), []⟩ := by
                show run ((B ++ ext).length + 1) ⟨bd, .BODY, B ++ ext, E0, hd⟩ = _
                rw [step_body_crlf (B ++ ext).length ⟨bd, .BODY, B ++ ext, E0, hd⟩ i (t2 ++ ext) rfl hfindE hrestE2, htkE]
                exact run_fuel_irrel (B ++ ext).length ⟨bd, .HEADER, t2 ++ ext, pushBody E0 (stripCRLF (B.take i)), []⟩ ((t2 ++ ext).length + 1) hrlenE (by show (t2 ++ ext).length < (t2 ++ ext).length + 1; omega)
              have hIH := IH t2.length (by omega) bd .HEADER t2 (pushBody E0 (stripCRLF (B.take i))) [] ext (Nat.le_refl _)
              constructor
              · intro e he
                rw [hstep] at he
                rw [hstepE]
                exact hIH.1 e he
              · intro q hq hnot
                rw [hstep] at hq
                rw [hstepE]
                exact hIH.2 q hq hnot
            · have hx1 : ¬ startsWith [13, 10] (B.drop (i + (45 :: 45 :: bd).length)) = true := by
                rw [hrest]; simp [startsWith, Ne.symm hc]
              have hx2 : ¬ startsWith [45, 45] (B.drop (i + (45 :: 45 :: bd).length)) = true := by
                rw [hrest]; simp [startsWith]
              have hx3 : ¬ (B.drop (i + (45 :: 45 :: bd).length) = [] ∨ B.drop (i + (45 :: 45 :: bd).length) = [13] ∨ B.drop (i + (45 :: 45 :: bd).length) = [45]) := by
                rw [hrest]; simp
              have hstep : drain ⟨bd, .BODY, B, E0, hd⟩ = .error .invalidLineBreakAfterDelimiter :=
                step_body_err B.length ⟨bd, .BODY, B, E0, hd⟩ i rfl hfind hx1 hx2 hx3
              have hy1 : ¬ startsWith [13, 10] ((B ++ ext).drop (i + (45 :: 45 :: bd).length)) = true := by
                rw [hdropE, hrest]; simp [startsWith, Ne.symm hc]
              have hy2 : ¬ startsWith [45, 45] ((B ++ ext).drop (i + (45 :: 45 :: bd).length)) = true := by
                rw [hdropE, hrest]; simp [startsWith]
              have hy3 : ¬ ((B ++ ext).drop (i + (45 :: 45 :: bd).length) = [] ∨ (B ++ ext).drop (i + (45 :: 45 :: bd).length) = [13] ∨ (B ++ ext).drop (i + (45 :: 45 :: bd).length) = [45]) := by
                rw [hdropE, hrest]; simp
              have hstepE : drain ⟨bd, .BODY, B ++ ext, E0, hd⟩ = .error .invalidLineBreakAfterDelimiter :=
                step_body_err (B ++ ext).length ⟨bd, .BODY, B ++ ext, E0, hd⟩ i rfl hfindE hy1 hy2 hy3
              constructor
              · intro e he
                rw [hstep] at he
                injection he with he2
                rw [hstepE, he2]
              · intro q hq hnot
                rw [hstep] at hq
                exact Except.noConfusion hq
        · by_cases hb45 : b = 45
          · subst hb45
            cases t with
            | nil =>
              have hstep : drain ⟨bd, .BODY, B, E0, hd⟩ = .ok ⟨bd, .BODY, B.drop (if endsCRLF (B.take i) then i - 2 else i), pushBody E0 (B.take (if endsCRLF (B.take i) then i - 2 else i)), hd⟩ :=
                step_body_susp B.length ⟨bd, .BODY, B, E0, hd⟩ i rfl hfind (Or.inr (Or.inr hrest))
              have hsB : (if endsCRLF (B.take i) then i - 2 else i) ≤ i := by split <;> omega
              constructor
              · intro e he
                rw [hstep] at he
                exact Except.noConfusion he
              · intro q hq hnot
                rw [hstep] at hq
                injection hq with hq2
                subst hq2
                show outRel (drain ⟨bd, .BODY, B ++ ext, E0, hd⟩)
                  (drain ⟨bd, .BODY, B.drop (if endsCRLF (B.take i) then i - 2 else i) ++ ext, pushBody E0 (B.take (if endsCRLF (B.take i) then i - 2 else i)), hd⟩)
                have hDX : B.drop (if endsCRLF (B.take i) then i - 2 else i) ++ ext = (B ++ ext).drop (if endsCRLF (B.take i) then i - 2 else i) :=
                  (dropAppendLe B ext _ (by omega)).symm
                have hPX : B.take (if endsCRLF (B.take i) then i - 2 else i) = (B ++ ext).take (if endsCRLF (B.take i) then i - 2 else i) :=
                  (takeAppendLe B ext _ (by omega)).symm
                rw [hDX, hPX]
                apply bod_align_some bd hd E0 (B ++ ext) (if endsCRLF (B.take i) then i - 2 else i) i hfindE
                · exact hsB
                · intro hcr
                  rw [htkE] at hcr
                  rw [if_pos hcr]
                  have hi2 : 2 ≤ i := (take_ends_crlf (by omega) hcr).1
                  omega
            | cons c t2 =>
              by_cases hc : c = 45
              · subst hc
                have hstep : drain ⟨bd, .BODY, B, E0, hd⟩ = .ok ⟨bd, .END, [], pushBody E0 (stripCRLF (B.take i)), hd⟩ := by
                  show run (B.length + 1) ⟨bd, .BODY, B, E0, hd⟩ = _
                  rw [step_body_close B.length ⟨bd, .BODY, B, E0, hd⟩ i t2 rfl hfind hrest]
                  exact run_end_any B.length ⟨bd, .END, [], pushBody E0 (stripCRLF (B.take i)), hd⟩ rfl rfl
                have hrestE2 : (B ++ ext).drop (i + (45 :: 45 :: bd).length) = 45 :: 45 :: (t2 ++ ext) := by
                  rw [hdropE, hrest]
                  rfl
                have hstepE : drain ⟨bd, .BODY, B ++ ext, E0, hd⟩ = .ok ⟨bd, .END, [], pushBody E0 (stripCRLF (B.take i)), hd⟩ := by
                  show run ((B ++ ext).length + 1) ⟨bd, .BODY, B ++ ext, E0, hd⟩ = _
                  rw [step_body_close (B ++ ext).length ⟨bd, .BODY, B ++ ext, E0, hd⟩ i (t2 ++ ext) rfl hfindE hrestE2, htkE]
                  exact run_end_any (B ++ ext).length ⟨bd, .END, [], pushBody E0 (stripCRLF (B.take i)), hd⟩ rfl rfl
                constructor
                · intro e he
                  rw [hstep] at he
                  exact Except.noConfusion he
                · intro q hq hnot
                  rw [hstep] at hq
                  injection hq with hq2
                  subst hq2
                  show outRel (drain ⟨bd, .BODY, B ++ ext, E0, hd⟩) (drain ⟨bd, .END, [] ++ ext, pushBody E0 (stripCRLF (B.take i)), hd⟩)
                  have hstepQ : drain ⟨bd, .END, [] ++ ext, pushBody E0 (stripCRLF (B.take i)), hd⟩ = .ok ⟨bd, .END, [], pushBody E0 (stripCRLF (B.take i)), hd⟩ :=
                    run_end ([] ++ ext : List Nat).length _ rfl
                  rw [hstepE, hstepQ]
                  exact outRel_refl _
              · have hx1 : ¬ startsWith [13, 10] (B.drop (i + (45 :: 45 :: bd).length)) = true := by
                  rw [hrest]; simp [startsWith]
                have hx2 : ¬ startsWith [45, 45] (B.drop (i + (45 :: 45 :: bd).length)) = true := by
                  rw [hrest]; simp [startsWith, Ne.symm hc]
                have hx3 : ¬ (B.drop (i + (45 :: 45 :: bd).length) = [] ∨ B.drop (i + (45 :: 45 :: bd).length) = [13] ∨ B.drop (i + (45 :: 45 :: bd).length) = [45]) := by
                  rw [hrest]; simp
                have hstep : drain ⟨bd, .BODY, B, E0, hd⟩ = .error .invalidLineBreakAfterDelimiter :=
                  step_body_err B.length ⟨bd, .BODY, B, E0, hd⟩ i rfl hfind hx1 hx2 hx3
                have hy1 : ¬ startsWith [13, 10] ((B ++ ext).drop (i + (45 :: 45 :: bd).length)) = true := by
                  rw [hdropE, hrest]; simp [startsWith]
                have hy2 : ¬ startsWith [45, 45] ((B ++ ext).drop (i + (45 :: 45 :: bd).length)) = true := by
                  rw [hdropE, hrest]; simp [startsWith, Ne.symm hc]
                have hy3 : ¬ ((B ++ ext).drop (i + (45 :: 45 :: bd).length) = [] ∨ (B ++ ext).drop (i + (45 :: 45 :: bd).length) = [13] ∨ (B ++ ext).drop (i + (45 :: 45 :: bd).length) = [45]) := by
                  rw [hdropE, hrest]; simp
                have hstepE : drain ⟨bd, .BODY, B ++ ext, E0, hd⟩ = .error .invalidLineBreakAfterDelimiter :=
                  step_body_err (B ++ ext).length ⟨bd, .BODY, B ++ ext, E0, hd⟩ i rfl hfindE hy1 hy2 hy3
                constructor
                · intro e he
                  rw [hstep] at he
                  injection he with he2
                  rw [hstepE, he2]
                · intro q hq hnot
                  rw [hstep] at hq
                  exact Except.noConfusion hq
          · have hx1 : ¬ startsWith [13, 10] (B.drop (i + (45 :: 45 :: bd).length)) = true := by
              rw [hrest]; simp [startsWith, Ne.symm hb13]
            have hx2 : ¬ startsWith [45, 45] (B.drop (i + (45 :: 45 :: bd).length)) = true := by
              rw [hrest]; simp [startsWith, Ne.symm hb45]
            have hx3 : ¬ (B.drop (i + (45 :: 45 :: bd).length) = [] ∨ B.drop (i + (45 :: 45 :: bd).length) = [13] ∨ B.drop (i + (45 :: 45 :: bd).length) = [45]) := by
              rw [hrest]; simp [hb13, hb45]
            have hstep : drain ⟨bd, .BODY, B, E0, hd⟩ = .error .invalidLineBreakAfterDelimiter :=
              step_body_err B.length ⟨bd, .BODY, B, E0, hd⟩ i rfl hfind hx1 hx2 hx3
            have hy1 : ¬ startsWith [13, 10] ((B ++ ext).drop (i + (45 :: 45 :: bd).length)) = true := by
              rw [hdropE, hrest]; simp [startsWith, Ne.symm hb13]
            have hy2 : ¬ startsWith [45, 45] ((B ++ ext).drop (i + (45 :: 45 :: bd).length)) = true := by
              rw [hdropE, hrest]; simp [startsWith, Ne.symm hb45]
            have hy3 : ¬ ((B ++ ext).drop (i + (45 :: 45 :: bd).length) = [] ∨ (B ++ ext).drop (i + (45 :: 45 :: bd).length) = [13] ∨ (B ++ ext).drop (i + (45 :: 45 :: bd).length) = [45]) := by
              rw [hdropE, hrest]; simp [hb13, hb45]
            have hstepE : drain ⟨bd, .BODY, B ++ ext, E0, hd⟩ = .error .invalidLineBreakAfterDelimiter :=
              step_body_err (B ++ ext).length ⟨bd, .BODY, B ++ ext, E0, hd⟩ i rfl hfindE hy1 hy2 hy3
            constructor
            · intro e he
              rw [hstep] at he
              injection he with he2
              rw [hstepE, he2]
            · intro q hq hnot
              rw [hstep] at hq
              exact Except.noConfusion hq

theorem feedAll_error (e : ParseError) : ∀ cs, feedAll (.error e) cs = .error e := by
  intro cs
  induction cs with
  | nil => rfl
  | cons c cs2 ih =>
    show feedAll ((Except.error e : Except ParseError MultipartParser).bind fun p => p.parse c) cs2 = _
    exact ih

theorem feed_split : ∀ (cs : List (List Nat)) (p : MultipartParser) (c : List Nat),
    goodFeed p (c :: cs) = true →
    obs (feedAll (p.parse c) cs) = obs (p.parse (c ++ cs.flatten)) := by
  intro cs
  induction cs with
  | nil =>
    intro p c hg
    show obs (p.parse c) = obs (p.parse (c ++ ([] : List (List Nat)).flatten))
    rw [show c ++ ([] : List (List Nat)).flatten = c from by simp]
  | cons c2 cs2 ih =>
    intro p c hg
    cases hp : p.parse c with
    | error e =>
      rw [feedAll_error]
      have hp2 : drain ⟨p.boundary, p.state, p.buffer ++ c, p.events, p.headers⟩ = .error e := by
        rw [parse_eq_drain] at hp
        exact hp
      have hDE := (drain_extend (p.buffer ++ c).length p.boundary p.state (p.buffer ++ c) p.events p.headers ((c2 :: cs2).flatten) (Nat.le_refl _)).1 e hp2
      have hR : p.parse (c ++ (c2 :: cs2).flatten) = .error e := by
        rw [parse_eq_drain]
        show drain ⟨p.boundary, p.state, p.buffer ++ (c ++ (c2 :: cs2).flatten), p.events, p.headers⟩ = .error e
        rw [← List.append_assoc]
        exact hDE
      rw [hR]
    | ok q =>
      have hg2 : (decide ¬(q.state = .PREAMBLE ∧ q.buffer = [13]) && goodFeed q (c2 :: cs2)) = true := by
        have hgU : goodFeed p (c :: c2 :: cs2) = true := hg
        simp only [goodFeed] at hgU
        rw [hp] at hgU
        exact hgU
      simp only [Bool.and_eq_true, decide_eq_true_eq] at hg2
      obtain ⟨hnot, hgq⟩ := hg2
      show obs (feedAll (q.parse c2) cs2) = obs (p.parse (c ++ (c2 :: cs2).flatten))
      rw [ih q c2 hgq]
      have hp2 : drain ⟨p.boundary, p.state, p.buffer ++ c, p.events, p.headers⟩ = .ok q := by
        rw [parse_eq_drain] at hp
        exact hp
      have hDE := (drain_extend (p.buffer ++ c).length p.boundary p.state (p.buffer ++ c) p.events p.headers ((c2 :: cs2).flatten) (Nat.le_refl _)).2 q hp2 hnot
      have hobs := outRel_obs hDE
      calc obs (q.parse (c2 ++ cs2.flatten))
          = obs (drain ⟨q.boundary, q.state, q.buffer ++ (c2 :: cs2).flatten, q.events, q.headers⟩) := by
            rw [parse_eq_drain, List.flatten_cons]
        _ = obs (drain ⟨p.boundary, p.state, (p.buffer ++ c) ++ (c2 :: cs2).flatten, p.events, p.headers⟩) := hobs.symm
        _ = obs (p.parse (c ++ (c2 :: cs2).flatten)) := by
            rw [parse_eq_drain]
            rw [← List.append_assoc]

/-- Claim C1: streaming chunking invariance, as a general principle over
every boundary and every partition of the input into chunks.  Feeding the
chunks one parse call at a time yields the same observable outcome — the
same error, or the same final state together with the same event sequence
up to coalescing of adjacent Body fragments — as parsing the concatenated
input in a single call, provided no intermediate parse call (one with
further chunks still to come) suspends in PREAMBLE retaining exactly a
lone CR, the state reached when a chunk ends at the CR directly following
a matched preamble delimiter; that single lossy resynchronisation point is
the exception claim_C1_counterexample exhibits, and goodFeed states its
absence. -/
theorem claim_C1 (b : List Nat) (cs : List (List Nat))
    (hgood : ∀ p, MultipartParser.new b = .ok p → goodFeed p cs = true) :
    obs (feedAll (MultipartParser.new b) cs)
      = obs ((MultipartParser.new b).bind fun p => p.parse cs.flatten) := by
  cases hnew : MultipartParser.new b with
  | error e =>
    rw [feedAll_error]
    rfl
  | ok p =>
    have hg := hgood p hnew
    have hp : p = ⟨b, .PREAMBLE, [], [], []⟩ := by
      simp only [MultipartParser.new] at hnew
      split at hnew
      · exact Except.noConfusion hnew
      · injection hnew with h2
        exact h2.symm
    subst hp
    cases cs with
    | nil =>
      have hf : findSub (45 :: 45 :: b) ([] : List Nat) = none := by
        simp [findSub, startsWith]
      have hparse : (⟨b, .PREAMBLE, [], [], []⟩ : MultipartParser).parse ([] : List Nat) = .ok ⟨b, .PREAMBLE, [], [], []⟩ :=
        step_pre_none 0 ⟨b, .PREAMBLE, [], [], []⟩ rfl hf
      show obs (Except.ok (⟨b, .PREAMBLE, [], [], []⟩ : MultipartParser))
        = obs ((⟨b, .PREAMBLE, [], [], []⟩ : MultipartParser).parse (([] : List (List Nat)).flatten))
      rw [show (([] : List (List Nat)).flatten) = ([] : List Nat) from rfl, hparse]
    | cons c cs2 =>
      show obs (feedAll ((⟨b, .PREAMBLE, [], [], []⟩ : MultipartParser).parse c) cs2)
        = obs ((⟨b, .PREAMBLE, [], [], []⟩ : MultipartParser).parse ((c :: cs2).flatten))
      rw [feed_split cs2 ⟨b, .PREAMBLE, [], [], []⟩ c hg, List.flatten_cons]

/-- Witness for claim C1 on the straddle scenario of spec section 8 split
after eight bytes, the chunks being the CRLF with a partial dash-boundary
and the remainder of the message. -/
theorem claim_C1_witness :
    obs (feedAll (MultipartParser.new (ascii "boundary")) [straddleInput.take 8, straddleInput.drop 8])
      = obs ((MultipartParser.new (ascii "boundary")).bind fun p => p.parse ([straddleInput.take 8, straddleInput.drop 8] : List (List Nat)).flatten) :=
  claim_C1 (ascii "boundary") [straddleInput.take 8, straddleInput.drop 8]
    (fun p hp => by
      have hnew : MultipartParser.new (ascii "boundary") = .ok ⟨ascii "boundary", .PREAMBLE, [], [], []⟩ := by decide
      rw [hnew] at hp
      injection hp with h2
      rw [← h2]
      decide)
